import Mathlib

/-!
# Dygraph operator dispatch: data preparation and kernel-context construction

A shallow embedding of `paddle/fluid/imperative/prepared_operator.h`:

* `GetAttr`: attribute lookup over the explicit and the default attribute map;
* `PrepareData`: per-slot data transformation with the wrapper cache and the
  lazily copied shadow input map;
* `BuildDygraphPtenKernelContext`: wiring of inputs, outputs and attributes into a
  `KernelContext`.

Shared pointers are addresses (`VarId`) into a heap of `VariableWrapper` objects; the
heap gives a wrapper at every address and the addresses below `next` are the allocated
ones.  `std::map` and `std::unordered_map` are association lists read by first match, and
a C++ exception is an `Error` value.  Functions of the framework that the header only
calls (`NeedTransform`, `TransformData`, `GetKernelTypeForVar`, ...) are fields of the
environment `Env`, so every theorem holds for all their implementations.  The calls the
header makes are recorded in the `trace` of the state, which is how a property such as
"no transform for this slot" is stated.
-/

set_option autoImplicit false

namespace Paddle

/-! ## Errors -/

/-- The error kinds raised by the header and by the containers it calls.
`NullPointer` stands for the dereference of a null pointer. -/
inductive Error where
  | NotFound (name : String)
  | InvalidArgument (what : String) (names defs : Nat)
  | Unimplemented (what : String)
  | BadGet
  | OutOfRange
  | PreconditionNotMet
  | NullPointer
  deriving DecidableEq, Repr

deriving instance DecidableEq for Except

/-! ## Association lists (`std::map`, `std::unordered_map`) -/

/-- The value of the first entry with key `k`: `m.find(k)`. -/
def AssocFind {κ α : Type} [DecidableEq κ] (k : κ) : List (κ × α) → Option α
  | [] => none
  | (k1, v) :: rest => if k1 = k then some v else AssocFind k rest

/-- Store `v` under `k`, overwriting the entry when the key exists: `m[k] = v`. -/
def AssocSet {κ α : Type} [DecidableEq κ] (k : κ) (v : α) : List (κ × α) → List (κ × α)
  | [] => [(k, v)]
  | (k1, v1) :: rest => if k1 = k then (k1, v) :: rest else (k1, v1) :: AssocSet k v rest

/-- The keys of a map, in iteration order. -/
def AssocKeys {κ α : Type} (m : List (κ × α)) : List κ := m.map Prod.fst

/-! ## Attributes -/

/-- Modelled from the spec: `framework::Attribute` is not in the sources.  It is the
tagged union of int, float, bool, string, 64-bit int and the vectors thereof that the
header tests for; a `float` is kept as its bit pattern. -/
inductive Attribute where
  | int (v : Int)
  | float (bits : Nat)
  | string (v : String)
  | ints (v : List Int)
  | floats (bits : List Nat)
  | strings (v : List String)
  | bool (v : Bool)
  | bools (v : List Bool)
  | long (v : Int)
  | longs (v : List Int)
  deriving DecidableEq, Repr

/-- Modelled from the spec: `framework::AttributeMap`, the mapping from attribute name
to attribute value. -/
abbrev AttributeMap := List (String × Attribute)

/-- Lookup of `name` in `attrs`, then in `default_attrs`; `PADDLE_ENFORCE_EQ(found, true,
NotFound)` and `return it->second` (prepared_operator.h, lines 197-210). -/
def GetAttr (attrs default_attrs : AttributeMap) (name : String) : Except Error Attribute :=
  let it := AssocFind name attrs
  let found := it.isSome
  let it := if !found then AssocFind name default_attrs else it
  let found := if !found then (AssocFind name default_attrs).isSome else found
  if found = true then
    match it with
    | some v => .ok v
    | none => .error .NullPointer
  else .error (.NotFound name)

/-! ## Tensors, variables, wrappers -/

/-- A shared pointer to a variable wrapper: an address of the heap. -/
abbrev VarId := Nat

/-- Modelled from the spec: `framework::OpKernelType` is not in the sources.  The kernel
execution key is the composite of data type, data layout and place. -/
structure OpKernelType where
  data_type_ : Nat
  data_layout_ : Nat
  place_ : Nat
  deriving DecidableEq, Repr

/-- Modelled from the spec: `framework::Tensor` is not in the sources.  A tensor records
whether it has storage (`IsInitialized`), its data type, layout and place, and `data`,
which stands for its contents. -/
structure Tensor where
  initialized : Bool
  type : Nat
  layout : Nat
  place : Nat
  data : Nat
  deriving DecidableEq, Repr

/-- Modelled from the spec: `framework::Variable` is not in the sources.  The type-erased
container is not yet set, or holds a dense (LoD) tensor, selected rows with their value
tensor, or another container kind. -/
inductive Variable where
  | Empty
  | LoDTensor (t : Tensor)
  | SelectedRows (value : Tensor)
  | Other (kind : Nat)
  deriving DecidableEq, Repr

/-- Modelled from the spec: `GetTensorFromVar` is only declared in the header
(line 45).  It returns the tensor payload of a variable that holds a dense-tensor
compatible representation, and a null result otherwise. -/
def GetTensorFromVar (var : Variable) : Option Tensor :=
  match var with
  | .LoDTensor t => some t
  | .SelectedRows t => some t
  | _ => none

/-- Modelled from the spec: `SetTensorToVariable` (framework/data_transform.h) is not
in the sources.  The destination variable becomes a container of the kind of `in_var`
wrapping `tensor`; the header calls it only with an `in_var` that holds a tensor, and
on any other `in_var` the destination is returned as it is. -/
def SetTensorToVariable (in_var : Variable) (tensor : Tensor) (out_var : Variable) : Variable :=
  match in_var with
  | .LoDTensor _ => .LoDTensor tensor
  | .SelectedRows _ => .SelectedRows tensor
  | _ => out_var

/-- Modelled from the spec: `imperative::VariableWrapper` is not in the sources.  The
wrapper has a name, a variable type tag, the variable, data type metadata, the forward
data type, the weak link to the gradient variable and the cache from kernel execution
key to a transformed wrapper. -/
structure VariableWrapper where
  name_ : String
  type_ : Nat
  var_ : Variable
  data_type_ : Nat
  fwd_data_type_ : Nat
  grad_var_ : Option VarId
  var_cache : List (OpKernelType × VarId)
  deriving DecidableEq, Repr

/-- Modelled from the spec: the constructor `VarType(name)` behind
`std::make_shared<VarType>(name)` is not in the sources.  The new wrapper has the given
name, an unset variable, no gradient link and an empty cache; its type tag is
`LOD_TENSOR` (7) and its data type `FP32` (5). -/
def VariableWrapper.create (name : String) : VariableWrapper :=
  { name_ := name, type_ := 7, var_ := .Empty, data_type_ := 5, fwd_data_type_ := 0,
    grad_var_ := none, var_cache := [] }

/-- Modelled from the spec: `NameVarMap<VarType>`, the map from slot name to its group
of variables. -/
abbrev NameVarMap (α : Type) := List (String × List α)

/-- The heap: the wrapper stored at every address. -/
abbrev Heap := VarId → VariableWrapper

/-- Overwrite the object at address `id`. -/
def Heap.set (h : Heap) (id : VarId) (w : VariableWrapper) : Heap :=
  fun j => if j = id then w else h j

/-- The calls the header makes into the framework, recorded in program order. -/
inductive Event where
  | SetForwardDataType (grad_var : VarId) (data_type : Nat)
  | GetKernelTypeForVar (name : String) (i : Nat)
  | hasCacheKey (name : String) (i : Nat)
  | getCacheValue (name : String) (i : Nat)
  | TransformData (name : String) (i : Nat)
  | setCacheValue (name : String) (i : Nat)
  | ResetTensorByArgDef (arg : Nat) (offset : Nat)
  | TensorCopySync (arg : Nat) (offset : Nat)
  deriving DecidableEq, Repr

/-- Modelled from the spec: `pten::TensorArgDef`, the descriptor of an input or output
argument: expected backend, layout and data type. -/
structure TensorArgDef where
  backend : Nat
  layout : Nat
  dtype : Nat
  deriving DecidableEq, Repr

/-- The functions of the framework that the header calls and does not define, taken as
parameters and assumed to return.  The operator `op` is part of the environment through
`GetKernelTypeForVar`. -/
structure Env where
  GetKernelTypeForVar : String → Tensor → OpKernelType → OpKernelType
  NeedTransform : OpKernelType → OpKernelType → Bool
  NeedTransformDataType : OpKernelType → OpKernelType → Bool
  TransformData : OpKernelType → OpKernelType → Tensor → Tensor
  DataType : VariableWrapper → Nat
  ResetTensorByArgDef : Tensor → TensorArgDef → Tensor
  SetAllocationForOutputTenosr : Tensor → Nat → Tensor
  TransToFluidPlace : Nat → Nat
  TransToPtenDataType : Int → Nat
  TensorCopySync : Tensor → Nat → Tensor
  is_same_place : Nat → Nat → Bool

/-- Program state: the heap, the next free address and the calls made so far. -/
structure State where
  heap : Heap
  next : Nat
  trace : List Event

/-! ## PrepareData (lines 47-142) -/

/-- State of the loops of `PrepareData`: the program state and `tmp_ins_ptr`. -/
structure Loop where
  heap : Heap
  next : Nat
  trace : List Event
  tmp_ins_ptr : Option (NameVarMap VarId)

/-- The assignment `m[name][i] = v` on a map that has the key `name` (a copy of `ins`). -/
def SetSlot (m : NameVarMap VarId) (name : String) (i : Nat) (v : VarId) : NameVarMap VarId :=
  match m with
  | [] => []
  | (n, g) :: rest =>
    if n = name then (n, g.set i v) :: rest else (n, g) :: SetSlot rest name i v

/-- The element `m.at(name)[i]`, when the key exists and `i` is in range. -/
def GetSlot {α : Type} (m : NameVarMap α) (name : String) (i : Nat) : Option α :=
  match AssocFind name m with
  | some g => g[i]?
  | none => none

/-- `SetForwardDataTypeOfGradVar<VariableWrapper>` (lines 50-59): when the wrapper has a
gradient variable, its forward data type becomes the data type of `var`.  The
instantiation at `VarBase` (lines 61-67) calls this one on the shared wrapper. -/
def SetForwardDataTypeOfGradVar (env : Env) (var : VarId) (s : Loop) : Loop :=
  match (s.heap var).grad_var_ with
  | some grad_var =>
    { s with
      heap := s.heap.set grad_var
        { s.heap grad_var with fwd_data_type_ := env.DataType (s.heap var) }
      trace := s.trace ++ [.SetForwardDataType grad_var (env.DataType (s.heap var))] }
  | none => s

/-- The body of the inner loop of `PrepareData` (lines 81-138) for the slot `(name, i)`
holding `var_base`. -/
def PrepareDataSlot (env : Env) (ins : NameVarMap VarId) (expected_kernel_key : OpKernelType)
    (name : String) (i : Nat) (var_base : VarId) (s0 : Loop) : Except Error Loop :=
  let s := SetForwardDataTypeOfGradVar env var_base s0
  match GetTensorFromVar (s.heap var_base).var_ with
  | none => .ok s
  | some tensor =>
    if tensor.initialized then
      let kernel_type_for_var := env.GetKernelTypeForVar name tensor expected_kernel_key
      let s : Loop := { s with trace := s.trace ++ [Event.GetKernelTypeForVar name i] }
      if !env.NeedTransform kernel_type_for_var expected_kernel_key then .ok s
      else
        let s : Loop := { s with trace := s.trace ++ [Event.hasCacheKey name i] }
        match AssocFind expected_kernel_key (s.heap var_base).var_cache with
        | some cache_var =>
          let s : Loop := { s with trace := s.trace ++ [Event.getCacheValue name i] }
          let tmp_ins := s.tmp_ins_ptr.getD ins
          match GetTensorFromVar (s.heap cache_var).var_ with
          | none => .error .NullPointer
          | some tensor =>
            let tmp_var := s.next
            let obj : VariableWrapper :=
              { VariableWrapper.create (s.heap var_base).name_ with
                type_ := (s.heap var_base).type_
                var_ := SetTensorToVariable (s.heap cache_var).var_ tensor .Empty }
            .ok { s with
                  heap := s.heap.set tmp_var obj
                  next := s.next + 1
                  tmp_ins_ptr := some (SetSlot tmp_ins name i tmp_var) }
        | none =>
          let out := env.TransformData expected_kernel_key kernel_type_for_var tensor
          let s : Loop := { s with trace := s.trace ++ [Event.TransformData name i] }
          if env.NeedTransformDataType kernel_type_for_var expected_kernel_key then
            let tmp_ins := s.tmp_ins_ptr.getD ins
            let tmp_var := s.next
            let obj : VariableWrapper :=
              { VariableWrapper.create (s.heap var_base).name_ with
                type_ := (s.heap var_base).type_
                var_ := SetTensorToVariable (s.heap var_base).var_ out .Empty }
            let heap1 := s.heap.set tmp_var obj
            let heap2 := heap1.set var_base
              { heap1 var_base with
                var_cache := AssocSet expected_kernel_key tmp_var (heap1 var_base).var_cache }
            .ok { heap := heap2
                  next := s.next + 1
                  trace := s.trace ++ [.setCacheValue name i]
                  tmp_ins_ptr := some (SetSlot tmp_ins name i tmp_var) }
          else
            .ok { s with
                  heap := s.heap.set var_base
                    { s.heap var_base with
                      var_ := SetTensorToVariable (s.heap var_base).var_ out
                        (s.heap var_base).var_ } }
    else .ok s

/-- The inner loop of `PrepareData` (line 80) over the group of `name`, from index `i`. -/
def PrepareDataGroup (env : Env) (ins : NameVarMap VarId) (K : OpKernelType) (name : String) :
    Nat → List VarId → Loop → Except Error Loop
  | _, [], s => .ok s
  | i, var_base :: rest, s =>
    match PrepareDataSlot env ins K name i var_base s with
    | .ok s1 => PrepareDataGroup env ins K name (i + 1) rest s1
    | .error e => .error e

/-- The outer loop of `PrepareData` (line 79) over the entries of the map. -/
def PrepareDataMap (env : Env) (ins : NameVarMap VarId) (K : OpKernelType) :
    NameVarMap VarId → Loop → Except Error Loop
  | [], s => .ok s
  | (name, group) :: rest, s =>
    match PrepareDataGroup env ins K name 0 group s with
    | .ok s1 => PrepareDataMap env ins K rest s1
    | .error e => .error e

/-- `PrepareData(op, ins, expected_kernel_key)` (lines 74-142), at the variable type
`VariableWrapper`: the returned `tmp_ins_ptr` (`none` is the null pointer) and the state
it leaves.  The map `ins` is passed by const reference and is not part of the result.
The only failure is `NullPointer`, for the dereference on line 106 of the tensor of a
cached wrapper that holds none. -/
def PrepareData (env : Env) (ins : NameVarMap VarId) (expected_kernel_key : OpKernelType)
    (st : State) : Except Error (Option (NameVarMap VarId) × State) :=
  match PrepareDataMap env ins expected_kernel_key ins
      { heap := st.heap, next := st.next, trace := st.trace, tmp_ins_ptr := none } with
  | .ok s => .ok (s.tmp_ins_ptr, { heap := s.heap, next := s.next, trace := s.trace })
  | .error e => .error e

/-! ## BuildDygraphPtenKernelContext (lines 212-398) -/

/-- Modelled from the spec: the type tag `AttributeArgDef::type_index` of a declared
attribute argument, with one tag for each type the header compares it with. -/
inductive AttrTypeIndex where
  | ScalarArray
  | Scalar
  | int
  | float
  | bool
  | DataType
  | vector_int64
  | other (id : Nat)
  deriving DecidableEq, Repr

/-- Modelled from the spec: `pten::AttributeArgDef`, the descriptor of an attribute
argument. -/
structure AttributeArgDef where
  type_index : AttrTypeIndex
  deriving DecidableEq, Repr

/-- Modelled from the spec: the descriptor lists `pt_kernel.args_def()` of a kernel. -/
structure KernelArgsDef where
  input_defs : List TensorArgDef
  output_defs : List TensorArgDef
  attribute_defs : List AttributeArgDef
  deriving DecidableEq, Repr

/-- Modelled from the spec: `framework::KernelSignature`, the name lists
`pt_kernel_signature.args` of inputs, attributes and outputs. -/
structure KernelSignature where
  input_names : List String
  attr_names : List String
  output_names : List String
  deriving DecidableEq, Repr

/-- Modelled from the spec: `pten::Scalar` is an opaque target representation; a value
is kept as the constructor call that built it. -/
inductive Scalar where
  | ofFloat (bits : Nat)
  | ofString (v : String)
  | ofInt (v : Int)
  | MakePtenScalarFromVar (var : Variable)
  deriving DecidableEq, Repr

/-- Modelled from the spec: `pten::ScalarArray` is an opaque target representation; a
value is kept as the constructor call that built it. -/
inductive ScalarArray where
  | ofInt64 (v : List Int)
  | ofInt32 (v : List Int)
  | MakePtenScalarArrayFromVar (var : Variable)
  | MakePtenScalarArrayFromVarList (vars : List Variable)
  deriving DecidableEq, Repr

/-- An attribute stored in the kernel context (a `paddle::any`). -/
inductive KernelAttr where
  | ScalarArray (v : ScalarArray)
  | Scalar (v : Scalar)
  | int (v : Int)
  | float (bits : Nat)
  | bool (v : Bool)
  | DataType (v : Nat)
  | vector_int64 (v : List Int)
  deriving DecidableEq, Repr

/-- Modelled from the spec: `pten::KernelContext` is not in the sources.  It holds the
device context, the flat input and output lists (a pointer to the tensor of a variable,
or null), the attributes, and one `[start, end)` range per input and output argument. -/
structure KernelContext where
  dev_ctx_ : Option Nat
  inputs_ : List (Option VarId)
  outputs_ : List (Option VarId)
  attrs_ : List KernelAttr
  input_range_ : List (Nat × Nat)
  output_range_ : List (Nat × Nat)
  deriving DecidableEq, Repr

/-- The context before anything is added to it. -/
def KernelContext.empty : KernelContext :=
  { dev_ctx_ := none, inputs_ := [], outputs_ := [], attrs_ := [], input_range_ := [],
    output_range_ := [] }

/-- Modelled from the spec: `AssignInputRange` and `AssignOutputRange` record the range
of argument `idx`: they overwrite the range when it exists, append it when `idx` is the
next argument, and fail otherwise. -/
def AssignRange (range : Nat × Nat) (idx : Nat) (ranges : List (Nat × Nat)) :
    Except Error (List (Nat × Nat)) :=
  if idx < ranges.length then .ok (ranges.set idx range)
  else if idx = ranges.length then .ok (ranges ++ [range])
  else .error .PreconditionNotMet

/-- Modelled from the spec: `InputRangeAt(idx).second` and `OutputRangeAt(idx).second`,
a checked access to the recorded range. -/
def RangeEndAt (ranges : List (Nat × Nat)) (idx : Nat) : Except Error Nat :=
  match ranges[idx]? with
  | some r => .ok r.2
  | none => .error .OutOfRange

/-- State of the context builder: the heap, the calls made and the kernel context. -/
structure BuildState where
  heap : Heap
  trace : List Event
  kernel_ctx : KernelContext

/-- A run of the builder, or of a part of it: the state it leaves, and the exception
that ended it when one was thrown. -/
structure Outcome where
  state : BuildState
  error : Option Error

/-- The pointer `GetTensorFromVar(v->Var())` of the variable at `id`: null when the
variable holds no tensor. -/
def TensorPointer (h : Heap) (id : VarId) : Option VarId :=
  if (GetTensorFromVar (h id).var_).isSome then some id else none

/-- One turn of the input loop (lines 248-257) for argument `i` named `name`. -/
def BuildInput (ins : NameVarMap VarId) (name : String) (i : Nat) (s : BuildState) : Outcome :=
  match AssocFind name ins with
  | none => ⟨s, some .OutOfRange⟩
  | some ins_vector =>
    match (if i = 0 then .ok 0 else RangeEndAt s.kernel_ctx.input_range_ (i - 1)) with
    | .error e => ⟨s, some e⟩
    | .ok start_idx =>
      let end_idx := start_idx + ins_vector.length
      let s1 : BuildState :=
        { s with kernel_ctx :=
            { s.kernel_ctx with
              inputs_ := s.kernel_ctx.inputs_ ++ ins_vector.map (TensorPointer s.heap) } }
      match AssignRange (start_idx, end_idx) i s1.kernel_ctx.input_range_ with
      | .error e => ⟨s1, some e⟩
      | .ok ranges => ⟨{ s1 with kernel_ctx := { s1.kernel_ctx with input_range_ := ranges } }, none⟩

/-- The input loop (line 247) over the names from argument `i` on. -/
def BuildInputs (ins : NameVarMap VarId) : List String → Nat → BuildState → Outcome
  | [], _, s => ⟨s, none⟩
  | name :: rest, i, s =>
    match BuildInput ins name i s with
    | ⟨s1, none⟩ => BuildInputs ins rest (i + 1) s1
    | ⟨s1, some e⟩ => ⟨s1, some e⟩

/-- The loop over the elements of a present output group (lines 274-294), from
`offset` on. -/
def BuildOutputElems (env : Env) (output_defs : List TensorArgDef) (i : Nat) :
    Nat → List (Option VarId) → BuildState → Outcome
  | _, [], s => ⟨s, none⟩
  | offset, none :: rest, s =>
    BuildOutputElems env output_defs i (offset + 1) rest
      { s with kernel_ctx := { s.kernel_ctx with outputs_ := s.kernel_ctx.outputs_ ++ [none] } }
  | offset, some id :: rest, s =>
    match (s.heap id).var_ with
    | .LoDTensor tensor_out =>
      match output_defs[i]? with
      | none => ⟨s, some .OutOfRange⟩
      | some arg_def =>
        let t1 := env.ResetTensorByArgDef tensor_out arg_def
        let t2 := env.SetAllocationForOutputTenosr t1 (env.TransToFluidPlace arg_def.backend)
        BuildOutputElems env output_defs i (offset + 1) rest
          { heap := s.heap.set id { s.heap id with var_ := .LoDTensor t2 }
            trace := s.trace ++ [Event.ResetTensorByArgDef i offset]
            kernel_ctx := { s.kernel_ctx with outputs_ := s.kernel_ctx.outputs_ ++ [some id] } }
    | _ => ⟨s, some (.Unimplemented "Unsupported output type when call pt kernel.")⟩

/-- One turn of the output loop (lines 261-295) for argument `i` named `name`. -/
def BuildOutput (env : Env) (output_defs : List TensorArgDef) (outs : NameVarMap (Option VarId))
    (name : String) (i : Nat) (s : BuildState) : Outcome :=
  match (if i = 0 then .ok 0 else RangeEndAt s.kernel_ctx.output_range_ (i - 1)) with
  | .error e => ⟨s, some e⟩
  | .ok start_idx =>
    match AssocFind name outs with
    | none =>
      let s1 : BuildState :=
        { s with kernel_ctx := { s.kernel_ctx with outputs_ := s.kernel_ctx.outputs_ ++ [none] } }
      match AssignRange (start_idx, start_idx + 1) i s1.kernel_ctx.output_range_ with
      | .error e => ⟨s1, some e⟩
      | .ok ranges => ⟨{ s1 with kernel_ctx := { s1.kernel_ctx with output_range_ := ranges } }, none⟩
    | some outs_vector =>
      let end_idx := start_idx + outs_vector.length
      match BuildOutputElems env output_defs i 0 outs_vector s with
      | ⟨s1, some e⟩ => ⟨s1, some e⟩
      | ⟨s1, none⟩ =>
        match AssignRange (start_idx, end_idx) i s1.kernel_ctx.output_range_ with
        | .error e => ⟨s1, some e⟩
        | .ok ranges =>
          ⟨{ s1 with kernel_ctx := { s1.kernel_ctx with output_range_ := ranges } }, none⟩

/-- The output loop (line 260) over the names from argument `i` on. -/
def BuildOutputs (env : Env) (output_defs : List TensorArgDef)
    (outs : NameVarMap (Option VarId)) : List String → Nat → BuildState → Outcome
  | [], _, s => ⟨s, none⟩
  | name :: rest, i, s =>
    match BuildOutput env output_defs outs name i s with
    | ⟨s1, none⟩ => BuildOutputs env output_defs outs rest (i + 1) s1
    | ⟨s1, some e⟩ => ⟨s1, some e⟩

/-- The attribute built for an argument declared as `pten::ScalarArray`
(lines 300-331). -/
def BuildScalarArrayAttr (h : Heap) (ins : NameVarMap VarId) (attrs default_attrs : AttributeMap)
    (name : String) : Except Error KernelAttr :=
  if (AssocFind name attrs).isSome then
    match GetAttr attrs default_attrs name with
    | .error e => .error e
    | .ok (.longs v) => .ok (.ScalarArray (.ofInt64 v))
    | .ok (.ints v) => .ok (.ScalarArray (.ofInt32 v))
    | .ok _ => .error (.Unimplemented name)
  else
    match AssocFind name ins with
    | none => .error .OutOfRange
    | some ins_vector =>
      match ins_vector with
      | [v] => .ok (.ScalarArray (.MakePtenScalarArrayFromVar (h v).var_))
      | _ =>
        .ok (.ScalarArray
          (.MakePtenScalarArrayFromVarList (ins_vector.map fun var_base => (h var_base).var_)))

/-- The attribute built for an argument declared as `pten::Scalar` (lines 337-362). -/
def BuildScalarAttr (h : Heap) (ins : NameVarMap VarId) (attrs default_attrs : AttributeMap)
    (name : String) : Except Error KernelAttr :=
  if (AssocFind name attrs).isSome || (AssocFind name default_attrs).isSome then
    match GetAttr attrs default_attrs name with
    | .error e => .error e
    | .ok (.float v) => .ok (.Scalar (.ofFloat v))
    | .ok (.string v) => .ok (.Scalar (.ofString v))
    | .ok (.int v) => .ok (.Scalar (.ofInt v))
    | .ok _ => .error (.Unimplemented name)
  else
    match AssocFind name ins with
    | none => .error .OutOfRange
    | some ins_vector =>
      match ins_vector with
      | v :: _ => .ok (.Scalar (.MakePtenScalarFromVar (h v).var_))
      | [] => .error .NullPointer

/-- The conversion of an `int` to `int64_t` (lines 385-386), on values: the 32-bit two's
complement pattern of `x` is sign-extended to 64 bits and read as a 64-bit two's
complement number. -/
def Int32ToInt64 (x : Int) : Int :=
  let bits32 := x % 4294967296
  let bits64 := if bits32 < 2147483648 then bits32 else bits32 + (18446744073709551616 - 4294967296)
  if bits64 < 9223372036854775808 then bits64 else bits64 - 18446744073709551616

/-- The attribute built for an argument of any other declared type (lines 366-395);
`none` when the turn appends nothing. -/
def BuildPlainAttr (env : Env) (attrs default_attrs : AttributeMap) (name : String)
    (type_index : AttrTypeIndex) : Except Error (Option KernelAttr) :=
  match GetAttr attrs default_attrs name with
  | .error e => .error e
  | .ok attr =>
    match type_index with
    | .int =>
      match attr with
      | .int v => .ok (some (.int v))
      | _ => .error .BadGet
    | .float =>
      match attr with
      | .float v => .ok (some (.float v))
      | _ => .error .BadGet
    | .bool =>
      match attr with
      | .bool v => .ok (some (.bool v))
      | _ => .error .BadGet
    | .DataType =>
      match attr with
      | .int v => .ok (some (.DataType (env.TransToPtenDataType v)))
      | _ => .error .BadGet
    | .vector_int64 =>
      match attr with
      | .ints vector_int_attr => .ok (some (.vector_int64 (vector_int_attr.map Int32ToInt64)))
      | _ => .ok none
    | _ => .error (.Unimplemented name)

/-- One turn of the attribute loop (lines 299-396) for the argument named `name` with
descriptor `arg_def`. -/
def BuildAttr (env : Env) (ins : NameVarMap VarId) (attrs default_attrs : AttributeMap)
    (name : String) (arg_def : AttributeArgDef) (s : BuildState) : Outcome :=
  let emplace (a : KernelAttr) : BuildState :=
    { s with kernel_ctx := { s.kernel_ctx with attrs_ := s.kernel_ctx.attrs_ ++ [a] } }
  match arg_def.type_index with
  | .ScalarArray =>
    match BuildScalarArrayAttr s.heap ins attrs default_attrs name with
    | .ok a => ⟨emplace a, none⟩
    | .error e => ⟨s, some e⟩
  | .Scalar =>
    match BuildScalarAttr s.heap ins attrs default_attrs name with
    | .ok a => ⟨emplace a, none⟩
    | .error e => ⟨s, some e⟩
  | t =>
    match BuildPlainAttr env attrs default_attrs name t with
    | .ok (some a) => ⟨emplace a, none⟩
    | .ok none => ⟨s, none⟩
    | .error e => ⟨s, some e⟩

/-- The attribute loop (line 298) over the names from argument `i` on. -/
def BuildAttrs (env : Env) (attr_defs : List AttributeArgDef) (ins : NameVarMap VarId)
    (attrs default_attrs : AttributeMap) : List String → Nat → BuildState → Outcome
  | [], _, s => ⟨s, none⟩
  | name :: rest, i, s =>
    match attr_defs[i]? with
    | none => ⟨s, some .OutOfRange⟩
    | some arg_def =>
      match BuildAttr env ins attrs default_attrs name arg_def s with
      | ⟨s1, none⟩ => BuildAttrs env attr_defs ins attrs default_attrs rest (i + 1) s1
      | ⟨s1, some e⟩ => ⟨s1, some e⟩

/-- `BuildDygraphPtenKernelContext` (lines 212-398): the device context is set, the three
arities are checked, then inputs, outputs and attributes are added in this order. -/
def BuildDygraphPtenKernelContext (env : Env) (pt_kernel_signature : KernelSignature)
    (pt_kernel : KernelArgsDef) (ins : NameVarMap VarId) (outs : NameVarMap (Option VarId))
    (attrs default_attrs : AttributeMap) (dev_ctx : Nat) (s0 : BuildState) : Outcome :=
  let s : BuildState := { s0 with kernel_ctx := { s0.kernel_ctx with dev_ctx_ := some dev_ctx } }
  let input_names := pt_kernel_signature.input_names
  let attr_names := pt_kernel_signature.attr_names
  let output_names := pt_kernel_signature.output_names
  let input_defs := pt_kernel.input_defs
  let output_defs := pt_kernel.output_defs
  let attr_defs := pt_kernel.attribute_defs
  if input_names.length ≠ input_defs.length then
    ⟨s, some (.InvalidArgument "inputs_args" input_names.length input_defs.length)⟩
  else if output_names.length ≠ output_defs.length then
    ⟨s, some (.InvalidArgument "outputs_args" output_names.length output_defs.length)⟩
  else if attr_names.length ≠ attr_defs.length then
    ⟨s, some (.InvalidArgument "attribute_args" attr_names.length attr_defs.length)⟩
  else
    match BuildInputs ins input_names 0 s with
    | ⟨s1, some e⟩ => ⟨s1, some e⟩
    | ⟨s1, none⟩ =>
      match BuildOutputs env output_defs outs output_names 0 s1 with
      | ⟨s2, some e⟩ => ⟨s2, some e⟩
      | ⟨s2, none⟩ => BuildAttrs env attr_defs ins attrs default_attrs attr_names 0 s2

/-! ## PreparePtenData (lines 400-437) -/

/-- The body of the inner loop of `PreparePtenData` (lines 418-434) for element
`offset` of argument `i`. -/
def PreparePtenDataElem (env : Env) (in_def : TensorArgDef) (i offset : Nat) (var_base : VarId)
    (s : State) : State :=
  match GetTensorFromVar (s.heap var_base).var_ with
  | none => s
  | some tensor_in =>
    if tensor_in.initialized then
      let expected_place := env.TransToFluidPlace in_def.backend
      if env.is_same_place tensor_in.place expected_place then s
      else
        let tmp_tensor := env.TensorCopySync tensor_in expected_place
        { s with
          heap := s.heap.set var_base
            { s.heap var_base with
              var_ := SetTensorToVariable (s.heap var_base).var_ tmp_tensor
                (s.heap var_base).var_ }
          trace := s.trace ++ [Event.TensorCopySync i offset] }
    else s

/-- The inner loop of `PreparePtenData` (line 417) over a group, from `offset` on. -/
def PreparePtenDataGroup (env : Env) (in_def : TensorArgDef) (i : Nat) :
    Nat → List VarId → State → State
  | _, [], s => s
  | offset, var_base :: rest, s =>
    PreparePtenDataGroup env in_def i (offset + 1) rest
      (PreparePtenDataElem env in_def i offset var_base s)

/-- The outer loop of `PreparePtenData` (line 413) over the names from argument `i` on. -/
def PreparePtenDataArgs (env : Env) (input_defs : List TensorArgDef) (ins : NameVarMap VarId) :
    List String → Nat → State → Except Error State
  | [], _, s => .ok s
  | name :: rest, i, s =>
    match input_defs[i]? with
    | none => .error .OutOfRange
    | some in_def =>
      match AssocFind name ins with
      | none => .error .OutOfRange
      | some ins_vector =>
        PreparePtenDataArgs env input_defs ins rest (i + 1)
          (PreparePtenDataGroup env in_def i 0 ins_vector s)

/-- `PreparePtenData` (lines 400-437). -/
def PreparePtenData (env : Env) (pt_kernel : KernelArgsDef)
    (pt_kernel_signature : KernelSignature) (ins : NameVarMap VarId) (s : State) :
    Except Error State :=
  if pt_kernel_signature.input_names.length ≠ pt_kernel.input_defs.length then
    .error (.InvalidArgument "inputs_args" pt_kernel_signature.input_names.length
      pt_kernel.input_defs.length)
  else PreparePtenDataArgs env pt_kernel.input_defs ins pt_kernel_signature.input_names 0 s

/-! ## Notions used to state the properties -/

/-- Concatenation of a list of groups, in order. -/
def Concat {α : Type} : List (List α) → List α
  | [] => []
  | g :: rest => g ++ Concat rest

/-- The ranges `[start, start + w0), [start + w0, start + w0 + w1), ...` of consecutive
arguments of widths `w0, w1, ...`. -/
def CumulativeRanges : Nat → List Nat → List (Nat × Nat)
  | _, [] => []
  | start, w :: rest => (start, start + w) :: CumulativeRanges (start + w) rest

/-- The end of the last recorded range, `0` when no range is recorded. -/
def RangeEnd (ranges : List (Nat × Nat)) : Nat :=
  match ranges.getLast? with
  | some r => r.2
  | none => 0

/-- The tensor pointers of the group of input argument `name`. -/
def InputPointers (h : Heap) (ins : NameVarMap VarId) (name : String) : List (Option VarId) :=
  ((AssocFind name ins).getD []).map (TensorPointer h)

/-- The slots the output loop adds for argument `name`: one null slot when the name
is not a key of `outs`, else one slot per element of its group. -/
def OutputSlots (outs : NameVarMap (Option VarId)) (name : String) : List (Option VarId) :=
  match AssocFind name outs with
  | none => [none]
  | some outs_vector => outs_vector

/-- The input side of `ctx` is wired to the groups of `names` in `ins`: the flat list is
the concatenation of the groups in declaration order; there is one range per argument;
range `i` is `[start, start + |group i|)` with `start = 0` for `i = 0` and the end of range
`i - 1` otherwise, and it cuts exactly the pointers of group `i` out of the flat list;
the end of the last range is the length of the flat list. -/
def InputsWired (h : Heap) (ins : NameVarMap VarId) (names : List String)
    (ctx : KernelContext) : Prop :=
  ctx.inputs_ = Concat (names.map (InputPointers h ins)) ∧
  ctx.input_range_.length = names.length ∧
  (∀ i name g, names[i]? = some name → AssocFind name ins = some g →
    ∃ start, ctx.input_range_[i]? = some (start, start + g.length) ∧
      start = (if i = 0 then 0 else ((ctx.input_range_[i - 1]?).map Prod.snd).getD 0) ∧
      (ctx.inputs_.drop start).take g.length = g.map (TensorPointer h)) ∧
  RangeEnd ctx.input_range_ = ctx.inputs_.length

/-! ## Concrete inputs on which the definitions are evaluated -/

/-- An environment: the kernel type of a variable is read off its tensor, a transform is
needed when the keys differ, and a transform moves the tensor to the expected key. -/
def Sample.env : Env :=
  { GetKernelTypeForVar := fun _ t _ =>
      { data_type_ := t.type, data_layout_ := t.layout, place_ := t.place }
    NeedTransform := fun a b => decide (a ≠ b)
    NeedTransformDataType := fun a b => decide (a.data_type_ ≠ b.data_type_)
    TransformData := fun k _ t =>
      { t with type := k.data_type_, layout := k.data_layout_, place := k.place_ }
    DataType := fun w => w.data_type_
    ResetTensorByArgDef := fun t d => { t with type := d.dtype, layout := d.layout }
    SetAllocationForOutputTenosr := fun t p => { t with initialized := true, place := p }
    TransToFluidPlace := fun b => b
    TransToPtenDataType := fun v => v.toNat
    TensorCopySync := fun t p => { t with place := p }
    is_same_place := fun a b => decide (a = b) }

/-- A float32 tensor on the host with contents `d`. -/
def Sample.tensor (d : Nat) : Tensor :=
  { initialized := true, type := 5, layout := 0, place := 0, data := d }

/-- A wrapper named `name` that holds the dense tensor `t`. -/
def Sample.wrapper (name : String) (t : Tensor) : VariableWrapper :=
  { VariableWrapper.create name with var_ := .LoDTensor t }

/-- A heap with `x` at address 0, `y` at address 1 and `out` at address 2. -/
def Sample.heap : Heap := fun id =>
  if id = 0 then Sample.wrapper "x" (Sample.tensor 10)
  else if id = 1 then Sample.wrapper "y" (Sample.tensor 20)
  else if id = 2 then Sample.wrapper "out" { Sample.tensor 0 with initialized := false }
  else VariableWrapper.create ""

/-- The state of a build that starts from an empty kernel context. -/
def Sample.build0 : BuildState :=
  { heap := Sample.heap, trace := [], kernel_ctx := KernelContext.empty }

/-- The signature of `add`: inputs `X`, `Y`, no attribute, output `Out`. -/
def Sample.addSig : KernelSignature :=
  { input_names := ["X", "Y"], attr_names := [], output_names := ["Out"] }

/-- The descriptors of the `add` kernel. -/
def Sample.addKernel : KernelArgsDef :=
  { input_defs := [⟨0, 0, 5⟩, ⟨0, 0, 5⟩], output_defs := [⟨0, 0, 5⟩], attribute_defs := [] }

/-- The inputs of `add`: `X` is `x`, `Y` is `y`. -/
def Sample.addIns : NameVarMap VarId := [("X", [0]), ("Y", [1])]

/-- The outputs of `add`: `Out` is `out`. -/
def Sample.addOuts : NameVarMap (Option VarId) := [("Out", [some 2])]

/-- A signature of three inputs for a kernel that declares two. -/
def Sample.badSig : KernelSignature :=
  { input_names := ["X", "Y", "Z"], attr_names := [], output_names := ["Out"] }

/-- A signature with an optional second output `XShape`, absent from `Sample.addOuts`. -/
def Sample.optSig : KernelSignature :=
  { input_names := ["X", "Y"], attr_names := [], output_names := ["Out", "XShape"] }

/-- The descriptors of a kernel with two outputs. -/
def Sample.optKernel : KernelArgsDef :=
  { input_defs := [⟨0, 0, 5⟩, ⟨0, 0, 5⟩], output_defs := [⟨0, 0, 5⟩, ⟨0, 0, 5⟩],
    attribute_defs := [] }

/-- A signature with one attribute argument `shape`. -/
def Sample.shapeSig : KernelSignature :=
  { input_names := ["X"], attr_names := ["shape"], output_names := ["Out"] }

/-- The descriptors of a kernel whose attribute `shape` is declared as `ScalarArray`. -/
def Sample.shapeKernel : KernelArgsDef :=
  { input_defs := [⟨0, 0, 5⟩], output_defs := [⟨0, 0, 5⟩], attribute_defs := [⟨.ScalarArray⟩] }

/-- The descriptors of a kernel whose attribute `shape` is declared as `Scalar`. -/
def Sample.scalarKernel : KernelArgsDef :=
  { input_defs := [⟨0, 0, 5⟩], output_defs := [⟨0, 0, 5⟩], attribute_defs := [⟨.Scalar⟩] }

/-- Inputs with only `X`. -/
def Sample.xIns : NameVarMap VarId := [("X", [0])]

/-- Inputs in which `shape` is a group of one variable. -/
def Sample.shapeIns1 : NameVarMap VarId := [("X", [0]), ("shape", [1])]

/-- Inputs in which `shape` is a group of two variables. -/
def Sample.shapeIns2 : NameVarMap VarId := [("X", [0]), ("shape", [1, 0])]

/-! ## Notions used to state the properties of PrepareData -/

/-- The slots of the group of `name`, from index `i` on, as `(name, index, variable)`. -/
def GroupSlots (name : String) : Nat → List VarId → List (String × Nat × VarId)
  | _, [] => []
  | i, v :: rest => (name, i, v) :: GroupSlots name (i + 1) rest

/-- The slots of a map in the order in which `PrepareData` visits them. -/
def MapSlots : NameVarMap VarId → List (String × Nat × VarId)
  | [] => []
  | (name, group) :: rest => GroupSlots name 0 group ++ MapSlots rest

/-- The variables of a map, in the order of its slots. -/
def MapVars (m : NameVarMap VarId) : List VarId := Concat (m.map Prod.snd)

/-- The loop body of `PrepareData` run over a list of slots. -/
def PrepareDataSlots (env : Env) (ins : NameVarMap VarId) (K : OpKernelType) :
    List (String × Nat × VarId) → Loop → Except Error Loop
  | [], s => .ok s
  | (name, i, v) :: rest, s =>
    match PrepareDataSlot env ins K name i v s with
    | .ok s1 => PrepareDataSlots env ins K rest s1
    | .error e => .error e

/-- Whether the slot `name` holding the wrapper `w` is substituted in the shadow map: its
tensor is initialized, its kernel type needs a transform to `K`, and the wrapper has a
cache entry for `K` or the transform changes the data type. -/
def NeedsSubstitution (env : Env) (K : OpKernelType) (name : String) (w : VariableWrapper) : Bool :=
  match GetTensorFromVar w.var_ with
  | none => false
  | some tensor =>
    tensor.initialized && env.NeedTransform (env.GetKernelTypeForVar name tensor K) K &&
      ((AssocFind K w.var_cache).isSome ||
        env.NeedTransformDataType (env.GetKernelTypeForVar name tensor K) K)

/-- The keys of a map with the length of each group. -/
def Shape {α : Type} (m : NameVarMap α) : List (String × Nat) :=
  m.map fun e => (e.1, e.2.length)

/-- Whether the cache entry of the wrapper at `id` for `K`, when there is one, points to
a wrapper that holds a tensor. -/
def CacheTargetHoldsTensor (h : Heap) (K : OpKernelType) (id : VarId) : Bool :=
  match AssocFind K (h id).var_cache with
  | some cache_var => (GetTensorFromVar (h cache_var).var_).isSome
  | none => true

/-- Well-formed input of `PrepareData`: the map has distinct keys (it is a `std::map`),
its slots hold distinct variables, every variable is allocated, and a cached wrapper
holds a tensor. -/
def WellFormed (st : State) (ins : NameVarMap VarId) (K : OpKernelType) : Prop :=
  (AssocKeys ins).Nodup ∧ (MapVars ins).Nodup ∧ (∀ id ∈ MapVars ins, id < st.next) ∧
    (∀ id ∈ MapVars ins, CacheTargetHoldsTensor st.heap K id = true)

/-- The wrapper `PrepareData` creates for a substituted slot: a new wrapper with the
name and the type of `w` whose variable is `var`. -/
def TmpVar (w : VariableWrapper) (var : Variable) : VariableWrapper :=
  { VariableWrapper.create w.name_ with type_ := w.type_, var_ := var }

/-- The wrappers at `j` in two heaps agree on what `PrepareData` reads: the variable,
the cache, the name and the type. -/
def Agree (h h2 : Heap) (j : VarId) : Prop :=
  (h2 j).var_ = (h j).var_ ∧ (h2 j).var_cache = (h j).var_cache ∧
    (h2 j).name_ = (h j).name_ ∧ (h2 j).type_ = (h j).type_

/-- The variables of a list of slots. -/
def SlotVars (l : List (String × Nat × VarId)) : List VarId := l.map fun sl => sl.2.2

/-- The positions `(name, index)` of a list of slots. -/
def SlotPositions (l : List (String × Nat × VarId)) : List (String × Nat) :=
  l.map fun sl => (sl.1, sl.2.1)

/-- The loop state in which `PrepareData` starts: the program state and a null
`tmp_ins_ptr`. -/
def State.enter (st : State) : Loop :=
  { heap := st.heap, next := st.next, trace := st.trace, tmp_ins_ptr := none }

/-- The program state a loop state carries. -/
def Loop.leave (s : Loop) : State :=
  { heap := s.heap, next := s.next, trace := s.trace }

instance (st : State) (ins : NameVarMap VarId) (K : OpKernelType) :
    Decidable (WellFormed st ins K) := by
  unfold WellFormed
  infer_instance

/-- The program state before the call: the sample heap, three allocated addresses. -/
def Sample.state : State := { heap := Sample.heap, next := 3, trace := [] }

/-- The kernel key float32 on the device: the host tensors need a transform that keeps
the data type. -/
def Sample.keyDevice : OpKernelType := { data_type_ := 5, data_layout_ := 0, place_ := 1 }

/-- The kernel key float64 on the host: the float32 tensors need a transform that
changes the data type. -/
def Sample.keyDouble : OpKernelType := { data_type_ := 6, data_layout_ := 0, place_ := 0 }

/-- The attribute `a` is the array built from the input group `g` as read in the heap
`h`: for a group of one element, `MakePtenScalarArrayFromVar` of the variable of element
0; otherwise `MakePtenScalarArrayFromVarList` of a list with the length of the group
whose entry `j` is the variable of element `j`. -/
def ArrayFromGroup (h : Heap) (g : List VarId) (a : KernelAttr) : Prop :=
  (∀ v, g = [v] → a = .ScalarArray (.MakePtenScalarArrayFromVar (h v).var_)) ∧
  (g.length ≠ 1 → ∃ vars,
    a = .ScalarArray (.MakePtenScalarArrayFromVarList vars) ∧
    vars.length = g.length ∧
    ∀ (j : Nat) (v : VarId), g[j]? = some v → vars[j]? = some (h v).var_)

/-! ## Notions for the attribute loop -/

/-- The state after `kernel_ctx->EmplaceBackAttr(a)`: `a` is appended to the attributes of
the context and nothing else changes. -/
def EmplaceBackAttr (s : BuildState) (a : KernelAttr) : BuildState :=
  { s with kernel_ctx := { s.kernel_ctx with attrs_ := s.kernel_ctx.attrs_ ++ [a] } }

/-- The scalar the spec gives for a stored attribute: a float, a string or an int is
carried as it is; no other stored type has one. -/
def ScalarOfAttribute : Attribute → Option Scalar
  | .float v => some (.ofFloat v)
  | .string v => some (.ofString v)
  | .int v => some (.ofInt v)
  | _ => none

/-- A kernel with one input, one output and one attribute declared as a vector of
`int64_t`. -/
def Sample.vectorKernel : KernelArgsDef :=
  { input_defs := [⟨0, 0, 5⟩], output_defs := [⟨0, 0, 5⟩], attribute_defs := [⟨.vector_int64⟩] }

/-- A kernel with one input, one output and one attribute of a declared type outside the
ones the attribute loop knows. -/
def Sample.otherKernel : KernelArgsDef :=
  { input_defs := [⟨0, 0, 5⟩], output_defs := [⟨0, 0, 5⟩], attribute_defs := [⟨.other 0⟩] }

/-- A signature with the two attributes `axis` and `shape`, in this order. -/
def Sample.axisShapeSig : KernelSignature :=
  { input_names := ["X"], attr_names := ["axis", "shape"], output_names := ["Out"] }

/-- A kernel for `Sample.axisShapeSig`: `axis` is an int, `shape` a vector of `int64_t`. -/
def Sample.axisShapeKernel : KernelArgsDef :=
  { input_defs := [⟨0, 0, 5⟩], output_defs := [⟨0, 0, 5⟩],
    attribute_defs := [⟨.int⟩, ⟨.vector_int64⟩] }

/-- The signature with the same two attributes in the other order. -/
def Sample.shapeAxisSig : KernelSignature :=
  { input_names := ["X"], attr_names := ["shape", "axis"], output_names := ["Out"] }

/-- A kernel for `Sample.shapeAxisSig`. -/
def Sample.shapeAxisKernel : KernelArgsDef :=
  { input_defs := [⟨0, 0, 5⟩], output_defs := [⟨0, 0, 5⟩],
    attribute_defs := [⟨.vector_int64⟩, ⟨.int⟩] }

/-! ## Notions for the output loop -/

/-- The test `var->IsType<framework::LoDTensor>()` of line 281. -/
def Variable.IsTypeLoDTensor : Variable → Bool
  | .LoDTensor _ => true
  | _ => false

/-- Every non-null element of every present group of the names `names` is a variable
that holds a dense tensor in the heap `h`. -/
def OutputsDense (h : Heap) (outs : NameVarMap (Option VarId)) (names : List String) : Prop :=
  ∀ (name : String) (g : List (Option VarId)) (id : VarId),
    name ∈ names → AssocFind name outs = some g → some id ∈ g →
    (h id).var_.IsTypeLoDTensor = true

/-- The heap of the samples where the output variable `out` (address 2) holds selected
rows instead of a dense tensor. -/
def Sample.rowsHeap : Heap :=
  Sample.heap.set 2 { Sample.heap 2 with var_ := .SelectedRows (Sample.tensor 0) }

/-- The builder state on `Sample.rowsHeap` with the empty kernel context. -/
def Sample.rowsBuild0 : BuildState :=
  { heap := Sample.rowsHeap, trace := [], kernel_ctx := KernelContext.empty }

/-- The width of the range of the output argument `name`: 1 when the argument is absent
from `outs`, else the size of its group. -/
def OutputWidth (outs : NameVarMap (Option VarId)) (name : String) : Nat :=
  match AssocFind name outs with
  | none => 1
  | some outs_vector => outs_vector.length

/-- The output ranges of `ctx` partition its flat output list along the declared output
names: there is one range per name; range `i` starts at 0 for `i = 0` and at the end of
range `i - 1` otherwise, and its width is `OutputWidth`; it cuts the slots of argument
`i` out of the flat list, slot `j` of it being null exactly when the argument is absent
from `outs` or element `j` of its group is null; and the end of the last range is the
length of the flat list. -/
def OutputsPartitioned (outs : NameVarMap (Option VarId)) (names : List String)
    (ctx : KernelContext) : Prop :=
  ctx.output_range_.length = names.length ∧
  (∀ (i : Nat) (name : String), names[i]? = some name →
    ∃ start, ctx.output_range_[i]? = some (start, start + OutputWidth outs name) ∧
      start = (if i = 0 then 0 else ((ctx.output_range_[i - 1]?).map Prod.snd).getD 0) ∧
      (ctx.outputs_.drop start).take (OutputWidth outs name) = OutputSlots outs name ∧
      ∀ j : Nat, j < OutputWidth outs name →
        (ctx.outputs_[start + j]? = some none ↔
          (AssocFind name outs = none ∨
            ∃ g, AssocFind name outs = some g ∧ g[j]? = some none))) ∧
  RangeEnd ctx.output_range_ = ctx.outputs_.length

/-- A signature with the three outputs `Out`, `Mask` and `Aux`. -/
def Sample.threeOutSig : KernelSignature :=
  { input_names := ["X"], attr_names := [], output_names := ["Out", "Mask", "Aux"] }

/-- A kernel for `Sample.threeOutSig`. -/
def Sample.threeOutKernel : KernelArgsDef :=
  { input_defs := [⟨0, 0, 5⟩], output_defs := [⟨0, 0, 5⟩, ⟨0, 0, 5⟩, ⟨0, 0, 5⟩],
    attribute_defs := [] }

/-- Outputs for `Sample.threeOutSig`: `Out` has a null element and the variable `out`,
`Mask` is absent, `Aux` is the variable `out`. -/
def Sample.threeOuts : NameVarMap (Option VarId) := [("Out", [none, some 2]), ("Aux", [some 2])]

/-! ## Notions for PreparePtenData -/

/-- The tensor of the wrapper `w`, when `w` holds an initialized one, resides on the
place `p`. -/
def OnPlace (env : Env) (p : Nat) (w : VariableWrapper) : Prop :=
  ∀ t, GetTensorFromVar w.var_ = some t → t.initialized = true →
    env.is_same_place t.place p = true

/-- The variable `v` is an element of the group of input argument `i`, named `name` and
described by `d`. -/
def ListedUnder (input_defs : List TensorArgDef) (ins : NameVarMap VarId)
    (names : List String) (v : VarId) (i : Nat) (d : TensorArgDef) : Prop :=
  ∃ name g, names[i]? = some name ∧ input_defs[i]? = some d ∧ AssocFind name ins = some g ∧
    v ∈ g

/-- A kernel whose two inputs are expected on different places: the first on place 0,
the second on place 1. -/
def Sample.mixedKernel : KernelArgsDef :=
  { input_defs := [⟨0, 0, 5⟩, ⟨1, 0, 5⟩], output_defs := [⟨0, 0, 5⟩], attribute_defs := [] }

/-- The inputs of `add` with the variable `x` under both names. -/
def Sample.aliasIns : NameVarMap VarId := [("X", [0]), ("Y", [0])]

/-- The inputs of `add` with `x` twice under `X` and `y`, then `x`, under `Y`. -/
def Sample.repeatIns : NameVarMap VarId := [("X", [0, 0]), ("Y", [1, 0])]

/-- A kernel whose two inputs are both expected on place 1. -/
def Sample.deviceKernel : KernelArgsDef :=
  { input_defs := [⟨1, 0, 5⟩, ⟨1, 0, 5⟩], output_defs := [⟨0, 0, 5⟩], attribute_defs := [] }

/-! ## Notions for the calls PrepareData makes -/

/-- The slot `(name, index)` an event of the loop body of `PrepareData` is about; `none`
for the other events. -/
def Event.slot : Event → Option (String × Nat)
  | .GetKernelTypeForVar name i => some (name, i)
  | .hasCacheKey name i => some (name, i)
  | .getCacheValue name i => some (name, i)
  | .TransformData name i => some (name, i)
  | .setCacheValue name i => some (name, i)
  | _ => none

/-- Inputs with the initialized variable `x` under `X` and the variable `out`, whose
tensor is not initialized, under `Out`. -/
def Sample.outIns : NameVarMap VarId := [("X", [0]), ("Out", [2])]

/-- The kernel key float32 on the host: the sample tensors need no transform. -/
def Sample.keyHost : OpKernelType := { data_type_ := 5, data_layout_ := 0, place_ := 0 }

/-! ## Notions for the gradient links -/

/-- The gradient links of the inputs are separated: two different input variables do not
share a gradient variable, and a gradient variable of an input is allocated and is not
itself an input. -/
def GradSeparated (st : State) (ins : NameVarMap VarId) : Prop :=
  (∀ u ∈ MapVars ins, ∀ v ∈ MapVars ins,
    (st.heap u).grad_var_ = (st.heap v).grad_var_ → (st.heap u).grad_var_ = none ∨ u = v) ∧
  (∀ u ∈ MapVars ins, ∀ g ∈ (st.heap u).grad_var_, g < st.next ∧ g ∉ MapVars ins)

instance (st : State) (ins : NameVarMap VarId) : Decidable (GradSeparated st ins) := by
  unfold GradSeparated
  infer_instance

/-- The sample state with a gradient variable for `x`: the wrapper `x@GRAD` at address 3,
whose forward data type is not set yet. -/
def Sample.gradState : State :=
  { heap := (Sample.heap.set 0 { Sample.heap 0 with grad_var_ := some 3 }).set 3
      (VariableWrapper.create "x@GRAD")
    next := 4
    trace := [] }

/-- The attribute loop passes over the argument `name` described by `arg_def` in
silence: it is declared as a vector of `int64_t` and its stored attribute is not a
vector of ints (lines 379-389). -/
def SkippedAttr (attrs default_attrs : AttributeMap) (name : String)
    (arg_def : AttributeArgDef) : Prop :=
  arg_def.type_index = .vector_int64 ∧
    ∃ v, GetAttr attrs default_attrs name = .ok v ∧ ∀ xs, v ≠ .ints xs

/-! ## Theorems -/

/-! ### Association lists -/

theorem AssocFind_isSome_iff {κ α : Type} [DecidableEq κ] (k : κ) (m : List (κ × α)) :
    (AssocFind k m).isSome = true ↔ k ∈ AssocKeys m := by
  induction m with
  | nil => simp [AssocFind, AssocKeys]
  | cons e rest ih =>
    obtain ⟨k1, v⟩ := e
    by_cases h : k1 = k
    · simp [AssocFind, AssocKeys, h]
    · have h2 : ¬ k = k1 := fun x => h x.symm
      simp only [AssocKeys] at ih
      simp [AssocFind, AssocKeys, h, h2, ih]

theorem AssocFind_eq_none_iff {κ α : Type} [DecidableEq κ] (k : κ) (m : List (κ × α)) :
    AssocFind k m = none ↔ k ∉ AssocKeys m := by
  rw [← AssocFind_isSome_iff k m]
  cases AssocFind k m <;> simp

theorem AssocFind_of_mem {κ α : Type} [DecidableEq κ] (k : κ) (m : List (κ × α))
    (h : k ∈ AssocKeys m) : ∃ v, AssocFind k m = some v := by
  have h1 := (AssocFind_isSome_iff k m).2 h
  cases hf : AssocFind k m with
  | none => simp [hf] at h1
  | some v => exact ⟨v, rfl⟩

/-! ### GetAttr -/

theorem GetAttr_of_attrs (attrs default_attrs : AttributeMap) (name : String) (v : Attribute)
    (h : AssocFind name attrs = some v) : GetAttr attrs default_attrs name = .ok v := by
  simp [GetAttr, h]

theorem GetAttr_of_default (attrs default_attrs : AttributeMap) (name : String) (v : Attribute)
    (h : AssocFind name attrs = none) (hd : AssocFind name default_attrs = some v) :
    GetAttr attrs default_attrs name = .ok v := by
  simp [GetAttr, h, hd]

theorem GetAttr_of_neither (attrs default_attrs : AttributeMap) (name : String)
    (h : AssocFind name attrs = none) (hd : AssocFind name default_attrs = none) :
    GetAttr attrs default_attrs name = .error (.NotFound name) := by
  simp [GetAttr, h, hd]

/-- Claim C1.  `GetAttr` returns the value of `attrs` when `name` is a key of `attrs`
(whatever `default_attrs` holds), else the value of `default_attrs` when `name` is a key
of it, else it fails with `NotFound`; and it fails in no other case. -/
theorem GetAttr_contract (attrs default_attrs : AttributeMap) (name : String) :
    (name ∈ AssocKeys attrs →
      ∃ v, AssocFind name attrs = some v ∧ GetAttr attrs default_attrs name = .ok v) ∧
    (name ∉ AssocKeys attrs → name ∈ AssocKeys default_attrs →
      ∃ v, AssocFind name default_attrs = some v ∧
        GetAttr attrs default_attrs name = .ok v) ∧
    (name ∉ AssocKeys attrs → name ∉ AssocKeys default_attrs →
      GetAttr attrs default_attrs name = .error (.NotFound name)) ∧
    ((∃ e, GetAttr attrs default_attrs name = .error e) ↔
      (name ∉ AssocKeys attrs ∧ name ∉ AssocKeys default_attrs)) := by
  refine ⟨?_, ?_, ?_, ?_⟩
  · intro h
    obtain ⟨v, hv⟩ := AssocFind_of_mem name attrs h
    exact ⟨v, hv, GetAttr_of_attrs attrs default_attrs name v hv⟩
  · intro h hd
    obtain ⟨v, hv⟩ := AssocFind_of_mem name default_attrs hd
    exact ⟨v, hv, GetAttr_of_default attrs default_attrs name v
      ((AssocFind_eq_none_iff name attrs).2 h) hv⟩
  · intro h hd
    exact GetAttr_of_neither attrs default_attrs name
      ((AssocFind_eq_none_iff name attrs).2 h) ((AssocFind_eq_none_iff name default_attrs).2 hd)
  · constructor
    · rintro ⟨e, he⟩
      by_cases h : name ∈ AssocKeys attrs
      · obtain ⟨v, hv⟩ := AssocFind_of_mem name attrs h
        rw [GetAttr_of_attrs attrs default_attrs name v hv] at he
        cases he
      · by_cases hd : name ∈ AssocKeys default_attrs
        · obtain ⟨v, hv⟩ := AssocFind_of_mem name default_attrs hd
          rw [GetAttr_of_default attrs default_attrs name v
            ((AssocFind_eq_none_iff name attrs).2 h) hv] at he
          cases he
        · exact ⟨h, hd⟩
    · rintro ⟨h, hd⟩
      exact ⟨_, GetAttr_of_neither attrs default_attrs name
        ((AssocFind_eq_none_iff name attrs).2 h)
        ((AssocFind_eq_none_iff name default_attrs).2 hd)⟩

/-- Claim C1 at a concrete input: the explicit value wins over a different default,
the default is used when the explicit map lacks the name, and a name in neither map
is `NotFound`. -/
theorem GetAttr_contract_witness :
    GetAttr [("axis", .int 1)] [("axis", .int 7)] "axis" = .ok (.int 1) ∧
    GetAttr [("axis", .int 1)] [("scale", .float 3)] "scale" = .ok (.float 3) ∧
    GetAttr [("axis", .int 1)] [("scale", .float 3)] "bias" = .error (.NotFound "bias") ∧
    ((∃ e, GetAttr [("axis", .int 1)] [("scale", .float 3)] "bias" = .error e) ↔
      ("bias" ∉ AssocKeys [("axis", Attribute.int 1)] ∧
        "bias" ∉ AssocKeys [("scale", Attribute.float 3)])) :=
  ⟨by decide, by decide, by decide,
    (GetAttr_contract [("axis", .int 1)] [("scale", .float 3)] "bias").2.2.2⟩

/-! ### BuildDygraphPtenKernelContext: the arity check -/

/-- Claim C6.  When one of the three name lists differs in length from its descriptor
list, the build fails with `InvalidArgument` before anything is added: the inputs,
outputs, attributes and ranges of the context, the heap (so every output tensor) and
the recorded calls are those of the state the build started in. -/
theorem BuildDygraphPtenKernelContext_arity (env : Env) (sig : KernelSignature)
    (kernel : KernelArgsDef) (ins : NameVarMap VarId) (outs : NameVarMap (Option VarId))
    (attrs default_attrs : AttributeMap) (dev_ctx : Nat) (s0 : BuildState)
    (h : sig.input_names.length ≠ kernel.input_defs.length ∨
      sig.output_names.length ≠ kernel.output_defs.length ∨
      sig.attr_names.length ≠ kernel.attribute_defs.length) :
    (∃ what names defs,
      (BuildDygraphPtenKernelContext env sig kernel ins outs attrs default_attrs dev_ctx s0).error
        = some (.InvalidArgument what names defs) ∧ names ≠ defs) ∧
    (BuildDygraphPtenKernelContext env sig kernel ins outs attrs default_attrs dev_ctx
      s0).state.kernel_ctx = { s0.kernel_ctx with dev_ctx_ := some dev_ctx } ∧
    (BuildDygraphPtenKernelContext env sig kernel ins outs attrs default_attrs dev_ctx
      s0).state.heap = s0.heap ∧
    (BuildDygraphPtenKernelContext env sig kernel ins outs attrs default_attrs dev_ctx
      s0).state.trace = s0.trace := by
  by_cases h1 : sig.input_names.length = kernel.input_defs.length
  · by_cases h2 : sig.output_names.length = kernel.output_defs.length
    · by_cases h3 : sig.attr_names.length = kernel.attribute_defs.length
      · rcases h with h | h | h <;> contradiction
      · refine ⟨⟨"attribute_args", sig.attr_names.length, kernel.attribute_defs.length, ?_, h3⟩,
          ?_, ?_, ?_⟩ <;> simp [BuildDygraphPtenKernelContext, h1, h2, h3]
    · refine ⟨⟨"outputs_args", sig.output_names.length, kernel.output_defs.length, ?_, h2⟩,
        ?_, ?_, ?_⟩ <;> simp [BuildDygraphPtenKernelContext, h1, h2]
  · refine ⟨⟨"inputs_args", sig.input_names.length, kernel.input_defs.length, ?_, h1⟩,
      ?_, ?_, ?_⟩ <;> simp [BuildDygraphPtenKernelContext, h1]

/-! ### Ranges and concatenation -/

theorem RangeEnd_append (ranges : List (Nat × Nat)) (r : Nat × Nat) :
    RangeEnd (ranges ++ [r]) = r.2 := by
  simp [RangeEnd]

theorem CumulativeRanges_length (start : Nat) (ws : List Nat) :
    (CumulativeRanges start ws).length = ws.length := by
  induction ws generalizing start with
  | nil => rfl
  | cons w rest ih => simp [CumulativeRanges, ih]

theorem RangeEnd_append_cumulative (ranges : List (Nat × Nat)) (ws : List Nat) :
    RangeEnd (ranges ++ CumulativeRanges (RangeEnd ranges) ws) = RangeEnd ranges + ws.sum := by
  induction ws generalizing ranges with
  | nil => simp [CumulativeRanges]
  | cons w rest ih =>
    have h := ih (ranges ++ [(RangeEnd ranges, RangeEnd ranges + w)])
    rw [RangeEnd_append] at h
    simp only [CumulativeRanges, List.sum_cons]
    rw [show ranges ++ (RangeEnd ranges, RangeEnd ranges + w) ::
        CumulativeRanges (RangeEnd ranges + w) rest =
        (ranges ++ [(RangeEnd ranges, RangeEnd ranges + w)]) ++
        CumulativeRanges (RangeEnd ranges + w) rest by simp]
    rw [h]
    omega

theorem Concat_length {α : Type} (gs : List (List α)) :
    (Concat gs).length = (gs.map List.length).sum := by
  induction gs with
  | nil => rfl
  | cons g rest ih => simp [Concat, ih]

/-- In the ranges of consecutive groups laid out after a list `pre`, range `i` starts at
the end of range `i - 1` (at `pre.length` for `i = 0`), has the width of group `i`, and
cuts exactly group `i` out of `pre ++ Concat gs`. -/
theorem CumulativeRanges_slice {α : Type} (gs : List (List α)) (pre : List α) (i : Nat)
    (g : List α) (hg : gs[i]? = some g) :
    ∃ start, (CumulativeRanges pre.length (gs.map List.length))[i]? = some (start, start + g.length) ∧
      start = (if i = 0 then pre.length
        else (((CumulativeRanges pre.length (gs.map List.length))[i - 1]?).map Prod.snd).getD 0) ∧
      ((pre ++ Concat gs).drop start).take g.length = g := by
  induction gs generalizing pre i with
  | nil => simp at hg
  | cons g0 rest ih =>
    cases i with
    | zero =>
      simp only [List.getElem?_cons_zero, Option.some.injEq] at hg
      subst hg
      refine ⟨pre.length, by simp [CumulativeRanges], by simp, ?_⟩
      simp [Concat]
    | succ i =>
      simp only [List.getElem?_cons_succ] at hg
      obtain ⟨start, h1, h2, h3⟩ := ih (pre ++ g0) i hg
      refine ⟨start, ?_, ?_, ?_⟩
      · simpa [CumulativeRanges] using h1
      · rw [h2]
        cases i with
        | zero => simp [CumulativeRanges]
        | succ j => simp [CumulativeRanges]
      · simpa [Concat] using h3

/-! ### BuildDygraphPtenKernelContext: the input loop -/

theorem start_idx_eq (ranges : List (Nat × Nat)) (i : Nat) (h : ranges.length = i) :
    (if i = 0 then (Except.ok 0 : Except Error Nat) else RangeEndAt ranges (i - 1)) =
      .ok (RangeEnd ranges) := by
  subst h
  cases hr : ranges.getLast? with
  | none =>
    have : ranges = [] := by simpa using hr
    subst this
    simp [RangeEnd]
  | some r =>
    have hne : ranges ≠ [] := by
      intro h0
      simp [h0] at hr
    have hlen : ranges.length ≠ 0 := by simpa using hne
    have hget : ranges[ranges.length - 1]? = some r := by
      rw [← hr, List.getLast?_eq_getElem?]
    simp [hlen, RangeEndAt, hget, RangeEnd, hr]

theorem AssignRange_next (range : Nat × Nat) (ranges : List (Nat × Nat)) (i : Nat)
    (h : ranges.length = i) : AssignRange range i ranges = .ok (ranges ++ [range]) := by
  subst h
  simp [AssignRange]

theorem BuildInput_ok (ins : NameVarMap VarId) (name : String) (g : List VarId) (i : Nat)
    (s : BuildState) (hfind : AssocFind name ins = some g)
    (hlen : s.kernel_ctx.input_range_.length = i) :
    BuildInput ins name i s =
      ⟨{ s with kernel_ctx :=
          { s.kernel_ctx with
            inputs_ := s.kernel_ctx.inputs_ ++ g.map (TensorPointer s.heap)
            input_range_ := s.kernel_ctx.input_range_ ++
              [(RangeEnd s.kernel_ctx.input_range_,
                RangeEnd s.kernel_ctx.input_range_ + g.length)] } }, none⟩ := by
  simp [BuildInput, hfind, start_idx_eq _ _ hlen, AssignRange_next _ _ _ hlen]

/-- The input loop cannot fail when every name is a key of `ins`; it appends the
pointers of the groups in order and one cumulative range per argument, and changes
nothing else. -/
theorem BuildInputs_ok (ins : NameVarMap VarId) (names : List String) (i : Nat) (s : BuildState)
    (hkeys : ∀ n ∈ names, n ∈ AssocKeys ins)
    (hlen : s.kernel_ctx.input_range_.length = i) :
    BuildInputs ins names i s =
      ⟨{ s with kernel_ctx :=
          { s.kernel_ctx with
            inputs_ := s.kernel_ctx.inputs_ ++ Concat (names.map (InputPointers s.heap ins))
            input_range_ := s.kernel_ctx.input_range_ ++
              CumulativeRanges (RangeEnd s.kernel_ctx.input_range_)
                (names.map fun n => (InputPointers s.heap ins n).length) } }, none⟩ := by
  induction names generalizing i s with
  | nil => simp [BuildInputs, Concat, CumulativeRanges]
  | cons name rest ih =>
    obtain ⟨g, hg⟩ := AssocFind_of_mem name ins (hkeys name (by simp))
    have hrest : ∀ n ∈ rest, n ∈ AssocKeys ins := fun n hn => hkeys n (by simp [hn])
    simp only [BuildInputs, BuildInput_ok ins name g i s hg hlen]
    rw [ih (i + 1) _ hrest (by simp [hlen])]
    simp [Concat, CumulativeRanges, InputPointers, hg, RangeEnd_append]

/-! ### BuildDygraphPtenKernelContext: the output loop -/

/-- The element loop leaves the inputs, all ranges, the attributes and the device
context alone; when it completes it has appended the group itself. -/
theorem BuildOutputElems_ctx (env : Env) (defs : List TensorArgDef) (i offset : Nat)
    (g : List (Option VarId)) (s : BuildState) :
    (BuildOutputElems env defs i offset g s).state.kernel_ctx.inputs_ = s.kernel_ctx.inputs_ ∧
    (BuildOutputElems env defs i offset g s).state.kernel_ctx.input_range_ =
      s.kernel_ctx.input_range_ ∧
    (BuildOutputElems env defs i offset g s).state.kernel_ctx.output_range_ =
      s.kernel_ctx.output_range_ ∧
    (BuildOutputElems env defs i offset g s).state.kernel_ctx.attrs_ = s.kernel_ctx.attrs_ ∧
    (BuildOutputElems env defs i offset g s).state.kernel_ctx.dev_ctx_ = s.kernel_ctx.dev_ctx_ ∧
    ((BuildOutputElems env defs i offset g s).error = none →
      (BuildOutputElems env defs i offset g s).state.kernel_ctx.outputs_ =
        s.kernel_ctx.outputs_ ++ g) := by
  induction g generalizing offset s with
  | nil => simp [BuildOutputElems]
  | cons e rest ih =>
    cases e with
    | none =>
      simp only [BuildOutputElems]
      obtain ⟨h1, h2, h3, h4, h5, h6⟩ := ih (offset + 1)
        { s with kernel_ctx :=
            { s.kernel_ctx with outputs_ := s.kernel_ctx.outputs_ ++ [none] } }
      refine ⟨h1, h2, h3, h4, h5, ?_⟩
      intro he
      rw [h6 he]
      simp
    | some id =>
      rcases hv : (s.heap id).var_ with _ | tensor_out | t | k
      · simp [BuildOutputElems, hv]
      · cases hd : defs[i]? with
        | none => simp [BuildOutputElems, hv, hd]
        | some arg_def =>
          simp only [BuildOutputElems, hv, hd]
          obtain ⟨h1, h2, h3, h4, h5, h6⟩ := ih (offset + 1)
            { heap := s.heap.set id
                { s.heap id with
                  var_ := .LoDTensor (env.SetAllocationForOutputTenosr
                    (env.ResetTensorByArgDef tensor_out arg_def)
                    (env.TransToFluidPlace arg_def.backend)) }
              trace := s.trace ++ [Event.ResetTensorByArgDef i offset]
              kernel_ctx :=
                { s.kernel_ctx with outputs_ := s.kernel_ctx.outputs_ ++ [some id] } }
          refine ⟨h1, h2, h3, h4, h5, ?_⟩
          intro he
          rw [h6 he]
          simp
      · simp [BuildOutputElems, hv]
      · simp [BuildOutputElems, hv]

/-- Every call the element loop of argument `i` records is a reset for argument `i`. -/
theorem BuildOutputElems_trace (env : Env) (defs : List TensorArgDef) (i offset : Nat)
    (g : List (Option VarId)) (s : BuildState) :
    ∃ ev, (BuildOutputElems env defs i offset g s).state.trace = s.trace ++ ev ∧
      ∀ e ∈ ev, ∃ off, e = Event.ResetTensorByArgDef i off := by
  induction g generalizing offset s with
  | nil => exact ⟨[], by simp [BuildOutputElems]⟩
  | cons e rest ih =>
    cases e with
    | none =>
      simp only [BuildOutputElems]
      exact ih (offset + 1) _
    | some id =>
      rcases hv : (s.heap id).var_ with _ | tensor_out | t | k
      · exact ⟨[], by simp [BuildOutputElems, hv]⟩
      · cases hd : defs[i]? with
        | none => exact ⟨[], by simp [BuildOutputElems, hv, hd]⟩
        | some arg_def =>
          simp only [BuildOutputElems, hv, hd]
          obtain ⟨ev, h1, h2⟩ := ih (offset + 1)
            { heap := s.heap.set id
                { s.heap id with
                  var_ := .LoDTensor (env.SetAllocationForOutputTenosr
                    (env.ResetTensorByArgDef tensor_out arg_def)
                    (env.TransToFluidPlace arg_def.backend)) }
              trace := s.trace ++ [Event.ResetTensorByArgDef i offset]
              kernel_ctx :=
                { s.kernel_ctx with outputs_ := s.kernel_ctx.outputs_ ++ [some id] } }
          refine ⟨Event.ResetTensorByArgDef i offset :: ev, by simp [h1], ?_⟩
          intro e he
          rcases List.mem_cons.1 he with h | h
          · exact ⟨offset, h⟩
          · exact h2 e h
      · exact ⟨[], by simp [BuildOutputElems, hv]⟩
      · exact ⟨[], by simp [BuildOutputElems, hv]⟩

/-- The turn of the output loop for a name that is not a key of `outs`: one null slot
is appended, the range `[k, k + 1)` is recorded with `k` the end of the previous range,
nothing else changes and no exception is thrown. -/
theorem BuildOutput_absent (env : Env) (defs : List TensorArgDef)
    (outs : NameVarMap (Option VarId)) (name : String) (i : Nat) (s : BuildState)
    (habs : AssocFind name outs = none) (hlen : s.kernel_ctx.output_range_.length = i) :
    BuildOutput env defs outs name i s =
      ⟨{ s with kernel_ctx :=
          { s.kernel_ctx with
            outputs_ := s.kernel_ctx.outputs_ ++ [none]
            output_range_ := s.kernel_ctx.output_range_ ++
              [(RangeEnd s.kernel_ctx.output_range_,
                RangeEnd s.kernel_ctx.output_range_ + 1)] } }, none⟩ := by
  simp [BuildOutput, habs, start_idx_eq _ _ hlen, AssignRange_next _ _ _ hlen]

/-- A turn of the output loop leaves the inputs, their ranges, the attributes and the
device context alone, whether it completes or throws. -/
theorem BuildOutput_frame (env : Env) (defs : List TensorArgDef)
    (outs : NameVarMap (Option VarId)) (name : String) (i : Nat) (s : BuildState) :
    (BuildOutput env defs outs name i s).state.kernel_ctx.inputs_ = s.kernel_ctx.inputs_ ∧
    (BuildOutput env defs outs name i s).state.kernel_ctx.input_range_ =
      s.kernel_ctx.input_range_ ∧
    (BuildOutput env defs outs name i s).state.kernel_ctx.attrs_ = s.kernel_ctx.attrs_ ∧
    (BuildOutput env defs outs name i s).state.kernel_ctx.dev_ctx_ = s.kernel_ctx.dev_ctx_ := by
  unfold BuildOutput
  split
  · simp
  · split
    · simp only []
      split <;> simp
    · rename_i outs_vector _
      obtain ⟨h1, h2, _, h4, h5, _⟩ := BuildOutputElems_ctx env defs i 0 outs_vector s
      cases hr : BuildOutputElems env defs i 0 outs_vector s with
      | mk s1 e =>
        rw [hr] at h1 h2 h4 h5
        simp only at h1 h2 h4 h5
        cases e with
        | some e => simp [h1, h2, h4, h5]
        | none =>
          simp only []
          split <;> simp [h1, h2, h4, h5]

/-- A turn of the output loop that completes has appended the slots of its argument and
the range that covers them. -/
theorem BuildOutput_ok (env : Env) (defs : List TensorArgDef)
    (outs : NameVarMap (Option VarId)) (name : String) (i : Nat) (s : BuildState)
    (hlen : s.kernel_ctx.output_range_.length = i)
    (hok : (BuildOutput env defs outs name i s).error = none) :
    (BuildOutput env defs outs name i s).state.kernel_ctx.outputs_ =
      s.kernel_ctx.outputs_ ++ OutputSlots outs name ∧
    (BuildOutput env defs outs name i s).state.kernel_ctx.output_range_ =
      s.kernel_ctx.output_range_ ++
        [(RangeEnd s.kernel_ctx.output_range_,
          RangeEnd s.kernel_ctx.output_range_ + (OutputSlots outs name).length)] := by
  cases hfind : AssocFind name outs with
  | none =>
    rw [BuildOutput_absent env defs outs name i s hfind hlen]
    simp [OutputSlots, hfind]
  | some outs_vector =>
    obtain ⟨_, _, h3, _, _, h6⟩ := BuildOutputElems_ctx env defs i 0 outs_vector s
    revert hok
    unfold BuildOutput
    rw [start_idx_eq _ _ hlen]
    simp only [hfind]
    cases hr : BuildOutputElems env defs i 0 outs_vector s with
    | mk s1 e =>
      rw [hr] at h3 h6
      simp only at h3 h6
      cases e with
      | some e => simp
      | none =>
        have hlen1 : s1.kernel_ctx.output_range_.length = i := by rw [h3, hlen]
        simp only [AssignRange_next _ _ _ hlen1]
        intro _
        simp [h6, h3, OutputSlots, hfind]

/-- The calls a turn of the output loop records are resets for its own argument, and
there are none when the name is not a key of `outs`. -/
theorem BuildOutput_trace (env : Env) (defs : List TensorArgDef)
    (outs : NameVarMap (Option VarId)) (name : String) (i : Nat) (s : BuildState) :
    ∃ ev, (BuildOutput env defs outs name i s).state.trace = s.trace ++ ev ∧
      ∀ e ∈ ev, (∃ off, e = Event.ResetTensorByArgDef i off) ∧
        (AssocFind name outs).isSome = true := by
  cases hfind : AssocFind name outs with
  | none =>
    refine ⟨[], ?_, by simp⟩
    unfold BuildOutput
    split
    · simp
    · simp only [hfind]
      split <;> simp
  | some outs_vector =>
    unfold BuildOutput
    split
    · exact ⟨[], by simp, by simp⟩
    · simp only [hfind]
      obtain ⟨ev, h1, h2⟩ := BuildOutputElems_trace env defs i 0 outs_vector s
      refine ⟨ev, ?_, fun e he => ⟨h2 e he, by simp⟩⟩
      cases hr : BuildOutputElems env defs i 0 outs_vector s with
      | mk s1 e =>
        rw [hr] at h1
        simp only at h1
        cases e with
        | some e => simpa using h1
        | none =>
          simp only []
          split <;> simpa using h1

theorem BuildOutputs_frame (env : Env) (defs : List TensorArgDef)
    (outs : NameVarMap (Option VarId)) (names : List String) (i : Nat) (s : BuildState) :
    (BuildOutputs env defs outs names i s).state.kernel_ctx.inputs_ = s.kernel_ctx.inputs_ ∧
    (BuildOutputs env defs outs names i s).state.kernel_ctx.input_range_ =
      s.kernel_ctx.input_range_ ∧
    (BuildOutputs env defs outs names i s).state.kernel_ctx.attrs_ = s.kernel_ctx.attrs_ ∧
    (BuildOutputs env defs outs names i s).state.kernel_ctx.dev_ctx_ = s.kernel_ctx.dev_ctx_ := by
  induction names generalizing i s with
  | nil => simp [BuildOutputs]
  | cons name rest ih =>
    obtain ⟨h1, h2, h3, h4⟩ := BuildOutput_frame env defs outs name i s
    simp only [BuildOutputs]
    cases hr : BuildOutput env defs outs name i s with
    | mk s1 e =>
      rw [hr] at h1 h2 h3 h4
      simp only at h1 h2 h3 h4
      cases e with
      | some e => simp [h1, h2, h3, h4]
      | none =>
        obtain ⟨k1, k2, k3, k4⟩ := ih (i + 1) s1
        simp only []
        rw [k1, k2, k3, k4]
        exact ⟨h1, h2, h3, h4⟩

/-- An output loop that completes has appended, argument after argument, the slots of
each argument and one cumulative range per argument. -/
theorem BuildOutputs_ok (env : Env) (defs : List TensorArgDef)
    (outs : NameVarMap (Option VarId)) (names : List String) (i : Nat) (s : BuildState)
    (hlen : s.kernel_ctx.output_range_.length = i)
    (hok : (BuildOutputs env defs outs names i s).error = none) :
    (BuildOutputs env defs outs names i s).state.kernel_ctx.outputs_ =
      s.kernel_ctx.outputs_ ++ Concat (names.map (OutputSlots outs)) ∧
    (BuildOutputs env defs outs names i s).state.kernel_ctx.output_range_ =
      s.kernel_ctx.output_range_ ++
        CumulativeRanges (RangeEnd s.kernel_ctx.output_range_)
          (names.map fun n => (OutputSlots outs n).length) := by
  induction names generalizing i s with
  | nil => simp [BuildOutputs, Concat, CumulativeRanges]
  | cons name rest ih =>
    have hstep := BuildOutput_ok env defs outs name i s hlen
    revert hok
    simp only [BuildOutputs]
    cases hr : BuildOutput env defs outs name i s with
    | mk s1 e =>
      rw [hr] at hstep
      simp only at hstep
      cases e with
      | some e => simp
      | none =>
        obtain ⟨h1, h2⟩ := hstep rfl
        simp only []
        intro hok
        obtain ⟨k1, k2⟩ := ih (i + 1) s1 (by rw [h2]; simp [hlen]) hok
        rw [k1, k2, h1, h2]
        simp [Concat, CumulativeRanges, RangeEnd_append]

/-- Every call the output loop records is a reset for an argument whose name is a key
of `outs`. -/
theorem BuildOutputs_trace (env : Env) (defs : List TensorArgDef)
    (outs : NameVarMap (Option VarId)) (names : List String) (i : Nat) (s : BuildState) :
    ∃ ev, (BuildOutputs env defs outs names i s).state.trace = s.trace ++ ev ∧
      ∀ e ∈ ev, ∃ j off name, e = Event.ResetTensorByArgDef j off ∧ i ≤ j ∧
        names[j - i]? = some name ∧ (AssocFind name outs).isSome = true := by
  induction names generalizing i s with
  | nil => exact ⟨[], by simp [BuildOutputs]⟩
  | cons name rest ih =>
    obtain ⟨ev1, h1, h2⟩ := BuildOutput_trace env defs outs name i s
    have hfirst : ∀ e ∈ ev1, ∃ j off nm, e = Event.ResetTensorByArgDef j off ∧ i ≤ j ∧
        (name :: rest)[j - i]? = some nm ∧ (AssocFind nm outs).isSome = true := by
      intro e he
      obtain ⟨⟨off, hoff⟩, hs⟩ := h2 e he
      exact ⟨i, off, name, hoff, le_refl i, by simp, hs⟩
    simp only [BuildOutputs]
    cases hr : BuildOutput env defs outs name i s with
    | mk s1 e =>
      rw [hr] at h1
      simp only at h1
      cases e with
      | some e => exact ⟨ev1, by simpa using h1, hfirst⟩
      | none =>
        obtain ⟨ev2, k1, k2⟩ := ih (i + 1) s1
        refine ⟨ev1 ++ ev2, ?_, ?_⟩
        · simp only []
          rw [k1, h1, List.append_assoc]
        · intro e he
          rcases List.mem_append.1 he with h | h
          · exact hfirst e h
          · obtain ⟨j, off, nm, e1, e2, e3, e4⟩ := k2 e h
            refine ⟨j, off, nm, e1, by omega, ?_, e4⟩
            have hj : j - i = (j - (i + 1)) + 1 := by omega
            rw [hj, List.getElem?_cons_succ]
            exact e3

/-! ### BuildDygraphPtenKernelContext: the attribute loop -/

/-- A turn of the attribute loop appends at most one attribute and changes nothing
else, whether it completes or throws. -/
theorem BuildAttr_frame (env : Env) (ins : NameVarMap VarId) (attrs default_attrs : AttributeMap)
    (name : String) (arg_def : AttributeArgDef) (s : BuildState) :
    ∃ added, added.length ≤ 1 ∧
      (BuildAttr env ins attrs default_attrs name arg_def s).state =
        { s with kernel_ctx := { s.kernel_ctx with attrs_ := s.kernel_ctx.attrs_ ++ added } } := by
  unfold BuildAttr
  split
  · split
    · exact ⟨[_], by simp, rfl⟩
    · exact ⟨[], by simp, by simp⟩
  · split
    · exact ⟨[_], by simp, rfl⟩
    · exact ⟨[], by simp, by simp⟩
  · split
    · exact ⟨[_], by simp, rfl⟩
    · exact ⟨[], by simp, by simp⟩
    · exact ⟨[], by simp, by simp⟩

theorem BuildAttrs_frame (env : Env) (attr_defs : List AttributeArgDef) (ins : NameVarMap VarId)
    (attrs default_attrs : AttributeMap) (names : List String) (i : Nat) (s : BuildState) :
    ∃ added, added.length ≤ names.length ∧
      (BuildAttrs env attr_defs ins attrs default_attrs names i s).state =
        { s with kernel_ctx := { s.kernel_ctx with attrs_ := s.kernel_ctx.attrs_ ++ added } } := by
  induction names generalizing i s with
  | nil => exact ⟨[], by simp, by simp [BuildAttrs]⟩
  | cons name rest ih =>
    simp only [BuildAttrs]
    cases hd : attr_defs[i]? with
    | none => exact ⟨[], by simp, by simp⟩
    | some arg_def =>
      obtain ⟨a1, hl1, h1⟩ := BuildAttr_frame env ins attrs default_attrs name arg_def s
      simp only []
      cases hr : BuildAttr env ins attrs default_attrs name arg_def s with
      | mk s1 e =>
        rw [hr] at h1
        simp only at h1
        cases e with
        | some e => exact ⟨a1, by simp; omega, by simpa using h1⟩
        | none =>
          obtain ⟨a2, hl2, h2⟩ := ih (i + 1) s1
          refine ⟨a1 ++ a2, by simp; omega, ?_⟩
          simp only []
          rw [h2, h1]
          simp

/-! ### BuildDygraphPtenKernelContext: inputs of the whole build -/

/-- With matching arities and every input name a key of `ins`, the build runs the
output loop on the state the input loop leaves, and the attribute loop after it. -/
theorem BuildDygraphPtenKernelContext_phases (env : Env) (sig : KernelSignature)
    (kernel : KernelArgsDef) (ins : NameVarMap VarId) (outs : NameVarMap (Option VarId))
    (attrs default_attrs : AttributeMap) (dev_ctx : Nat) (s0 : BuildState)
    (h1 : sig.input_names.length = kernel.input_defs.length)
    (h2 : sig.output_names.length = kernel.output_defs.length)
    (h3 : sig.attr_names.length = kernel.attribute_defs.length)
    (hkeys : ∀ n ∈ sig.input_names, n ∈ AssocKeys ins)
    (hlen : s0.kernel_ctx.input_range_ = []) :
    ∃ s1 : BuildState,
      s1.heap = s0.heap ∧ s1.trace = s0.trace ∧
      s1.kernel_ctx =
        { s0.kernel_ctx with
          dev_ctx_ := some dev_ctx
          inputs_ := s0.kernel_ctx.inputs_ ++ Concat (sig.input_names.map (InputPointers s0.heap ins))
          input_range_ := CumulativeRanges 0
            (sig.input_names.map fun n => (InputPointers s0.heap ins n).length) } ∧
      BuildDygraphPtenKernelContext env sig kernel ins outs attrs default_attrs dev_ctx s0 =
        (match BuildOutputs env kernel.output_defs outs sig.output_names 0 s1 with
          | ⟨s2, some e⟩ => ⟨s2, some e⟩
          | ⟨s2, none⟩ =>
            BuildAttrs env kernel.attribute_defs ins attrs default_attrs sig.attr_names 0 s2) := by
  have hin := BuildInputs_ok ins sig.input_names 0
    { s0 with kernel_ctx := { s0.kernel_ctx with dev_ctx_ := some dev_ctx } } hkeys
    (by simp [hlen])
  refine ⟨{ heap := s0.heap, trace := s0.trace
            kernel_ctx :=
              { s0.kernel_ctx with
                dev_ctx_ := some dev_ctx
                inputs_ := s0.kernel_ctx.inputs_ ++
                  Concat (sig.input_names.map (InputPointers s0.heap ins))
                input_range_ := CumulativeRanges 0
                  (sig.input_names.map fun n => (InputPointers s0.heap ins n).length) } },
    rfl, rfl, rfl, ?_⟩
  simp only [BuildDygraphPtenKernelContext, h1, h2, h3, ne_eq, not_true_eq_false, if_false]
  rw [hin]
  simp [hlen, RangeEnd]

/-- What the whole build leaves, in terms of its phases: the inputs are those of the
input loop, and the outputs, the heap and the recorded calls are those of the output
loop, which has completed when the build has. -/
theorem BuildDygraphPtenKernelContext_final (env : Env) (sig : KernelSignature)
    (kernel : KernelArgsDef) (ins : NameVarMap VarId) (outs : NameVarMap (Option VarId))
    (attrs default_attrs : AttributeMap) (dev_ctx : Nat) (s0 : BuildState)
    (h1 : sig.input_names.length = kernel.input_defs.length)
    (h2 : sig.output_names.length = kernel.output_defs.length)
    (h3 : sig.attr_names.length = kernel.attribute_defs.length)
    (hkeys : ∀ n ∈ sig.input_names, n ∈ AssocKeys ins)
    (hlen : s0.kernel_ctx.input_range_ = []) :
    ∃ s1 : BuildState,
      s1.heap = s0.heap ∧ s1.trace = s0.trace ∧
      s1.kernel_ctx.outputs_ = s0.kernel_ctx.outputs_ ∧
      s1.kernel_ctx.output_range_ = s0.kernel_ctx.output_range_ ∧
      (BuildDygraphPtenKernelContext env sig kernel ins outs attrs default_attrs dev_ctx
        s0).state.kernel_ctx.inputs_ =
          s0.kernel_ctx.inputs_ ++ Concat (sig.input_names.map (InputPointers s0.heap ins)) ∧
      (BuildDygraphPtenKernelContext env sig kernel ins outs attrs default_attrs dev_ctx
        s0).state.kernel_ctx.input_range_ =
          CumulativeRanges 0 (sig.input_names.map fun n => (InputPointers s0.heap ins n).length) ∧
      (BuildDygraphPtenKernelContext env sig kernel ins outs attrs default_attrs dev_ctx
        s0).state.kernel_ctx.outputs_ =
          (BuildOutputs env kernel.output_defs outs sig.output_names 0 s1).state.kernel_ctx.outputs_ ∧
      (BuildDygraphPtenKernelContext env sig kernel ins outs attrs default_attrs dev_ctx
        s0).state.kernel_ctx.output_range_ =
          (BuildOutputs env kernel.output_defs outs sig.output_names 0
            s1).state.kernel_ctx.output_range_ ∧
      (BuildDygraphPtenKernelContext env sig kernel ins outs attrs default_attrs dev_ctx
        s0).state.trace =
          (BuildOutputs env kernel.output_defs outs sig.output_names 0 s1).state.trace ∧
      (BuildDygraphPtenKernelContext env sig kernel ins outs attrs default_attrs dev_ctx
        s0).state.heap =
          (BuildOutputs env kernel.output_defs outs sig.output_names 0 s1).state.heap ∧
      ((BuildDygraphPtenKernelContext env sig kernel ins outs attrs default_attrs dev_ctx
        s0).error = none →
          (BuildOutputs env kernel.output_defs outs sig.output_names 0 s1).error = none) := by
  obtain ⟨s1, e1, e2, e3, e4⟩ := BuildDygraphPtenKernelContext_phases env sig kernel ins outs
    attrs default_attrs dev_ctx s0 h1 h2 h3 hkeys hlen
  obtain ⟨f1, f2, _, _⟩ := BuildOutputs_frame env kernel.output_defs outs sig.output_names 0 s1
  refine ⟨s1, e1, e2, by rw [e3], by rw [e3], ?_⟩
  rw [e4]
  cases hr : BuildOutputs env kernel.output_defs outs sig.output_names 0 s1 with
  | mk s2 e =>
    rw [hr] at f1 f2
    simp only at f1 f2
    cases e with
    | some e => simp [f1, f2, e3]
    | none =>
      obtain ⟨added, _, ha⟩ := BuildAttrs_frame env kernel.attribute_defs ins attrs
        default_attrs sig.attr_names 0 s2
      simp only []
      rw [ha]
      simp [f1, f2, e3]

/-- Claim C7.  Starting from an empty kernel context, with matching arities and every
input name a key of `ins`, the build leaves the input side wired as `InputsWired` says:
the flat input list is the concatenation of the groups of the declared names in
declaration order, and range `i` is `[s_i, s_i + |ins[n_i]|)` with `s_0 = 0` and `s_i` the
end of range `i - 1`, cutting group `i` out of the flat list.  This holds whether or
not a later phase of the build throws. -/
theorem BuildDygraphPtenKernelContext_inputs (env : Env) (sig : KernelSignature)
    (kernel : KernelArgsDef) (ins : NameVarMap VarId) (outs : NameVarMap (Option VarId))
    (attrs default_attrs : AttributeMap) (dev_ctx : Nat) (s0 : BuildState)
    (hempty : s0.kernel_ctx = KernelContext.empty)
    (h1 : sig.input_names.length = kernel.input_defs.length)
    (h2 : sig.output_names.length = kernel.output_defs.length)
    (h3 : sig.attr_names.length = kernel.attribute_defs.length)
    (hkeys : ∀ n ∈ sig.input_names, n ∈ AssocKeys ins) :
    InputsWired s0.heap ins sig.input_names
      (BuildDygraphPtenKernelContext env sig kernel ins outs attrs default_attrs dev_ctx
        s0).state.kernel_ctx := by
  obtain ⟨s1, _, _, _, _, hin, hrange, _⟩ := BuildDygraphPtenKernelContext_final env sig kernel
    ins outs attrs default_attrs dev_ctx s0 h1 h2 h3 hkeys (by rw [hempty]; rfl)
  have hin0 : s0.kernel_ctx.inputs_ = [] := by rw [hempty]; rfl
  rw [hin0, List.nil_append] at hin
  have hrange2 : (BuildDygraphPtenKernelContext env sig kernel ins outs attrs default_attrs
      dev_ctx s0).state.kernel_ctx.input_range_ =
      CumulativeRanges ([] : List (Option VarId)).length
        ((sig.input_names.map (InputPointers s0.heap ins)).map List.length) := by
    rw [hrange, List.map_map]
    rfl
  refine ⟨hin, ?_, ?_, ?_⟩
  · rw [hrange, CumulativeRanges_length, List.length_map]
  · intro i name g hname hg
    have hgi : (sig.input_names.map (InputPointers s0.heap ins))[i]? =
        some (g.map (TensorPointer s0.heap)) := by
      rw [List.getElem?_map, hname]
      simp [InputPointers, hg]
    obtain ⟨start, k1, k2, k3⟩ := CumulativeRanges_slice
      (sig.input_names.map (InputPointers s0.heap ins)) [] i _ hgi
    rw [← hrange2] at k1 k2
    rw [List.nil_append, ← hin] at k3
    rw [List.length_map] at k1 k3
    exact ⟨start, k1, by simpa using k2, k3⟩
  · have h := RangeEnd_append_cumulative []
      (sig.input_names.map fun n => (InputPointers s0.heap ins n).length)
    have h0 : RangeEnd [] = 0 := rfl
    rw [h0, List.nil_append, Nat.zero_add] at h
    rw [hrange, h, hin, Concat_length, List.map_map]
    rfl

/-- Claim C7 at the `add` signature: inputs `X`, `Y` with one tensor each give two
inputs with the ranges `[0, 1)` and `[1, 2)`. -/
theorem BuildDygraphPtenKernelContext_inputs_witness :
    InputsWired Sample.heap Sample.addIns Sample.addSig.input_names
      (BuildDygraphPtenKernelContext Sample.env Sample.addSig Sample.addKernel Sample.addIns
        Sample.addOuts [] [] 0 Sample.build0).state.kernel_ctx ∧
    (BuildDygraphPtenKernelContext Sample.env Sample.addSig Sample.addKernel Sample.addIns
      Sample.addOuts [] [] 0 Sample.build0).state.kernel_ctx.inputs_ = [some 0, some 1] ∧
    (BuildDygraphPtenKernelContext Sample.env Sample.addSig Sample.addKernel Sample.addIns
      Sample.addOuts [] [] 0 Sample.build0).state.kernel_ctx.input_range_ = [(0, 1), (1, 2)] :=
  ⟨BuildDygraphPtenKernelContext_inputs Sample.env Sample.addSig Sample.addKernel Sample.addIns
      Sample.addOuts [] [] 0 Sample.build0 rfl (by decide) (by decide) (by decide) (by decide),
    by decide, by decide⟩

/-- Claim C6 at a signature of three inputs for a kernel that declares two: the build
fails with `InvalidArgument` and the context, the heap and the recorded calls are
untouched. -/
theorem BuildDygraphPtenKernelContext_arity_witness :
    (Sample.badSig.input_names.length ≠ Sample.addKernel.input_defs.length ∨
      Sample.badSig.output_names.length ≠ Sample.addKernel.output_defs.length ∨
      Sample.badSig.attr_names.length ≠ Sample.addKernel.attribute_defs.length) ∧
    ((∃ what names defs,
      (BuildDygraphPtenKernelContext Sample.env Sample.badSig Sample.addKernel Sample.addIns
        Sample.addOuts [] [] 0 Sample.build0).error
        = some (.InvalidArgument what names defs) ∧ names ≠ defs) ∧
    (BuildDygraphPtenKernelContext Sample.env Sample.badSig Sample.addKernel Sample.addIns
      Sample.addOuts [] [] 0 Sample.build0).state.kernel_ctx =
        { Sample.build0.kernel_ctx with dev_ctx_ := some 0 } ∧
    (BuildDygraphPtenKernelContext Sample.env Sample.badSig Sample.addKernel Sample.addIns
      Sample.addOuts [] [] 0 Sample.build0).state.heap = Sample.build0.heap ∧
    (BuildDygraphPtenKernelContext Sample.env Sample.badSig Sample.addKernel Sample.addIns
      Sample.addOuts [] [] 0 Sample.build0).state.trace = Sample.build0.trace) :=
  ⟨by decide,
    BuildDygraphPtenKernelContext_arity Sample.env Sample.badSig Sample.addKernel Sample.addIns
      Sample.addOuts [] [] 0 Sample.build0 (by decide)⟩

/-! ### Lists -/

theorem getElem?_of_drop_take_one {α : Type} (l : List α) (k : Nat) (x : α)
    (h : (l.drop k).take 1 = [x]) : l[k]? = some x := by
  have h2 := congrArg (fun m : List α => m[0]?) h
  simpa using h2

/-! ### BuildDygraphPtenKernelContext: array-type attributes -/

/-- For claim C9: the array branch looks the name up in `attrs` only.  When the name is
not a key of `attrs` the turn does not depend on `default_attrs` at all. -/
theorem BuildScalarArrayAttr_ignores_default (h : Heap) (ins : NameVarMap VarId)
    (attrs default_attrs : AttributeMap) (name : String) (habs : name ∉ AssocKeys attrs) :
    BuildScalarArrayAttr h ins attrs default_attrs name =
      BuildScalarArrayAttr h ins attrs [] name := by
  have hfind : AssocFind name attrs = none := (AssocFind_eq_none_iff name attrs).2 habs
  simp [BuildScalarArrayAttr, hfind]

/-- Claim C9, the code at the failing input: `shape` is declared as `ScalarArray` and is
present only in `default_attrs`, as the vector of int64 `[2, 3]`.  The build does not
wrap it: without an input named `shape` it throws the `out_of_range` of `ins.at` and
adds no attribute, and with an input named `shape` it builds the attribute from that
input.  The sibling `Scalar` branch does use the default. -/
theorem BuildDygraphPtenKernelContext_array_default_only :
    (BuildDygraphPtenKernelContext Sample.env Sample.shapeSig Sample.shapeKernel Sample.xIns
      Sample.addOuts [] [("shape", .longs [2, 3])] 0 Sample.build0).error = some .OutOfRange ∧
    (BuildDygraphPtenKernelContext Sample.env Sample.shapeSig Sample.shapeKernel Sample.xIns
      Sample.addOuts [] [("shape", .longs [2, 3])] 0 Sample.build0).state.kernel_ctx.attrs_ = [] ∧
    (BuildDygraphPtenKernelContext Sample.env Sample.shapeSig Sample.shapeKernel Sample.shapeIns1
      Sample.addOuts [] [("shape", .longs [2, 3])] 0 Sample.build0).state.kernel_ctx.attrs_ =
        [.ScalarArray (.MakePtenScalarArrayFromVar (.LoDTensor (Sample.tensor 20)))] ∧
    (BuildDygraphPtenKernelContext Sample.env Sample.shapeSig Sample.shapeKernel Sample.xIns
      Sample.addOuts [("shape", .longs [2, 3])] [] 0 Sample.build0).state.kernel_ctx.attrs_ =
        [.ScalarArray (.ofInt64 [2, 3])] ∧
    (BuildDygraphPtenKernelContext Sample.env Sample.shapeSig Sample.scalarKernel Sample.xIns
      Sample.addOuts [] [("shape", .int 2)] 0 Sample.build0).state.kernel_ctx.attrs_ =
        [.Scalar (.ofInt 2)] := by
  refine ⟨?_, ?_, ?_, ?_, ?_⟩ <;> decide

/-! ### PrepareData: one slot -/

theorem SetForwardDataTypeOfGradVar_next (env : Env) (v : VarId) (s : Loop) :
    (SetForwardDataTypeOfGradVar env v s).next = s.next ∧
    (SetForwardDataTypeOfGradVar env v s).tmp_ins_ptr = s.tmp_ins_ptr := by
  unfold SetForwardDataTypeOfGradVar
  split <;> simp

theorem SetForwardDataTypeOfGradVar_heap (env : Env) (v : VarId) (s : Loop) (j : VarId) :
    ((SetForwardDataTypeOfGradVar env v s).heap j).var_ = (s.heap j).var_ ∧
    ((SetForwardDataTypeOfGradVar env v s).heap j).var_cache = (s.heap j).var_cache ∧
    ((SetForwardDataTypeOfGradVar env v s).heap j).name_ = (s.heap j).name_ ∧
    ((SetForwardDataTypeOfGradVar env v s).heap j).type_ = (s.heap j).type_ := by
  cases hg : (s.heap v).grad_var_ with
  | none => simp [SetForwardDataTypeOfGradVar, hg]
  | some g =>
    by_cases h : j = g
    · subst h
      simp [SetForwardDataTypeOfGradVar, hg, Heap.set]
    · simp [SetForwardDataTypeOfGradVar, hg, Heap.set, h]

theorem SetForwardDataTypeOfGradVar_var (env : Env) (v : VarId) (s : Loop) (j : VarId) :
    ((SetForwardDataTypeOfGradVar env v s).heap j).var_ = (s.heap j).var_ :=
  (SetForwardDataTypeOfGradVar_heap env v s j).1

theorem SetForwardDataTypeOfGradVar_cache (env : Env) (v : VarId) (s : Loop) (j : VarId) :
    ((SetForwardDataTypeOfGradVar env v s).heap j).var_cache = (s.heap j).var_cache :=
  (SetForwardDataTypeOfGradVar_heap env v s j).2.1

theorem SetForwardDataTypeOfGradVar_name (env : Env) (v : VarId) (s : Loop) (j : VarId) :
    ((SetForwardDataTypeOfGradVar env v s).heap j).name_ = (s.heap j).name_ :=
  (SetForwardDataTypeOfGradVar_heap env v s j).2.2.1

theorem SetForwardDataTypeOfGradVar_type (env : Env) (v : VarId) (s : Loop) (j : VarId) :
    ((SetForwardDataTypeOfGradVar env v s).heap j).type_ = (s.heap j).type_ :=
  (SetForwardDataTypeOfGradVar_heap env v s j).2.2.2

theorem SetForwardDataTypeOfGradVar_trace (env : Env) (v : VarId) (s : Loop) :
    ∃ ev, (SetForwardDataTypeOfGradVar env v s).trace = s.trace ++ ev ∧
      ∀ e ∈ ev, ∃ g d, e = Event.SetForwardDataType g d := by
  cases hg : (s.heap v).grad_var_ with
  | none => exact ⟨[], by simp [SetForwardDataTypeOfGradVar, hg]⟩
  | some g =>
    refine ⟨[Event.SetForwardDataType g (env.DataType (s.heap v))],
      by simp [SetForwardDataTypeOfGradVar, hg], ?_⟩
    intro e he
    simp only [List.mem_singleton] at he
    exact ⟨_, _, he⟩

/-- The five ways the loop body can run for a slot, with the state each leaves, in
terms of the state `s1` after the forward data type was propagated. -/
theorem PrepareDataSlot_cases (env : Env) (ins : NameVarMap VarId) (K : OpKernelType)
    (name : String) (i : Nat) (v : VarId) (s : Loop) :
    (NeedsSubstitution env K name (s.heap v) = false ∧
      (∀ t, GetTensorFromVar (s.heap v).var_ = some t → t.initialized = true →
        env.NeedTransform (env.GetKernelTypeForVar name t K) K = false) ∧
      ∃ ev, (∀ e ∈ ev, e = Event.GetKernelTypeForVar name i) ∧
        PrepareDataSlot env ins K name i v s =
          .ok { SetForwardDataTypeOfGradVar env v s with
                trace := (SetForwardDataTypeOfGradVar env v s).trace ++ ev }) ∨
    (∃ t c, GetTensorFromVar (s.heap v).var_ = some t ∧ t.initialized = true ∧
      env.NeedTransform (env.GetKernelTypeForVar name t K) K = true ∧
      AssocFind K (s.heap v).var_cache = some c ∧
      GetTensorFromVar (s.heap c).var_ = none ∧
      PrepareDataSlot env ins K name i v s = .error .NullPointer) ∨
    (∃ t c tc, GetTensorFromVar (s.heap v).var_ = some t ∧ t.initialized = true ∧
      env.NeedTransform (env.GetKernelTypeForVar name t K) K = true ∧
      AssocFind K (s.heap v).var_cache = some c ∧
      GetTensorFromVar (s.heap c).var_ = some tc ∧
      PrepareDataSlot env ins K name i v s =
        .ok { heap := (SetForwardDataTypeOfGradVar env v s).heap.set s.next
                (TmpVar (s.heap v) (SetTensorToVariable (s.heap c).var_ tc .Empty))
              next := s.next + 1
              trace := (SetForwardDataTypeOfGradVar env v s).trace ++
                [Event.GetKernelTypeForVar name i, Event.hasCacheKey name i,
                  Event.getCacheValue name i]
              tmp_ins_ptr := some (SetSlot (s.tmp_ins_ptr.getD ins) name i s.next) }) ∨
    (∃ t, GetTensorFromVar (s.heap v).var_ = some t ∧ t.initialized = true ∧
      env.NeedTransform (env.GetKernelTypeForVar name t K) K = true ∧
      AssocFind K (s.heap v).var_cache = none ∧
      env.NeedTransformDataType (env.GetKernelTypeForVar name t K) K = true ∧
      PrepareDataSlot env ins K name i v s =
        .ok { heap :=
                ((SetForwardDataTypeOfGradVar env v s).heap.set s.next
                  (TmpVar (s.heap v) (SetTensorToVariable (s.heap v).var_
                    (env.TransformData K (env.GetKernelTypeForVar name t K) t) .Empty))).set v
                  { ((SetForwardDataTypeOfGradVar env v s).heap.set s.next
                      (TmpVar (s.heap v) (SetTensorToVariable (s.heap v).var_
                        (env.TransformData K (env.GetKernelTypeForVar name t K) t) .Empty))) v with
                    var_cache := AssocSet K s.next
                      (((SetForwardDataTypeOfGradVar env v s).heap.set s.next
                        (TmpVar (s.heap v) (SetTensorToVariable (s.heap v).var_
                          (env.TransformData K (env.GetKernelTypeForVar name t K) t)
                          .Empty))) v).var_cache }
              next := s.next + 1
              trace := (SetForwardDataTypeOfGradVar env v s).trace ++
                [Event.GetKernelTypeForVar name i, Event.hasCacheKey name i,
                  Event.TransformData name i, Event.setCacheValue name i]
              tmp_ins_ptr := some (SetSlot (s.tmp_ins_ptr.getD ins) name i s.next) }) ∨
    (∃ t, GetTensorFromVar (s.heap v).var_ = some t ∧ t.initialized = true ∧
      env.NeedTransform (env.GetKernelTypeForVar name t K) K = true ∧
      AssocFind K (s.heap v).var_cache = none ∧
      env.NeedTransformDataType (env.GetKernelTypeForVar name t K) K = false ∧
      PrepareDataSlot env ins K name i v s =
        .ok { heap := (SetForwardDataTypeOfGradVar env v s).heap.set v
                { (SetForwardDataTypeOfGradVar env v s).heap v with
                  var_ := SetTensorToVariable (s.heap v).var_
                    (env.TransformData K (env.GetKernelTypeForVar name t K) t) (s.heap v).var_ }
              next := s.next
              trace := (SetForwardDataTypeOfGradVar env v s).trace ++
                [Event.GetKernelTypeForVar name i, Event.hasCacheKey name i,
                  Event.TransformData name i]
              tmp_ins_ptr := s.tmp_ins_ptr }) := by
  have hn := (SetForwardDataTypeOfGradVar_next env v s).1
  have htmp := (SetForwardDataTypeOfGradVar_next env v s).2
  cases ht : GetTensorFromVar (s.heap v).var_ with
  | none =>
    left
    refine ⟨by simp [NeedsSubstitution, ht], by simp, [], by simp, ?_⟩
    simp [PrepareDataSlot, SetForwardDataTypeOfGradVar_var, ht]
  | some t =>
    cases hi : t.initialized with
    | false =>
      left
      refine ⟨by simp [NeedsSubstitution, ht, hi], by simp [hi], [], by simp, ?_⟩
      simp [PrepareDataSlot, SetForwardDataTypeOfGradVar_var, ht, hi]
    | true =>
      cases hnt : env.NeedTransform (env.GetKernelTypeForVar name t K) K with
      | false =>
        left
        refine ⟨by simp [NeedsSubstitution, ht, hi, hnt], ?_,
          [Event.GetKernelTypeForVar name i], by simp, ?_⟩
        · intro t2 h2 _
          cases h2
          exact hnt
        · simp [PrepareDataSlot, SetForwardDataTypeOfGradVar_var, ht, hi, hnt]
      | true =>
        cases hc : AssocFind K (s.heap v).var_cache with
        | some c =>
          cases htc : GetTensorFromVar (s.heap c).var_ with
          | none =>
            right; left
            refine ⟨t, c, rfl, hi, hnt, rfl, htc, ?_⟩
            simp [PrepareDataSlot, SetForwardDataTypeOfGradVar_var,
              SetForwardDataTypeOfGradVar_cache, ht, hi, hnt, hc, htc]
          | some tc =>
            right; right; left
            refine ⟨t, c, tc, rfl, hi, hnt, rfl, htc, ?_⟩
            simp [PrepareDataSlot, SetForwardDataTypeOfGradVar_var,
              SetForwardDataTypeOfGradVar_cache, SetForwardDataTypeOfGradVar_name,
              SetForwardDataTypeOfGradVar_type, ht, hi, hnt, hc, htc, hn, htmp, TmpVar]
        | none =>
          cases hd : env.NeedTransformDataType (env.GetKernelTypeForVar name t K) K with
          | true =>
            right; right; right; left
            refine ⟨t, rfl, hi, hnt, rfl, hd, ?_⟩
            simp [PrepareDataSlot, SetForwardDataTypeOfGradVar_var,
              SetForwardDataTypeOfGradVar_cache, SetForwardDataTypeOfGradVar_name,
              SetForwardDataTypeOfGradVar_type, ht, hi, hnt, hc, hd, hn, htmp, TmpVar]
          | false =>
            right; right; right; right
            refine ⟨t, rfl, hi, hnt, rfl, hd, ?_⟩
            simp [PrepareDataSlot, SetForwardDataTypeOfGradVar_var,
              SetForwardDataTypeOfGradVar_cache, ht, hi, hnt, hc, hd, hn, htmp]

theorem Agree_refl (h : Heap) (j : VarId) : Agree h h j := ⟨rfl, rfl, rfl, rfl⟩

theorem Agree_trans (h1 h2 h3 : Heap) (j : VarId) (a : Agree h1 h2 j) (b : Agree h2 h3 j) :
    Agree h1 h3 j :=
  ⟨b.1.trans a.1, b.2.1.trans a.2.1, b.2.2.1.trans a.2.2.1, b.2.2.2.trans a.2.2.2⟩

theorem SetForwardDataTypeOfGradVar_agree (env : Env) (v : VarId) (s : Loop) (j : VarId) :
    Agree s.heap (SetForwardDataTypeOfGradVar env v s).heap j :=
  SetForwardDataTypeOfGradVar_heap env v s j

theorem NeedsSubstitution_agree (env : Env) (K : OpKernelType) (name : String) (h h2 : Heap)
    (j : VarId) (a : Agree h h2 j) :
    NeedsSubstitution env K name (h2 j) = NeedsSubstitution env K name (h j) := by
  simp [NeedsSubstitution, a.1, a.2.1]

/-- The next free address never decreases and grows by one exactly when the slot is
substituted. -/
theorem PrepareDataSlot_next (env : Env) (ins : NameVarMap VarId) (K : OpKernelType)
    (name : String) (i : Nat) (v : VarId) (s s2 : Loop)
    (hres : PrepareDataSlot env ins K name i v s = .ok s2) :
    s2.next = (if NeedsSubstitution env K name (s.heap v) then s.next + 1 else s.next) ∧
    s2.tmp_ins_ptr.getD ins =
      (if NeedsSubstitution env K name (s.heap v) then
        SetSlot (s.tmp_ins_ptr.getD ins) name i s.next
      else s.tmp_ins_ptr.getD ins) ∧
    (s2.tmp_ins_ptr = none ↔
      s.tmp_ins_ptr = none ∧ NeedsSubstitution env K name (s.heap v) = false) := by
  have hn := (SetForwardDataTypeOfGradVar_next env v s).1
  have htmp := (SetForwardDataTypeOfGradVar_next env v s).2
  rcases PrepareDataSlot_cases env ins K name i v s with
    ⟨h1, _, ev, _, h3⟩ | ⟨t, c, _, _, _, _, _, h⟩ | ⟨t, c, tc, a1, a2, a3, a4, _, h⟩ |
    ⟨t, a1, a2, a3, a4, a5, h⟩ | ⟨t, a1, a2, a3, a4, a5, h⟩
  · rw [h3] at hres
    injection hres with hres
    subst hres
    simp [h1, hn, htmp]
  · rw [h] at hres
    cases hres
  · rw [h] at hres
    injection hres with hres
    subst hres
    simp [NeedsSubstitution, a1, a2, a3, a4]
  · rw [h] at hres
    injection hres with hres
    subst hres
    simp [NeedsSubstitution, a1, a2, a3, a4, a5]
  · rw [h] at hres
    injection hres with hres
    subst hres
    simp [NeedsSubstitution, a1, a2, a3, a4, a5]

theorem PrepareDataSlot_next_le (env : Env) (ins : NameVarMap VarId) (K : OpKernelType)
    (name : String) (i : Nat) (v : VarId) (s s2 : Loop)
    (hres : PrepareDataSlot env ins K name i v s = .ok s2) : s.next ≤ s2.next := by
  rw [(PrepareDataSlot_next env ins K name i v s s2 hres).1]
  split <;> omega

/-- The loop body changes what `PrepareData` reads only at its own variable and at the
address it allocates. -/
theorem PrepareDataSlot_frame (env : Env) (ins : NameVarMap VarId) (K : OpKernelType)
    (name : String) (i : Nat) (v : VarId) (s s2 : Loop)
    (hres : PrepareDataSlot env ins K name i v s = .ok s2)
    (j : Nat) (hj : j < s.next) (hjv : j ≠ v) : Agree s.heap s2.heap j := by
  have hg := SetForwardDataTypeOfGradVar_agree env v s j
  have hjn : j ≠ s.next := by omega
  rcases PrepareDataSlot_cases env ins K name i v s with
    ⟨_, _, ev, _, h3⟩ | ⟨t, c, _, _, _, _, _, h⟩ | ⟨t, c, tc, _, _, _, _, _, h⟩ |
    ⟨t, _, _, _, _, _, h⟩ | ⟨t, _, _, _, _, _, h⟩
  · rw [h3] at hres
    injection hres with hres
    subst hres
    exact hg
  · rw [h] at hres
    cases hres
  · rw [h] at hres
    injection hres with hres
    subst hres
    simpa [Agree, Heap.set, hjn] using hg
  · rw [h] at hres
    injection hres with hres
    subst hres
    simpa [Agree, Heap.set, hjn, hjv] using hg
  · rw [h] at hres
    injection hres with hres
    subst hres
    simpa [Agree, Heap.set, hjv] using hg

theorem SetTensorToVariable_holds (in_var out_var : Variable) (t tensor : Tensor)
    (h : GetTensorFromVar in_var = some t) :
    GetTensorFromVar (SetTensorToVariable in_var tensor out_var) = some tensor := by
  cases in_var <;> simp_all [GetTensorFromVar, SetTensorToVariable]

/-- A variable that holds a tensor before the loop body holds one after it. -/
theorem PrepareDataSlot_holds (env : Env) (ins : NameVarMap VarId) (K : OpKernelType)
    (name : String) (i : Nat) (v : VarId) (s s2 : Loop)
    (hres : PrepareDataSlot env ins K name i v s = .ok s2)
    (c : Nat) (hc : (GetTensorFromVar (s.heap c).var_).isSome = true) :
    (GetTensorFromVar (s2.heap c).var_).isSome = true := by
  have hg := SetForwardDataTypeOfGradVar_var env v s
  rcases PrepareDataSlot_cases env ins K name i v s with
    ⟨_, _, ev, _, h3⟩ | ⟨t, c2, _, _, _, _, _, h⟩ | ⟨t, c2, tc, _, _, _, _, a5, h⟩ |
    ⟨t, a1, _, _, _, _, h⟩ | ⟨t, a1, _, _, _, _, h⟩
  · rw [h3] at hres
    injection hres with hres
    subst hres
    simpa [hg] using hc
  · rw [h] at hres
    cases hres
  · rw [h] at hres
    injection hres with hres
    subst hres
    by_cases hcn : c = s.next
    · simp [Heap.set, hcn, TmpVar, SetTensorToVariable_holds _ _ _ _ a5]
    · simpa [Heap.set, hcn, hg] using hc
  · rw [h] at hres
    injection hres with hres
    subst hres
    by_cases hcv : c = v
    · by_cases hvn : v = s.next
      · simp [Heap.set, hcv, hvn, TmpVar, SetTensorToVariable_holds _ _ _ _ (hvn ▸ a1)]
      · subst hcv
        simpa [Heap.set, hvn, hg] using hc
    · by_cases hcn : c = s.next
      · have h1 : ¬ s.next = v := fun x => hcv (hcn.trans x)
        have h2 : ¬ v = s.next := fun x => h1 x.symm
        simp [Heap.set, hcn, h1, h2, TmpVar, SetTensorToVariable_holds _ _ _ _ a1]
      · simpa [Heap.set, hcv, hcn, hg] using hc
  · rw [h] at hres
    injection hres with hres
    subst hres
    by_cases hcv : c = v
    · simp [Heap.set, hcv, SetTensorToVariable_holds _ _ _ _ a1]
    · simpa [Heap.set, hcv, hg] using hc

theorem AssocFind_AssocSet {κ α : Type} [DecidableEq κ] (k : κ) (x : α) (m : List (κ × α)) :
    AssocFind k (AssocSet k x m) = some x := by
  induction m with
  | nil => simp [AssocSet, AssocFind]
  | cons e rest ih =>
    obtain ⟨k1, v1⟩ := e
    by_cases h : k1 = k
    · simp [AssocSet, AssocFind, h]
    · simp [AssocSet, AssocFind, h, ih]

/-- Name and type of the variable of the slot are never changed by the loop body. -/
theorem PrepareDataSlot_self (env : Env) (ins : NameVarMap VarId) (K : OpKernelType)
    (name : String) (i : Nat) (v : VarId) (s s2 : Loop)
    (hres : PrepareDataSlot env ins K name i v s = .ok s2) (hv : v < s.next) :
    (s2.heap v).name_ = (s.heap v).name_ ∧ (s2.heap v).type_ = (s.heap v).type_ := by
  have hg := SetForwardDataTypeOfGradVar_agree env v s v
  have hvn : v ≠ s.next := Nat.ne_of_lt hv
  rcases PrepareDataSlot_cases env ins K name i v s with
    ⟨_, _, ev, _, h3⟩ | ⟨t, c2, _, _, _, _, _, h⟩ | ⟨t, c2, tc, _, _, _, _, a5, h⟩ |
    ⟨t, a1, _, _, _, _, h⟩ | ⟨t, a1, _, _, _, _, h⟩
  · rw [h3] at hres
    injection hres with hres
    subst hres
    exact ⟨hg.2.2.1, hg.2.2.2⟩
  · rw [h] at hres
    cases hres
  · rw [h] at hres
    injection hres with hres
    subst hres
    simpa [Heap.set, hvn] using ⟨hg.2.2.1, hg.2.2.2⟩
  · rw [h] at hres
    injection hres with hres
    subst hres
    simpa [Heap.set, hvn] using ⟨hg.2.2.1, hg.2.2.2⟩
  · rw [h] at hres
    injection hres with hres
    subst hres
    simpa [Heap.set] using ⟨hg.2.2.1, hg.2.2.2⟩

/-- The loop body on a slot that needs no transform (no tensor, an uninitialized
tensor, or a kernel type that needs none): the variable is as before, nothing is
substituted and no transform is recorded. -/
theorem PrepareDataSlot_untouched (env : Env) (ins : NameVarMap VarId) (K : OpKernelType)
    (name : String) (i : Nat) (v : VarId) (s s2 : Loop)
    (hres : PrepareDataSlot env ins K name i v s = .ok s2)
    (hcond : ∀ t, GetTensorFromVar (s.heap v).var_ = some t → t.initialized = true →
      env.NeedTransform (env.GetKernelTypeForVar name t K) K = false) :
    Agree s.heap s2.heap v ∧ s2.next = s.next ∧ s2.tmp_ins_ptr = s.tmp_ins_ptr ∧
    ∃ ev, s2.trace = (SetForwardDataTypeOfGradVar env v s).trace ++ ev ∧
      ∀ e ∈ ev, e = Event.GetKernelTypeForVar name i := by
  have hn := (SetForwardDataTypeOfGradVar_next env v s).1
  have htmp := (SetForwardDataTypeOfGradVar_next env v s).2
  have hg := SetForwardDataTypeOfGradVar_agree env v s v
  rcases PrepareDataSlot_cases env ins K name i v s with
    ⟨_, _, ev, hev, h3⟩ | ⟨t, c2, a1, a2, a3, _, _, h⟩ | ⟨t, c2, tc, a1, a2, a3, _, a5, h⟩ |
    ⟨t, a1, a2, a3, _, _, h⟩ | ⟨t, a1, a2, a3, _, _, h⟩
  · rw [h3] at hres
    injection hres with hres
    subst hres
    exact ⟨hg, hn, htmp, ev, rfl, hev⟩
  all_goals
    have := hcond t a1 a2
    rw [this] at a3
    cases a3

/-- The loop body on a cache hit: the variable of the slot is as before, the new
wrapper at the allocated address has its name and type and holds the cached tensor, and
no transform is recorded. -/
theorem PrepareDataSlot_hit (env : Env) (ins : NameVarMap VarId) (K : OpKernelType)
    (name : String) (i : Nat) (v : VarId) (s s2 : Loop)
    (hres : PrepareDataSlot env ins K name i v s = .ok s2) (hv : v < s.next)
    (t : Tensor) (c : VarId) (tc : Tensor)
    (a1 : GetTensorFromVar (s.heap v).var_ = some t) (a2 : t.initialized = true)
    (a3 : env.NeedTransform (env.GetKernelTypeForVar name t K) K = true)
    (a4 : AssocFind K (s.heap v).var_cache = some c)
    (a5 : GetTensorFromVar (s.heap c).var_ = some tc) :
    Agree s.heap s2.heap v ∧
    s2.heap s.next = TmpVar (s.heap v) (SetTensorToVariable (s.heap c).var_ tc .Empty) ∧
    s2.trace = (SetForwardDataTypeOfGradVar env v s).trace ++
      [Event.GetKernelTypeForVar name i, Event.hasCacheKey name i,
        Event.getCacheValue name i] := by
  have hg := SetForwardDataTypeOfGradVar_agree env v s v
  have hvn : v ≠ s.next := Nat.ne_of_lt hv
  rcases PrepareDataSlot_cases env ins K name i v s with
    ⟨_, b, _⟩ | ⟨t2, c2, b1, _, _, b4, b5, h⟩ | ⟨t2, c2, tc2, b1, _, _, b4, b5, h⟩ |
    ⟨t2, b1, _, _, b4, _, h⟩ | ⟨t2, b1, _, _, b4, _, h⟩
  · have := b t a1 a2
    rw [this] at a3
    cases a3
  · rw [a4] at b4
    cases b4
    rw [a5] at b5
    cases b5
  · rw [a4] at b4
    cases b4
    rw [a5] at b5
    cases b5
    rw [h] at hres
    injection hres with hres
    subst hres
    refine ⟨?_, by simp [Heap.set], rfl⟩
    simpa [Agree, Heap.set, hvn] using hg
  · rw [a4] at b4
    cases b4
  · rw [a4] at b4
    cases b4

/-- The loop body on a cache miss with a transform that changes the data type: the
variable of the slot keeps its variable, its cache gets the entry for `K` pointing to
the allocated address, where a new wrapper with its name and type holds the
transformed tensor; one transform is recorded. -/
theorem PrepareDataSlot_cast (env : Env) (ins : NameVarMap VarId) (K : OpKernelType)
    (name : String) (i : Nat) (v : VarId) (s s2 : Loop)
    (hres : PrepareDataSlot env ins K name i v s = .ok s2) (hv : v < s.next)
    (t : Tensor)
    (a1 : GetTensorFromVar (s.heap v).var_ = some t) (a2 : t.initialized = true)
    (a3 : env.NeedTransform (env.GetKernelTypeForVar name t K) K = true)
    (a4 : AssocFind K (s.heap v).var_cache = none)
    (a5 : env.NeedTransformDataType (env.GetKernelTypeForVar name t K) K = true) :
    (s2.heap v).var_ = (s.heap v).var_ ∧
    (s2.heap v).var_cache = AssocSet K s.next (s.heap v).var_cache ∧
    s2.heap s.next = TmpVar (s.heap v) (SetTensorToVariable (s.heap v).var_
      (env.TransformData K (env.GetKernelTypeForVar name t K) t) .Empty) ∧
    s2.trace = (SetForwardDataTypeOfGradVar env v s).trace ++
      [Event.GetKernelTypeForVar name i, Event.hasCacheKey name i,
        Event.TransformData name i, Event.setCacheValue name i] := by
  have hg := SetForwardDataTypeOfGradVar_agree env v s v
  have hvn : v ≠ s.next := Nat.ne_of_lt hv
  have hnv : s.next ≠ v := fun x => hvn x.symm
  rcases PrepareDataSlot_cases env ins K name i v s with
    ⟨_, b, _⟩ | ⟨t2, c2, b1, _, _, b4, b5, h⟩ | ⟨t2, c2, tc2, b1, _, _, b4, b5, h⟩ |
    ⟨t2, b1, _, _, b4, b5, h⟩ | ⟨t2, b1, _, _, b4, b5, h⟩
  · have := b t a1 a2
    rw [this] at a3
    cases a3
  · rw [a4] at b4
    cases b4
  · rw [a4] at b4
    cases b4
  · rw [a1] at b1
    cases b1
    rw [h] at hres
    injection hres with hres
    subst hres
    refine ⟨?_, ?_, ?_, rfl⟩
    · simpa [Heap.set, hvn] using hg.1
    · simp [Heap.set, hvn, hg.2.1]
    · simp [Heap.set, hnv]
  · rw [a1] at b1
    cases b1
    rw [a5] at b5
    cases b5

/-- The loop body on a cache miss with a transform that keeps the data type: the
variable of the slot now holds the transformed tensor, its cache is as before, nothing
is allocated and nothing is substituted. -/
theorem PrepareDataSlot_inplace (env : Env) (ins : NameVarMap VarId) (K : OpKernelType)
    (name : String) (i : Nat) (v : VarId) (s s2 : Loop)
    (hres : PrepareDataSlot env ins K name i v s = .ok s2)
    (t : Tensor)
    (a1 : GetTensorFromVar (s.heap v).var_ = some t) (a2 : t.initialized = true)
    (a3 : env.NeedTransform (env.GetKernelTypeForVar name t K) K = true)
    (a4 : AssocFind K (s.heap v).var_cache = none)
    (a5 : env.NeedTransformDataType (env.GetKernelTypeForVar name t K) K = false) :
    (s2.heap v).var_ = SetTensorToVariable (s.heap v).var_
      (env.TransformData K (env.GetKernelTypeForVar name t K) t) (s.heap v).var_ ∧
    (s2.heap v).var_cache = (s.heap v).var_cache ∧
    s2.next = s.next ∧ s2.tmp_ins_ptr = s.tmp_ins_ptr ∧
    s2.trace = (SetForwardDataTypeOfGradVar env v s).trace ++
      [Event.GetKernelTypeForVar name i, Event.hasCacheKey name i,
        Event.TransformData name i] := by
  have hg := SetForwardDataTypeOfGradVar_agree env v s v
  rcases PrepareDataSlot_cases env ins K name i v s with
    ⟨_, b, _⟩ | ⟨t2, c2, b1, _, _, b4, b5, h⟩ | ⟨t2, c2, tc2, b1, _, _, b4, b5, h⟩ |
    ⟨t2, b1, _, _, b4, b5, h⟩ | ⟨t2, b1, _, _, b4, b5, h⟩
  · have := b t a1 a2
    rw [this] at a3
    cases a3
  · rw [a4] at b4
    cases b4
  · rw [a4] at b4
    cases b4
  · rw [a1] at b1
    cases b1
    rw [a5] at b5
    cases b5
  · rw [a1] at b1
    cases b1
    rw [h] at hres
    injection hres with hres
    subst hres
    exact ⟨by simp [Heap.set], by simp [Heap.set, hg.2.1], rfl, rfl, rfl⟩

/-- The loop body returns when the cached wrapper of its variable holds a tensor. -/
theorem PrepareDataSlot_ok (env : Env) (ins : NameVarMap VarId) (K : OpKernelType)
    (name : String) (i : Nat) (v : VarId) (s : Loop)
    (hc : CacheTargetHoldsTensor s.heap K v = true) :
    ∃ s2, PrepareDataSlot env ins K name i v s = .ok s2 := by
  rcases PrepareDataSlot_cases env ins K name i v s with
    ⟨_, _, ev, _, h⟩ | ⟨t, c, _, _, _, b4, b5, h⟩ | ⟨t, c, tc, _, _, _, _, _, h⟩ |
    ⟨t, _, _, _, _, _, h⟩ | ⟨t, _, _, _, _, _, h⟩
  · exact ⟨_, h⟩
  · simp [CacheTargetHoldsTensor, b4, b5] at hc
  · exact ⟨_, h⟩
  · exact ⟨_, h⟩
  · exact ⟨_, h⟩

/-- The loop body keeps every cached wrapper of an allocated variable holding a
tensor. -/
theorem PrepareDataSlot_sound (env : Env) (ins : NameVarMap VarId) (K : OpKernelType)
    (name : String) (i : Nat) (v : VarId) (s s2 : Loop)
    (hres : PrepareDataSlot env ins K name i v s = .ok s2) (hv : v < s.next)
    (j : Nat) (hj : j < s.next) (hc : CacheTargetHoldsTensor s.heap K j = true) :
    CacheTargetHoldsTensor s2.heap K j = true := by
  have hholds := PrepareDataSlot_holds env ins K name i v s s2 hres
  have same : (s2.heap j).var_cache = (s.heap j).var_cache →
      CacheTargetHoldsTensor s2.heap K j = true := by
    intro hsame
    unfold CacheTargetHoldsTensor at hc ⊢
    rw [hsame]
    cases hf : AssocFind K (s.heap j).var_cache with
    | none => rfl
    | some c =>
      rw [hf] at hc
      exact hholds c hc
  by_cases hjv : j = v
  · subst hjv
    cases ht : GetTensorFromVar (s.heap j).var_ with
    | none =>
      exact same (PrepareDataSlot_untouched env ins K name i j s s2 hres
        (by intro t h; rw [ht] at h; cases h)).1.2.1
    | some t =>
      cases hi : t.initialized with
      | false =>
        exact same (PrepareDataSlot_untouched env ins K name i j s s2 hres
          (by intro t2 h h2; rw [ht] at h; cases h; rw [hi] at h2; cases h2)).1.2.1
      | true =>
        cases hnt : env.NeedTransform (env.GetKernelTypeForVar name t K) K with
        | false =>
          exact same (PrepareDataSlot_untouched env ins K name i j s s2 hres
            (by intro t2 h _; rw [ht] at h; cases h; exact hnt)).1.2.1
        | true =>
          cases hf : AssocFind K (s.heap j).var_cache with
          | some c =>
            cases htc : GetTensorFromVar (s.heap c).var_ with
            | none => simp [CacheTargetHoldsTensor, hf, htc] at hc
            | some tc =>
              exact same (PrepareDataSlot_hit env ins K name i j s s2 hres hv t c tc ht hi hnt
                hf htc).1.2.1
          | none =>
            cases hd : env.NeedTransformDataType (env.GetKernelTypeForVar name t K) K with
            | false =>
              exact same (PrepareDataSlot_inplace env ins K name i j s s2 hres t ht hi hnt hf
                hd).2.1
            | true =>
              obtain ⟨_, k2, k3, _⟩ := PrepareDataSlot_cast env ins K name i j s s2 hres hv t ht
                hi hnt hf hd
              unfold CacheTargetHoldsTensor
              rw [k2, AssocFind_AssocSet]
              simp only []
              rw [k3]
              simp [TmpVar, SetTensorToVariable_holds _ _ _ _ ht]
  · exact same (PrepareDataSlot_frame env ins K name i v s s2 hres j hj hjv).2.1

/-- The calls the loop body records: those of the forward data type propagation, then
calls for its own slot; a transform is recorded only for its own slot. -/
theorem PrepareDataSlot_trace (env : Env) (ins : NameVarMap VarId) (K : OpKernelType)
    (name : String) (i : Nat) (v : VarId) (s s2 : Loop)
    (hres : PrepareDataSlot env ins K name i v s = .ok s2) :
    ∃ ev, s2.trace = s.trace ++ ev ∧
      ∀ n2 i2, Event.TransformData n2 i2 ∈ ev → n2 = name ∧ i2 = i := by
  obtain ⟨ev0, hev0, hev1⟩ := SetForwardDataTypeOfGradVar_trace env v s
  have hno : ∀ n2 i2, Event.TransformData n2 i2 ∉ ev0 := by
    intro n2 i2 hmem
    obtain ⟨g, d, h⟩ := hev1 _ hmem
    cases h
  rcases PrepareDataSlot_cases env ins K name i v s with
    ⟨_, _, ev, hev, h⟩ | ⟨t, c, _, _, _, b4, b5, h⟩ | ⟨t, c, tc, _, _, _, _, _, h⟩ |
    ⟨t, _, _, _, _, _, h⟩ | ⟨t, _, _, _, _, _, h⟩
  · rw [h] at hres
    injection hres with hres
    subst hres
    refine ⟨ev0 ++ ev, by simp [hev0], ?_⟩
    intro n2 i2 hmem
    rcases List.mem_append.1 hmem with h1 | h1
    · exact absurd h1 (hno n2 i2)
    · have := hev _ h1
      cases this
  · rw [h] at hres
    cases hres
  · rw [h] at hres
    injection hres with hres
    subst hres
    refine ⟨ev0 ++ [Event.GetKernelTypeForVar name i, Event.hasCacheKey name i,
      Event.getCacheValue name i],
      by simp only [hev0, List.append_assoc], ?_⟩
    intro n2 i2 hmem
    rcases List.mem_append.1 hmem with h1 | h1
    · exact absurd h1 (hno n2 i2)
    · simp at h1
  · rw [h] at hres
    injection hres with hres
    subst hres
    refine ⟨ev0 ++ [Event.GetKernelTypeForVar name i, Event.hasCacheKey name i,
      Event.TransformData name i, Event.setCacheValue name i],
      by simp only [hev0, List.append_assoc], ?_⟩
    intro n2 i2 hmem
    rcases List.mem_append.1 hmem with h1 | h1
    · exact absurd h1 (hno n2 i2)
    · simpa using h1
  · rw [h] at hres
    injection hres with hres
    subst hres
    refine ⟨ev0 ++ [Event.GetKernelTypeForVar name i, Event.hasCacheKey name i,
      Event.TransformData name i],
      by simp only [hev0, List.append_assoc], ?_⟩
    intro n2 i2 hmem
    rcases List.mem_append.1 hmem with h1 | h1
    · exact absurd h1 (hno n2 i2)
    · simpa using h1

/-! ### PrepareData: the loops -/

theorem PrepareDataSlots_append (env : Env) (ins : NameVarMap VarId) (K : OpKernelType)
    (a b : List (String × Nat × VarId)) (s : Loop) :
    PrepareDataSlots env ins K (a ++ b) s =
      (match PrepareDataSlots env ins K a s with
        | .ok s1 => PrepareDataSlots env ins K b s1
        | .error e => .error e) := by
  induction a generalizing s with
  | nil => simp [PrepareDataSlots]
  | cons sl rest ih =>
    obtain ⟨name, i, v⟩ := sl
    simp only [List.cons_append, PrepareDataSlots]
    cases PrepareDataSlot env ins K name i v s with
    | ok s1 => exact ih s1
    | error e => rfl

theorem PrepareDataGroup_eq (env : Env) (ins : NameVarMap VarId) (K : OpKernelType)
    (name : String) (i : Nat) (g : List VarId) (s : Loop) :
    PrepareDataGroup env ins K name i g s =
      PrepareDataSlots env ins K (GroupSlots name i g) s := by
  induction g generalizing i s with
  | nil => simp [PrepareDataGroup, GroupSlots, PrepareDataSlots]
  | cons v rest ih =>
    simp only [PrepareDataGroup, GroupSlots, PrepareDataSlots]
    cases PrepareDataSlot env ins K name i v s with
    | ok s1 => exact ih (i + 1) s1
    | error e => rfl

/-- The nested loops of `PrepareData` run the loop body over the slots of the map in
order. -/
theorem PrepareDataMap_eq (env : Env) (ins : NameVarMap VarId) (K : OpKernelType)
    (m : NameVarMap VarId) (s : Loop) :
    PrepareDataMap env ins K m s = PrepareDataSlots env ins K (MapSlots m) s := by
  induction m generalizing s with
  | nil => simp [PrepareDataMap, MapSlots, PrepareDataSlots]
  | cons e rest ih =>
    obtain ⟨name, g⟩ := e
    simp only [PrepareDataMap, MapSlots, PrepareDataSlots_append, PrepareDataGroup_eq]
    cases PrepareDataSlots env ins K (GroupSlots name 0 g) s with
    | ok s1 => exact ih s1
    | error e => rfl

theorem PrepareDataSlots_next_le (env : Env) (ins : NameVarMap VarId) (K : OpKernelType)
    (l : List (String × Nat × VarId)) (s s2 : Loop)
    (hres : PrepareDataSlots env ins K l s = .ok s2) : s.next ≤ s2.next := by
  induction l generalizing s with
  | nil =>
    simp only [PrepareDataSlots] at hres
    injection hres with hres
    subst hres
    exact Nat.le_refl _
  | cons sl rest ih =>
    obtain ⟨name, i, v⟩ := sl
    simp only [PrepareDataSlots] at hres
    cases h1 : PrepareDataSlot env ins K name i v s with
    | error e => rw [h1] at hres; cases hres
    | ok s1 =>
      rw [h1] at hres
      exact Nat.le_trans (PrepareDataSlot_next_le env ins K name i v s s1 h1) (ih s1 hres)

/-- The loops change what `PrepareData` reads only at the variables of the visited
slots and at the addresses they allocate. -/
theorem PrepareDataSlots_frame (env : Env) (ins : NameVarMap VarId) (K : OpKernelType)
    (l : List (String × Nat × VarId)) (s s2 : Loop)
    (hres : PrepareDataSlots env ins K l s = .ok s2)
    (j : Nat) (hj : j < s.next) (hjl : j ∉ SlotVars l) : Agree s.heap s2.heap j := by
  induction l generalizing s with
  | nil =>
    simp only [PrepareDataSlots] at hres
    injection hres with hres
    subst hres
    exact Agree_refl _ _
  | cons sl rest ih =>
    obtain ⟨name, i, v⟩ := sl
    simp only [PrepareDataSlots] at hres
    simp only [SlotVars, List.map_cons, List.mem_cons, not_or] at hjl
    cases h1 : PrepareDataSlot env ins K name i v s with
    | error e => rw [h1] at hres; cases hres
    | ok s1 =>
      rw [h1] at hres
      have hle := PrepareDataSlot_next_le env ins K name i v s s1 h1
      exact Agree_trans _ _ _ _ (PrepareDataSlot_frame env ins K name i v s s1 h1 j hj hjl.1)
        (ih s1 hres (Nat.lt_of_lt_of_le hj hle) hjl.2)

theorem PrepareDataSlots_holds (env : Env) (ins : NameVarMap VarId) (K : OpKernelType)
    (l : List (String × Nat × VarId)) (s s2 : Loop)
    (hres : PrepareDataSlots env ins K l s = .ok s2)
    (c : Nat) (hc : (GetTensorFromVar (s.heap c).var_).isSome = true) :
    (GetTensorFromVar (s2.heap c).var_).isSome = true := by
  induction l generalizing s with
  | nil =>
    simp only [PrepareDataSlots] at hres
    injection hres with hres
    subst hres
    exact hc
  | cons sl rest ih =>
    obtain ⟨name, i, v⟩ := sl
    simp only [PrepareDataSlots] at hres
    cases h1 : PrepareDataSlot env ins K name i v s with
    | error e => rw [h1] at hres; cases hres
    | ok s1 =>
      rw [h1] at hres
      exact ih s1 hres (PrepareDataSlot_holds env ins K name i v s s1 h1 c hc)

/-- The loops keep every cached wrapper of an allocated variable holding a tensor. -/
theorem PrepareDataSlots_sound (env : Env) (ins : NameVarMap VarId) (K : OpKernelType)
    (l : List (String × Nat × VarId)) (s s2 : Loop)
    (hres : PrepareDataSlots env ins K l s = .ok s2)
    (hvars : ∀ v ∈ SlotVars l, v < s.next)
    (j : Nat) (hj : j < s.next) (hc : CacheTargetHoldsTensor s.heap K j = true) :
    CacheTargetHoldsTensor s2.heap K j = true := by
  induction l generalizing s with
  | nil =>
    simp only [PrepareDataSlots] at hres
    injection hres with hres
    subst hres
    exact hc
  | cons sl rest ih =>
    obtain ⟨name, i, v⟩ := sl
    simp only [PrepareDataSlots] at hres
    cases h1 : PrepareDataSlot env ins K name i v s with
    | error e => rw [h1] at hres; cases hres
    | ok s1 =>
      rw [h1] at hres
      have hle := PrepareDataSlot_next_le env ins K name i v s s1 h1
      have hv : v < s.next := hvars v (by simp [SlotVars])
      exact ih s1 hres
        (fun w hw => Nat.lt_of_lt_of_le (hvars w (by simp [SlotVars] at hw ⊢; exact Or.inr hw)) hle)
        (Nat.lt_of_lt_of_le hj hle)
        (PrepareDataSlot_sound env ins K name i v s s1 h1 hv j hj hc)

/-- The loops return when the slots hold allocated variables whose cached wrappers
hold tensors. -/
theorem PrepareDataSlots_ok (env : Env) (ins : NameVarMap VarId) (K : OpKernelType)
    (l : List (String × Nat × VarId)) (s : Loop)
    (hvars : ∀ v ∈ SlotVars l, v < s.next)
    (hc : ∀ v ∈ SlotVars l, CacheTargetHoldsTensor s.heap K v = true) :
    ∃ s2, PrepareDataSlots env ins K l s = .ok s2 := by
  induction l generalizing s with
  | nil => exact ⟨s, rfl⟩
  | cons sl rest ih =>
    obtain ⟨name, i, v⟩ := sl
    have hv : v < s.next := hvars v (by simp [SlotVars])
    obtain ⟨s1, h1⟩ := PrepareDataSlot_ok env ins K name i v s (hc v (by simp [SlotVars]))
    have hle := PrepareDataSlot_next_le env ins K name i v s s1 h1
    have hrest : ∀ w ∈ SlotVars rest, w < s.next := fun w hw =>
      hvars w (by simp [SlotVars] at hw ⊢; exact Or.inr hw)
    obtain ⟨s2, h2⟩ := ih s1 (fun w hw => Nat.lt_of_lt_of_le (hrest w hw) hle)
      (fun w hw => PrepareDataSlot_sound env ins K name i v s s1 h1 hv w (hrest w hw)
        (hc w (by simp [SlotVars] at hw ⊢; exact Or.inr hw)))
    exact ⟨s2, by simp only [PrepareDataSlots, h1, h2]⟩

/-- A transform is recorded only for a visited slot. -/
theorem PrepareDataSlots_trace (env : Env) (ins : NameVarMap VarId) (K : OpKernelType)
    (l : List (String × Nat × VarId)) (s s2 : Loop)
    (hres : PrepareDataSlots env ins K l s = .ok s2) :
    ∃ ev, s2.trace = s.trace ++ ev ∧
      ∀ n2 i2, Event.TransformData n2 i2 ∈ ev → (n2, i2) ∈ SlotPositions l := by
  induction l generalizing s with
  | nil =>
    simp only [PrepareDataSlots] at hres
    injection hres with hres
    subst hres
    exact ⟨[], by simp⟩
  | cons sl rest ih =>
    obtain ⟨name, i, v⟩ := sl
    simp only [PrepareDataSlots] at hres
    cases h1 : PrepareDataSlot env ins K name i v s with
    | error e => rw [h1] at hres; cases hres
    | ok s1 =>
      rw [h1] at hres
      obtain ⟨ev1, e1, e2⟩ := PrepareDataSlot_trace env ins K name i v s s1 h1
      obtain ⟨ev2, f1, f2⟩ := ih s1 hres
      refine ⟨ev1 ++ ev2, by rw [f1, e1, List.append_assoc], ?_⟩
      intro n2 i2 hmem
      rcases List.mem_append.1 hmem with h | h
      · obtain ⟨q1, q2⟩ := e2 n2 i2 h
        subst q1 q2
        simp [SlotPositions]
      · have := f2 n2 i2 h
        simp only [SlotPositions, List.map_cons, List.mem_cons]
        exact Or.inr this

/-! ### The shadow map -/

theorem Shape_SetSlot (m : NameVarMap VarId) (name : String) (i : Nat) (v : VarId) :
    Shape (SetSlot m name i v) = Shape m := by
  induction m with
  | nil => rfl
  | cons e rest ih =>
    obtain ⟨n, g⟩ := e
    by_cases h : n = name
    · simp [SetSlot, Shape, h]
    · simp only [Shape] at ih
      simp [SetSlot, Shape, h, ih]

theorem GetSlot_SetSlot (m : NameVarMap VarId) (name : String) (i : Nat) (v : VarId)
    (n2 : String) (i2 : Nat) :
    GetSlot (SetSlot m name i v) n2 i2 =
      (if n2 = name ∧ i2 = i then (GetSlot m name i).map (fun _ => v) else GetSlot m n2 i2) := by
  induction m with
  | nil => simp [SetSlot, GetSlot, AssocFind]
  | cons e rest ih =>
    obtain ⟨n, g⟩ := e
    by_cases h : n = name
    · subst h
      by_cases h2 : n = n2
      · subst h2
        by_cases h3 : i2 = i
        · subst h3
          simp [SetSlot, GetSlot, AssocFind, List.getElem?_set]
          by_cases h4 : i2 < g.length
          · simp [h4]
          · simp [h4]
            have : g.length ≤ i2 := by omega
            simp [List.getElem?_eq_none this]
        · have h3b : ¬ i = i2 := fun x => h3 x.symm
          simp [SetSlot, GetSlot, AssocFind, List.getElem?_set, h3, h3b]
      · have h2b : ¬ n2 = n := fun x => h2 x.symm
        simp [SetSlot, GetSlot, AssocFind, h2, h2b]
    · by_cases h2 : n = n2
      · subst h2
        simp [SetSlot, GetSlot, AssocFind, h]
      · simp only [GetSlot] at ih
        simp [SetSlot, GetSlot, AssocFind, h, h2, ih]

/-- The shadow map of the loops is null exactly when it was null before and no visited
slot is substituted; slots hold distinct allocated variables. -/
theorem PrepareDataSlots_tmp_none (env : Env) (ins : NameVarMap VarId) (K : OpKernelType)
    (l : List (String × Nat × VarId)) (s s2 : Loop)
    (hres : PrepareDataSlots env ins K l s = .ok s2)
    (hnodup : (SlotVars l).Nodup) (hvars : ∀ v ∈ SlotVars l, v < s.next) :
    (s2.tmp_ins_ptr = none ↔
      s.tmp_ins_ptr = none ∧
        ∀ sl ∈ l, NeedsSubstitution env K sl.1 (s.heap sl.2.2) = false) := by
  induction l generalizing s with
  | nil =>
    simp only [PrepareDataSlots] at hres
    injection hres with hres
    subst hres
    simp
  | cons sl rest ih =>
    obtain ⟨name, i, v⟩ := sl
    simp only [PrepareDataSlots] at hres
    simp only [SlotVars, List.map_cons, List.nodup_cons] at hnodup
    cases h1 : PrepareDataSlot env ins K name i v s with
    | error e => rw [h1] at hres; cases hres
    | ok s1 =>
      rw [h1] at hres
      have hle := PrepareDataSlot_next_le env ins K name i v s s1 h1
      have hrest : ∀ w ∈ SlotVars rest, w < s.next := fun w hw =>
        hvars w (by simp [SlotVars] at hw ⊢; exact Or.inr hw)
      have hstep := (PrepareDataSlot_next env ins K name i v s s1 h1).2.2
      rw [ih s1 hres hnodup.2 (fun w hw => Nat.lt_of_lt_of_le (hrest w hw) hle), hstep]
      have hagree : ∀ sl ∈ rest, NeedsSubstitution env K sl.1 (s1.heap sl.2.2) =
          NeedsSubstitution env K sl.1 (s.heap sl.2.2) := by
        intro sl hsl
        have hmem : sl.2.2 ∈ SlotVars rest := List.mem_map.2 ⟨sl, hsl, rfl⟩
        have hne : sl.2.2 ≠ v := fun x => hnodup.1 (x ▸ hmem)
        exact NeedsSubstitution_agree env K sl.1 s.heap s1.heap sl.2.2
          (PrepareDataSlot_frame env ins K name i v s s1 h1 sl.2.2 (hrest _ hmem) hne)
      constructor
      · rintro ⟨⟨a, b⟩, c⟩
        refine ⟨a, ?_⟩
        intro sl hsl
        rcases List.mem_cons.1 hsl with h | h
        · subst h
          exact b
        · rw [← hagree sl h]
          exact c sl h
      · rintro ⟨a, b⟩
        refine ⟨⟨a, b (name, i, v) (by simp)⟩, ?_⟩
        intro sl hsl
        rw [hagree sl hsl]
        exact b sl (List.mem_cons_of_mem _ hsl)

/-- The current map of the loops (the shadow map, or `ins` while it is null) keeps its
keys and group lengths. -/
theorem PrepareDataSlots_shape (env : Env) (ins : NameVarMap VarId) (K : OpKernelType)
    (l : List (String × Nat × VarId)) (s s2 : Loop)
    (hres : PrepareDataSlots env ins K l s = .ok s2) :
    Shape (s2.tmp_ins_ptr.getD ins) = Shape (s.tmp_ins_ptr.getD ins) := by
  induction l generalizing s with
  | nil =>
    simp only [PrepareDataSlots] at hres
    injection hres with hres
    subst hres
    rfl
  | cons sl rest ih =>
    obtain ⟨name, i, v⟩ := sl
    simp only [PrepareDataSlots] at hres
    cases h1 : PrepareDataSlot env ins K name i v s with
    | error e => rw [h1] at hres; cases hres
    | ok s1 =>
      rw [h1] at hres
      rw [ih s1 hres, (PrepareDataSlot_next env ins K name i v s s1 h1).2.1]
      split
      · exact Shape_SetSlot _ _ _ _
      · rfl

/-- The current map of the loops changes only at the positions of visited slots. -/
theorem PrepareDataSlots_slot_frame (env : Env) (ins : NameVarMap VarId) (K : OpKernelType)
    (l : List (String × Nat × VarId)) (s s2 : Loop)
    (hres : PrepareDataSlots env ins K l s = .ok s2)
    (n2 : String) (i2 : Nat) (hpos : (n2, i2) ∉ SlotPositions l) :
    GetSlot (s2.tmp_ins_ptr.getD ins) n2 i2 = GetSlot (s.tmp_ins_ptr.getD ins) n2 i2 := by
  induction l generalizing s with
  | nil =>
    simp only [PrepareDataSlots] at hres
    injection hres with hres
    subst hres
    rfl
  | cons sl rest ih =>
    obtain ⟨name, i, v⟩ := sl
    simp only [PrepareDataSlots] at hres
    simp only [SlotPositions, List.map_cons, List.mem_cons, not_or, Prod.mk.injEq] at hpos
    cases h1 : PrepareDataSlot env ins K name i v s with
    | error e => rw [h1] at hres; cases hres
    | ok s1 =>
      rw [h1] at hres
      rw [ih s1 hres hpos.2, (PrepareDataSlot_next env ins K name i v s s1 h1).2.1]
      split
      · rw [GetSlot_SetSlot]
        simp [hpos.1]
      · rfl

/-! ### The slots of a map -/

theorem mem_GroupSlots (name : String) (i : Nat) (g : List VarId) (n : String) (k : Nat)
    (v : VarId) :
    (n, k, v) ∈ GroupSlots name i g ↔ n = name ∧ i ≤ k ∧ g[k - i]? = some v := by
  induction g generalizing i with
  | nil => simp [GroupSlots]
  | cons w rest ih =>
    simp only [GroupSlots, List.mem_cons, Prod.mk.injEq, ih]
    constructor
    · rintro (⟨a, b, c⟩ | ⟨a, b, c⟩)
      · subst a b c
        simp
      · refine ⟨a, by omega, ?_⟩
        have : k - i = (k - (i + 1)) + 1 := by omega
        rw [this, List.getElem?_cons_succ]
        exact c
    · rintro ⟨a, b, c⟩
      by_cases hk : k = i
      · left
        subst hk
        simp at c
        exact ⟨a, rfl, c.symm⟩
      · right
        refine ⟨a, by omega, ?_⟩
        have : k - i = (k - (i + 1)) + 1 := by omega
        rw [this, List.getElem?_cons_succ] at c
        exact c

theorem SlotVars_GroupSlots (name : String) (i : Nat) (g : List VarId) :
    SlotVars (GroupSlots name i g) = g := by
  induction g generalizing i with
  | nil => rfl
  | cons w rest ih =>
    simp only [SlotVars] at ih
    simp [GroupSlots, SlotVars, ih]

theorem SlotVars_append (a b : List (String × Nat × VarId)) :
    SlotVars (a ++ b) = SlotVars a ++ SlotVars b := by
  simp [SlotVars]

theorem SlotPositions_append (a b : List (String × Nat × VarId)) :
    SlotPositions (a ++ b) = SlotPositions a ++ SlotPositions b := by
  simp [SlotPositions]

theorem SlotVars_MapSlots (m : NameVarMap VarId) : SlotVars (MapSlots m) = MapVars m := by
  induction m with
  | nil => rfl
  | cons e rest ih =>
    obtain ⟨name, g⟩ := e
    simp only [MapVars] at ih
    simp [MapSlots, SlotVars_append, SlotVars_GroupSlots, MapVars, Concat, ih]

theorem mem_MapSlots_key (m : NameVarMap VarId) (n : String) (k : Nat) (v : VarId)
    (h : (n, k, v) ∈ MapSlots m) : n ∈ AssocKeys m := by
  induction m with
  | nil => simp [MapSlots] at h
  | cons e rest ih =>
    obtain ⟨name, g⟩ := e
    simp only [MapSlots, List.mem_append] at h
    rcases h with h | h
    · have := (mem_GroupSlots name 0 g n k v).1 h
      simp [AssocKeys, this.1]
    · have := ih h
      simp only [AssocKeys] at this ⊢
      simp [this]

/-- A slot read through `GetSlot` is one of the visited slots. -/
theorem mem_MapSlots_of_GetSlot (m : NameVarMap VarId) (n : String) (k : Nat) (v : VarId)
    (h : GetSlot m n k = some v) : (n, k, v) ∈ MapSlots m := by
  induction m with
  | nil => simp [GetSlot, AssocFind] at h
  | cons e rest ih =>
    obtain ⟨name, g⟩ := e
    simp only [MapSlots, List.mem_append]
    by_cases hn : name = n
    · left
      simp only [GetSlot, AssocFind, hn, if_true] at h
      exact (mem_GroupSlots name 0 g n k v).2 ⟨hn.symm, Nat.zero_le _, by simpa using h⟩
    · right
      apply ih
      simpa [GetSlot, AssocFind, hn] using h

/-- In a map with distinct keys every visited slot is the one `GetSlot` reads at its
position. -/
theorem GetSlot_of_mem_MapSlots (m : NameVarMap VarId) (hkeys : (AssocKeys m).Nodup)
    (n : String) (k : Nat) (v : VarId) (h : (n, k, v) ∈ MapSlots m) :
    GetSlot m n k = some v := by
  induction m with
  | nil => simp [MapSlots] at h
  | cons e rest ih =>
    obtain ⟨name, g⟩ := e
    simp only [AssocKeys, List.map_cons, List.nodup_cons] at hkeys
    simp only [MapSlots, List.mem_append] at h
    rcases h with h | h
    · obtain ⟨a, _, c⟩ := (mem_GroupSlots name 0 g n k v).1 h
      subst a
      simpa [GetSlot, AssocFind] using c
    · have hk := mem_MapSlots_key rest n k v h
      have hne : name ≠ n := fun x => hkeys.1 (x ▸ hk)
      have := ih hkeys.2 h
      simpa [GetSlot, AssocFind, hne] using this

theorem SlotPositions_GroupSlots_nodup (name : String) (i : Nat) (g : List VarId) :
    (SlotPositions (GroupSlots name i g)).Nodup := by
  induction g generalizing i with
  | nil => simp [GroupSlots, SlotPositions]
  | cons w rest ih =>
    simp only [GroupSlots, SlotPositions, List.map_cons, List.nodup_cons]
    refine ⟨?_, ih (i + 1)⟩
    intro hmem
    obtain ⟨sl, hsl, heq⟩ := List.mem_map.1 hmem
    obtain ⟨n, k, v⟩ := sl
    have := (mem_GroupSlots name (i + 1) rest n k v).1 hsl
    simp only [Prod.mk.injEq] at heq
    omega

/-- In a map with distinct keys the visited slots have distinct positions. -/
theorem SlotPositions_MapSlots_nodup (m : NameVarMap VarId) (hkeys : (AssocKeys m).Nodup) :
    (SlotPositions (MapSlots m)).Nodup := by
  induction m with
  | nil => simp [MapSlots, SlotPositions]
  | cons e rest ih =>
    obtain ⟨name, g⟩ := e
    simp only [AssocKeys, List.map_cons, List.nodup_cons] at hkeys
    simp only [MapSlots, SlotPositions_append]
    refine List.Nodup.append (SlotPositions_GroupSlots_nodup name 0 g) (ih hkeys.2) ?_
    intro p hp1 hp2
    obtain ⟨sl1, h1, e1⟩ := List.mem_map.1 hp1
    obtain ⟨sl2, h2, e2⟩ := List.mem_map.1 hp2
    obtain ⟨n1, k1, v1⟩ := sl1
    obtain ⟨n2, k2, v2⟩ := sl2
    have a := (mem_GroupSlots name 0 g n1 k1 v1).1 h1
    have b := mem_MapSlots_key rest n2 k2 v2 h2
    simp only at e1 e2
    rw [← e2] at e1
    simp only [Prod.mk.injEq] at e1
    apply hkeys.1
    rw [← a.1, e1.1]
    exact b

theorem PrepareDataSlots_tmp_mono (env : Env) (ins : NameVarMap VarId) (K : OpKernelType)
    (l : List (String × Nat × VarId)) (s s2 : Loop)
    (hres : PrepareDataSlots env ins K l s = .ok s2) (h : s2.tmp_ins_ptr = none) :
    s.tmp_ins_ptr = none := by
  induction l generalizing s with
  | nil =>
    simp only [PrepareDataSlots] at hres
    injection hres with hres
    subst hres
    exact h
  | cons sl rest ih =>
    obtain ⟨name, i, v⟩ := sl
    simp only [PrepareDataSlots] at hres
    cases h1 : PrepareDataSlot env ins K name i v s with
    | error e => rw [h1] at hres; cases hres
    | ok s1 =>
      rw [h1] at hres
      exact ((PrepareDataSlot_next env ins K name i v s s1 h1).2.2.1 (ih s1 hres)).1

/-- The run of the loops seen from one of its slots: the state `sa` in which the slot
is visited agrees with the start state on the variable of the slot and on every
variable outside the slots, the state `sb` the loop body leaves agrees with the final
state on them and on what the body allocated, the position of the slot in the current
map is touched by this visit only, and the other visits record no transform for it. -/
theorem PrepareDataSlots_at (env : Env) (ins : NameVarMap VarId) (K : OpKernelType)
    (l : List (String × Nat × VarId)) (s s2 : Loop)
    (hres : PrepareDataSlots env ins K l s = .ok s2)
    (hnodup : (SlotVars l).Nodup) (hpos : (SlotPositions l).Nodup)
    (hvars : ∀ v ∈ SlotVars l, v < s.next)
    (name : String) (i : Nat) (v : VarId) (hmem : (name, i, v) ∈ l) :
    ∃ sa sb,
      PrepareDataSlot env ins K name i v sa = .ok sb ∧
      s.next ≤ sa.next ∧ sb.next ≤ s2.next ∧
      (∀ c : Nat, c < s.next → (c = v ∨ c ∉ SlotVars l) → Agree s.heap sa.heap c) ∧
      (∀ j : Nat, j < sb.next → (j = v ∨ j ∉ SlotVars l) → Agree sb.heap s2.heap j) ∧
      GetSlot (sa.tmp_ins_ptr.getD ins) name i = GetSlot (s.tmp_ins_ptr.getD ins) name i ∧
      GetSlot (s2.tmp_ins_ptr.getD ins) name i = GetSlot (sb.tmp_ins_ptr.getD ins) name i ∧
      (s2.tmp_ins_ptr = none → sb.tmp_ins_ptr = none) ∧
      ∃ e1 e3, sa.trace = s.trace ++ e1 ∧ s2.trace = sb.trace ++ e3 ∧
        Event.TransformData name i ∉ e1 ∧ Event.TransformData name i ∉ e3 := by
  obtain ⟨pre, post, hl⟩ := List.append_of_mem hmem
  subst hl
  rw [PrepareDataSlots_append] at hres
  rw [SlotVars_append] at hnodup hvars
  rw [SlotPositions_append] at hpos
  simp only [SlotVars, SlotPositions, List.map_cons] at hnodup hpos hvars
  have hn1 := List.nodup_middle.1 hnodup
  have hp1 := List.nodup_middle.1 hpos
  rw [List.nodup_cons, List.mem_append, not_or] at hn1 hp1
  cases h1 : PrepareDataSlots env ins K pre s with
  | error e => rw [h1] at hres; cases hres
  | ok sa =>
    rw [h1] at hres
    simp only [PrepareDataSlots] at hres
    cases h2 : PrepareDataSlot env ins K name i v sa with
    | error e => rw [h2] at hres; cases hres
    | ok sb =>
      rw [h2] at hres
      simp only at hres
      have le1 := PrepareDataSlots_next_le env ins K pre s sa h1
      have le2 := PrepareDataSlot_next_le env ins K name i v sa sb h2
      have le3 := PrepareDataSlots_next_le env ins K post sb s2 hres
      have hv : v < s.next := hvars v (by simp)
      have memvars : ∀ c, c ∉ SlotVars (pre ++ (name, i, v) :: post) →
          c ∉ SlotVars pre ∧ c ∉ SlotVars post := by
        intro c hc
        simp only [SlotVars, List.map_append, List.map_cons, List.mem_append, List.mem_cons,
          not_or] at hc
        exact ⟨hc.1, hc.2.2⟩
      obtain ⟨e1, t1, t2⟩ := PrepareDataSlots_trace env ins K pre s sa h1
      obtain ⟨e3, t3, t4⟩ := PrepareDataSlots_trace env ins K post sb s2 hres
      refine ⟨sa, sb, h2, le1, le3, ?_, ?_, ?_, ?_, ?_, e1, e3, t1, t3, ?_, ?_⟩
      · intro c hc hcase
        apply PrepareDataSlots_frame env ins K pre s sa h1 c hc
        rcases hcase with h | h
        · rw [h]; exact hn1.1.1
        · exact (memvars c h).1
      · intro j hj hcase
        apply PrepareDataSlots_frame env ins K post sb s2 hres j hj
        rcases hcase with h | h
        · rw [h]; exact hn1.1.2
        · exact (memvars j h).2
      · exact PrepareDataSlots_slot_frame env ins K pre s sa h1 name i hp1.1.1
      · exact PrepareDataSlots_slot_frame env ins K post sb s2 hres name i hp1.1.2
      · exact PrepareDataSlots_tmp_mono env ins K post sb s2 hres
      · exact fun h => hp1.1.1 (t2 name i h)
      · exact fun h => hp1.1.2 (t4 name i h)

/-! ### PrepareData: the whole call -/

theorem PrepareData_eq (env : Env) (ins : NameVarMap VarId) (K : OpKernelType) (st : State) :
    PrepareData env ins K st =
      (match PrepareDataSlots env ins K (MapSlots ins) st.enter with
        | .ok s => .ok (s.tmp_ins_ptr, s.leave)
        | .error e => .error e) := by
  simp only [PrepareData, PrepareDataMap_eq, State.enter, Loop.leave]

/-- On a well-formed input `PrepareData` returns: it is the run of the loop body over
the slots of `ins`, from the state it is called in. -/
theorem PrepareData_run (env : Env) (ins : NameVarMap VarId) (K : OpKernelType) (st : State)
    (hwf : WellFormed st ins K) :
    ∃ s2 : Loop, PrepareDataSlots env ins K (MapSlots ins) st.enter = .ok s2 ∧
      PrepareData env ins K st = .ok (s2.tmp_ins_ptr, s2.leave) := by
  obtain ⟨_, _, h3, h4⟩ := hwf
  obtain ⟨s2, h⟩ := PrepareDataSlots_ok env ins K (MapSlots ins) st.enter
    (by rw [SlotVars_MapSlots]; exact h3) (by rw [SlotVars_MapSlots]; exact h4)
  exact ⟨s2, h, by rw [PrepareData_eq, h]⟩

/-- The state a call on a well-formed input leaves is well-formed for the same input. -/
theorem WellFormed_after (env : Env) (ins : NameVarMap VarId) (K : OpKernelType) (st : State)
    (hwf : WellFormed st ins K) (s2 : Loop)
    (hres : PrepareDataSlots env ins K (MapSlots ins) st.enter = .ok s2) :
    WellFormed s2.leave ins K := by
  obtain ⟨h1, h2, h3, h4⟩ := hwf
  have hle := PrepareDataSlots_next_le env ins K (MapSlots ins) st.enter s2 hres
  refine ⟨h1, h2, fun v hv => Nat.lt_of_lt_of_le (h3 v hv) hle, ?_⟩
  intro v hv
  exact PrepareDataSlots_sound env ins K (MapSlots ins) st.enter s2 hres
    (by rw [SlotVars_MapSlots]; exact h3) v (h3 v hv) (h4 v hv)

/-- The wrapper the loop body allocates for a substituted slot has the name and the
type of the variable of the slot and holds a tensor. -/
theorem PrepareDataSlot_new (env : Env) (ins : NameVarMap VarId) (K : OpKernelType)
    (name : String) (i : Nat) (v : VarId) (s s2 : Loop)
    (hres : PrepareDataSlot env ins K name i v s = .ok s2) (hv : v < s.next)
    (hsub : NeedsSubstitution env K name (s.heap v) = true) :
    (s2.heap s.next).name_ = (s.heap v).name_ ∧ (s2.heap s.next).type_ = (s.heap v).type_ ∧
    (GetTensorFromVar (s2.heap s.next).var_).isSome = true := by
  have hnv : s.next ≠ v := fun x => (Nat.ne_of_lt hv) x.symm
  rcases PrepareDataSlot_cases env ins K name i v s with
    ⟨b, _, _⟩ | ⟨t, c, _, _, _, _, _, h⟩ | ⟨t, c, tc, _, _, _, _, a5, h⟩ |
    ⟨t, a1, _, _, _, _, h⟩ | ⟨t, a1, a2, a3, a4, a5, h⟩
  · rw [b] at hsub
    cases hsub
  · rw [h] at hres
    cases hres
  · rw [h] at hres
    injection hres with hres
    subst hres
    simp [Heap.set, TmpVar, VariableWrapper.create, SetTensorToVariable_holds _ _ _ _ a5]
  · rw [h] at hres
    injection hres with hres
    subst hres
    simp [Heap.set, hnv, TmpVar, VariableWrapper.create, SetTensorToVariable_holds _ _ _ _ a1]
  · simp [NeedsSubstitution, a1, a2, a3, a4, a5] at hsub

/-- The call seen from one slot of a well-formed input: `PrepareDataSlots_at` for the
slots of `ins` from the state of the call. -/
theorem PrepareData_at (env : Env) (ins : NameVarMap VarId) (K : OpKernelType) (st : State)
    (hwf : WellFormed st ins K) (s2 : Loop)
    (hloop : PrepareDataSlots env ins K (MapSlots ins) st.enter = .ok s2)
    (name : String) (i : Nat) (v : VarId) (hslot : GetSlot ins name i = some v) :
    ∃ sa sb,
      PrepareDataSlot env ins K name i v sa = .ok sb ∧
      st.next ≤ sa.next ∧ sb.next ≤ s2.next ∧ v < sa.next ∧
      Agree st.heap sa.heap v ∧
      (∀ c : Nat, c < st.next → c ∉ MapVars ins → Agree st.heap sa.heap c) ∧
      Agree sb.heap s2.heap v ∧
      (∀ j : Nat, sa.next ≤ j → j < sb.next → Agree sb.heap s2.heap j) ∧
      GetSlot (sa.tmp_ins_ptr.getD ins) name i = some v ∧
      GetSlot (s2.tmp_ins_ptr.getD ins) name i = GetSlot (sb.tmp_ins_ptr.getD ins) name i ∧
      (s2.tmp_ins_ptr = none → sb.tmp_ins_ptr = none) ∧
      ∃ e1 e3, sa.trace = st.trace ++ e1 ∧ s2.trace = sb.trace ++ e3 ∧
        Event.TransformData name i ∉ e1 ∧ Event.TransformData name i ∉ e3 := by
  obtain ⟨h1, h2, h3, _⟩ := hwf
  have hmem := mem_MapSlots_of_GetSlot ins name i v hslot
  have hv : v < st.next := h3 v (by rw [← SlotVars_MapSlots]; exact List.mem_map.2 ⟨_, hmem, rfl⟩)
  obtain ⟨sa, sb, k1, k2, k3, k4, k5, k6, k7, k8, e1, e3, t1, t3, t2, t4⟩ :=
    PrepareDataSlots_at env ins K (MapSlots ins) st.enter s2 hloop
      (by rw [SlotVars_MapSlots]; exact h2) (SlotPositions_MapSlots_nodup ins h1)
      (by rw [SlotVars_MapSlots]; exact h3) name i v hmem
  have hle : sa.next ≤ sb.next := PrepareDataSlot_next_le env ins K name i v sa sb k1
  refine ⟨sa, sb, k1, k2, k3, Nat.lt_of_lt_of_le hv k2, k4 v hv (Or.inl rfl), ?_,
    k5 v (Nat.lt_of_lt_of_le hv (Nat.le_trans k2 hle)) (Or.inl rfl), ?_, ?_, k7, k8,
    e1, e3, t1, t3, t2, t4⟩
  · intro c hc hcm
    exact k4 c hc (Or.inr (by rw [SlotVars_MapSlots]; exact hcm))
  · intro j hj1 hj2
    refine k5 j hj2 (Or.inr ?_)
    rw [SlotVars_MapSlots]
    intro hjm
    have hlt : j < st.next := h3 j hjm
    exact Nat.lt_irrefl _ (Nat.lt_of_lt_of_le (Nat.lt_of_lt_of_le hlt k2) hj1)
  · rw [k6]
    exact hslot

/-- A call on a well-formed input, at a slot whose transform changes the data type and
whose wrapper has no cache entry: the variable keeps its tensor, its cache gets the
entry for `K`, the entry points to a variable allocated during the call that holds the
transformed tensor and stands at the slot in the shadow map, and the transform of the
slot is recorded. -/
theorem PrepareData_cast_at (env : Env) (ins : NameVarMap VarId) (K : OpKernelType)
    (st : State) (hwf : WellFormed st ins K) (s2 : Loop)
    (hloop : PrepareDataSlots env ins K (MapSlots ins) st.enter = .ok s2)
    (name : String) (i : Nat) (v : VarId) (hslot : GetSlot ins name i = some v)
    (t : Tensor)
    (a1 : GetTensorFromVar (st.heap v).var_ = some t) (a2 : t.initialized = true)
    (a3 : env.NeedTransform (env.GetKernelTypeForVar name t K) K = true)
    (a4 : AssocFind K (st.heap v).var_cache = none)
    (a5 : env.NeedTransformDataType (env.GetKernelTypeForVar name t K) K = true) :
    ∃ n, st.next ≤ n ∧ n < s2.next ∧
      (s2.heap v).var_ = (st.heap v).var_ ∧
      (s2.heap v).name_ = (st.heap v).name_ ∧
      (s2.heap v).type_ = (st.heap v).type_ ∧
      (s2.heap v).var_cache = AssocSet K n (st.heap v).var_cache ∧
      (s2.heap n).var_ = SetTensorToVariable (st.heap v).var_
        (env.TransformData K (env.GetKernelTypeForVar name t K) t) .Empty ∧
      (s2.heap n).name_ = (st.heap v).name_ ∧
      (s2.heap n).type_ = (st.heap v).type_ ∧
      (∃ m, s2.tmp_ins_ptr = some m ∧ GetSlot m name i = some n) ∧
      ∃ ev, s2.trace = st.trace ++ ev ∧ Event.TransformData name i ∈ ev := by
  obtain ⟨sa, sb, k1, k2, k3, k4, k5, _, k7, k8, k9, k10, k11, e1, e3, t1, t3, _, _⟩ :=
    PrepareData_at env ins K st hwf s2 hloop name i v hslot
  obtain ⟨c1, c2, c3, c4⟩ := PrepareDataSlot_cast env ins K name i v sa sb k1 k4 t
    (by rw [k5.1]; exact a1) a2 a3 (by rw [k5.2.1]; exact a4) a5
  obtain ⟨d1, d2⟩ := PrepareDataSlot_self env ins K name i v sa sb k1 k4
  have hns : NeedsSubstitution env K name (sa.heap v) = true := by
    simp [NeedsSubstitution, k5.1, a1, a2, a3, a5]
  obtain ⟨q1, q2, q3⟩ := PrepareDataSlot_next env ins K name i v sa sb k1
  rw [hns] at q1 q2 q3
  simp only [if_true] at q1 q2
  have hag := k8 sa.next (Nat.le_refl _) (by rw [q1]; exact Nat.lt_succ_self _)
  obtain ⟨g, hg, _⟩ := SetForwardDataTypeOfGradVar_trace env v sa
  have hsb : sb.tmp_ins_ptr ≠ none := by
    intro h
    have := (q3.1 h).2
    cases this
  have hs2 : s2.tmp_ins_ptr ≠ none := fun h => hsb (k11 h)
  refine ⟨sa.next, k2, ?_, ?_, ?_, ?_, ?_, ?_, ?_, ?_, ?_, ?_⟩
  · have : sb.next ≤ s2.next := k3
    show sa.next < s2.next
    omega
  · rw [k7.1, c1, k5.1]
  · rw [k7.2.2.1, d1, k5.2.2.1]
  · rw [k7.2.2.2, d2, k5.2.2.2]
  · rw [k7.2.1, c2, k5.2.1]
  · rw [hag.1, c3, k5.1]
    rfl
  · rw [hag.2.2.1, c3]
    exact k5.2.2.1
  · rw [hag.2.2.2, c3]
    exact k5.2.2.2
  · cases hm : s2.tmp_ins_ptr with
    | none => exact absurd hm hs2
    | some m =>
      refine ⟨m, rfl, ?_⟩
      have hM : s2.tmp_ins_ptr.getD ins = m := by rw [hm]; rfl
      rw [← hM, k10, q2, GetSlot_SetSlot, k9]
      simp
  · refine ⟨e1 ++ (g ++ ([Event.GetKernelTypeForVar name i, Event.hasCacheKey name i,
      Event.TransformData name i, Event.setCacheValue name i] ++ e3)), ?_, ?_⟩
    · rw [t3, c4, hg, t1]
      simp only [List.append_assoc]
    · simp

/-- A call on a well-formed input, at a slot whose wrapper has a cache entry for `K`
pointing to a variable outside the inputs: the variable of the slot is as before, a
variable allocated during the call holds the cached tensor and stands at the slot in
the shadow map, and no transform is recorded for the slot. -/
theorem PrepareData_hit_at (env : Env) (ins : NameVarMap VarId) (K : OpKernelType)
    (st : State) (hwf : WellFormed st ins K) (s2 : Loop)
    (hloop : PrepareDataSlots env ins K (MapSlots ins) st.enter = .ok s2)
    (name : String) (i : Nat) (v : VarId) (hslot : GetSlot ins name i = some v)
    (t : Tensor) (c : VarId) (tc : Tensor)
    (a1 : GetTensorFromVar (st.heap v).var_ = some t) (a2 : t.initialized = true)
    (a3 : env.NeedTransform (env.GetKernelTypeForVar name t K) K = true)
    (a4 : AssocFind K (st.heap v).var_cache = some c)
    (a5 : GetTensorFromVar (st.heap c).var_ = some tc)
    (hc1 : c < st.next) (hc2 : c ∉ MapVars ins) :
    ∃ n, st.next ≤ n ∧ n < s2.next ∧
      Agree st.heap s2.heap v ∧
      GetTensorFromVar (s2.heap n).var_ = some tc ∧
      (s2.heap n).name_ = (st.heap v).name_ ∧
      (s2.heap n).type_ = (st.heap v).type_ ∧
      (∃ m, s2.tmp_ins_ptr = some m ∧ GetSlot m name i = some n) ∧
      ∃ ev, s2.trace = st.trace ++ ev ∧ Event.TransformData name i ∉ ev := by
  obtain ⟨sa, sb, k1, k2, k3, k4, k5, k6, k7, k8, k9, k10, k11, e1, e3, t1, t3, t2, t4⟩ :=
    PrepareData_at env ins K st hwf s2 hloop name i v hslot
  have hcag := k6 c hc1 hc2
  obtain ⟨c1, c3, c4⟩ := PrepareDataSlot_hit env ins K name i v sa sb k1 k4 t c tc
    (by rw [k5.1]; exact a1) a2 a3 (by rw [k5.2.1]; exact a4) (by rw [hcag.1]; exact a5)
  have hns : NeedsSubstitution env K name (sa.heap v) = true := by
    simp [NeedsSubstitution, k5.1, k5.2.1, a1, a2, a3, a4]
  obtain ⟨q1, q2, q3⟩ := PrepareDataSlot_next env ins K name i v sa sb k1
  rw [hns] at q1 q2 q3
  simp only [if_true] at q1 q2
  have hag := k8 sa.next (Nat.le_refl _) (by rw [q1]; exact Nat.lt_succ_self _)
  obtain ⟨g, hg, hg2⟩ := SetForwardDataTypeOfGradVar_trace env v sa
  have hsb : sb.tmp_ins_ptr ≠ none := by
    intro h
    have := (q3.1 h).2
    cases this
  have hs2 : s2.tmp_ins_ptr ≠ none := fun h => hsb (k11 h)
  refine ⟨sa.next, k2, ?_, ?_, ?_, ?_, ?_, ?_, ?_⟩
  · have : sb.next ≤ s2.next := k3
    show sa.next < s2.next
    omega
  · exact Agree_trans _ _ _ _ k5 (Agree_trans _ _ _ _ c1 k7)
  · rw [hag.1, c3]
    exact SetTensorToVariable_holds _ _ _ _ (by rw [hcag.1]; exact a5)
  · rw [hag.2.2.1, c3]
    exact k5.2.2.1
  · rw [hag.2.2.2, c3]
    exact k5.2.2.2
  · cases hm : s2.tmp_ins_ptr with
    | none => exact absurd hm hs2
    | some m =>
      refine ⟨m, rfl, ?_⟩
      have hM : s2.tmp_ins_ptr.getD ins = m := by rw [hm]; rfl
      rw [← hM, k10, q2, GetSlot_SetSlot, k9]
      simp
  · refine ⟨e1 ++ (g ++ ([Event.GetKernelTypeForVar name i, Event.hasCacheKey name i,
      Event.getCacheValue name i] ++ e3)), ?_, ?_⟩
    · rw [t3, c4, hg, t1]
      simp only [List.append_assoc]
    · intro hmem
      rcases List.mem_append.1 hmem with h | h
      · exact t2 h
      · rcases List.mem_append.1 h with h | h
        · obtain ⟨x, y, hxy⟩ := hg2 _ h
          cases hxy
        · rcases List.mem_append.1 h with h | h
          · simp at h
          · exact t4 h

/-- A call on a well-formed input, at a slot whose transform keeps the data type and
whose wrapper has no cache entry: the variable now holds the transformed tensor, its
cache is as before, and a shadow map holds the variable of `ins` at the slot. -/
theorem PrepareData_inplace_at (env : Env) (ins : NameVarMap VarId) (K : OpKernelType)
    (st : State) (hwf : WellFormed st ins K) (s2 : Loop)
    (hloop : PrepareDataSlots env ins K (MapSlots ins) st.enter = .ok s2)
    (name : String) (i : Nat) (v : VarId) (hslot : GetSlot ins name i = some v)
    (t : Tensor)
    (a1 : GetTensorFromVar (st.heap v).var_ = some t) (a2 : t.initialized = true)
    (a3 : env.NeedTransform (env.GetKernelTypeForVar name t K) K = true)
    (a4 : AssocFind K (st.heap v).var_cache = none)
    (a5 : env.NeedTransformDataType (env.GetKernelTypeForVar name t K) K = false) :
    (s2.heap v).var_ = SetTensorToVariable (st.heap v).var_
      (env.TransformData K (env.GetKernelTypeForVar name t K) t) (st.heap v).var_ ∧
    (s2.heap v).var_cache = (st.heap v).var_cache ∧
    (∀ m, s2.tmp_ins_ptr = some m → GetSlot m name i = some v) := by
  obtain ⟨sa, sb, k1, _, _, _, k5, _, k7, _, k9, k10, _, _⟩ :=
    PrepareData_at env ins K st hwf s2 hloop name i v hslot
  obtain ⟨c1, c2, _, c4, _⟩ := PrepareDataSlot_inplace env ins K name i v sa sb k1 t
    (by rw [k5.1]; exact a1) a2 a3 (by rw [k5.2.1]; exact a4) a5
  refine ⟨by rw [k7.1, c1, k5.1], by rw [k7.2.1, c2, k5.2.1], ?_⟩
  intro m hm
  have hM : s2.tmp_ins_ptr.getD ins = m := by rw [hm]; rfl
  rw [← hM, k10, c4, k9]

/-- Claim C4.  For a slot whose tensor is initialized and needs a transform to `K` and
whose wrapper has no cache entry for `K`:
(a) when the transform keeps the data type, the variable then holds the transformed
tensor, its cache is as before and the slot is not substituted;
(b) when the transform changes the data type, the cache of the wrapper is the old one
with an entry for `K` pointing to a newly allocated variable, that variable holds the
transformed tensor and stands at the slot in the shadow map, and the variable of the
slot is as before.
The first part states this for the loop body, in whatever state the slot is visited;
the second for the whole call on a well-formed input, where the conditions are read in
the state of the call and the effects in the state it leaves. -/
theorem PrepareData_inplace_or_cached (env : Env) (ins : NameVarMap VarId) (K : OpKernelType)
    (st : State) :
    (∀ (s : Loop) name i v t, v < s.next →
      GetTensorFromVar (s.heap v).var_ = some t → t.initialized = true →
      env.NeedTransform (env.GetKernelTypeForVar name t K) K = true →
      AssocFind K (s.heap v).var_cache = none →
      ∃ s2, PrepareDataSlot env ins K name i v s = .ok s2 ∧
        (env.NeedTransformDataType (env.GetKernelTypeForVar name t K) K = false →
          GetTensorFromVar (s2.heap v).var_ =
            some (env.TransformData K (env.GetKernelTypeForVar name t K) t) ∧
          (s2.heap v).var_cache = (s.heap v).var_cache ∧
          s2.tmp_ins_ptr = s.tmp_ins_ptr ∧ s2.next = s.next) ∧
        (env.NeedTransformDataType (env.GetKernelTypeForVar name t K) K = true →
          (s2.heap v).var_cache = AssocSet K s.next (s.heap v).var_cache ∧
          GetTensorFromVar (s2.heap s.next).var_ =
            some (env.TransformData K (env.GetKernelTypeForVar name t K) t) ∧
          s2.tmp_ins_ptr = some (SetSlot (s.tmp_ins_ptr.getD ins) name i s.next) ∧
          s2.next = s.next + 1 ∧
          (s2.heap v).var_ = (s.heap v).var_)) ∧
    (WellFormed st ins K →
      ∃ r st2, PrepareData env ins K st = .ok (r, st2) ∧
        ∀ name i v t, GetSlot ins name i = some v →
          GetTensorFromVar (st.heap v).var_ = some t → t.initialized = true →
          env.NeedTransform (env.GetKernelTypeForVar name t K) K = true →
          AssocFind K (st.heap v).var_cache = none →
          (env.NeedTransformDataType (env.GetKernelTypeForVar name t K) K = false →
            GetTensorFromVar (st2.heap v).var_ =
              some (env.TransformData K (env.GetKernelTypeForVar name t K) t) ∧
            (st2.heap v).var_cache = (st.heap v).var_cache ∧
            ∀ m, r = some m → GetSlot m name i = some v) ∧
          (env.NeedTransformDataType (env.GetKernelTypeForVar name t K) K = true →
            ∃ n, st.next ≤ n ∧ n < st2.next ∧
              AssocFind K (st2.heap v).var_cache = some n ∧
              (st2.heap v).var_cache = AssocSet K n (st.heap v).var_cache ∧
              GetTensorFromVar (st2.heap n).var_ =
                some (env.TransformData K (env.GetKernelTypeForVar name t K) t) ∧
              (∃ m, r = some m ∧ GetSlot m name i = some n) ∧
              (st2.heap v).var_ = (st.heap v).var_)) := by
  constructor
  · intro s name i v t hv a1 a2 a3 a4
    obtain ⟨s2, hres⟩ := PrepareDataSlot_ok env ins K name i v s
      (by simp [CacheTargetHoldsTensor, a4])
    refine ⟨s2, hres, ?_, ?_⟩
    · intro a5
      obtain ⟨c1, c2, c3, c4, _⟩ := PrepareDataSlot_inplace env ins K name i v s s2 hres t
        a1 a2 a3 a4 a5
      refine ⟨?_, c2, c4, c3⟩
      rw [c1]
      exact SetTensorToVariable_holds _ _ _ _ a1
    · intro a5
      obtain ⟨c1, c2, c3, _⟩ := PrepareDataSlot_cast env ins K name i v s s2 hres hv t
        a1 a2 a3 a4 a5
      obtain ⟨q1, q2, _⟩ := PrepareDataSlot_next env ins K name i v s s2 hres
      have hns : NeedsSubstitution env K name (s.heap v) = true := by
        simp [NeedsSubstitution, a1, a2, a3, a5]
      rw [hns] at q1 q2
      simp only [if_true] at q1 q2
      refine ⟨c2, ?_, ?_, q1, c1⟩
      · rw [c3]
        exact SetTensorToVariable_holds _ _ _ _ a1
      · cases htmp : s2.tmp_ins_ptr with
        | none =>
          have := (PrepareDataSlot_next env ins K name i v s s2 hres).2.2.1 htmp
          rw [hns] at this
          cases this.2
        | some m =>
          rw [htmp] at q2
          simp only [Option.getD_some] at q2
          rw [q2]
  · intro hwf
    obtain ⟨s2, hloop, hrun⟩ := PrepareData_run env ins K st hwf
    refine ⟨_, _, hrun, ?_⟩
    intro name i v t hslot a1 a2 a3 a4
    constructor
    · intro a5
      obtain ⟨c1, c2, c3⟩ := PrepareData_inplace_at env ins K st hwf s2 hloop name i v hslot t
        a1 a2 a3 a4 a5
      refine ⟨?_, c2, c3⟩
      show GetTensorFromVar (s2.heap v).var_ = _
      rw [c1]
      exact SetTensorToVariable_holds _ _ _ _ a1
    · intro a5
      obtain ⟨n, n1, n2, c1, _, _, c4, c5, _, _, c8, _⟩ := PrepareData_cast_at env ins K st hwf
        s2 hloop name i v hslot t a1 a2 a3 a4 a5
      refine ⟨n, n1, n2, ?_, c4, ?_, c8, c1⟩
      · show AssocFind K (s2.heap v).var_cache = _
        rw [c4, AssocFind_AssocSet]
      · show GetTensorFromVar (s2.heap n).var_ = _
        rw [c5]
        exact SetTensorToVariable_holds _ _ _ _ a1

/-- Claim C4 at concrete inputs: with the device key (data type kept) the variable `x`
holds the transformed tensor, its cache stays empty and the result is null; with the
float64 key (data type changed) `x` keeps its tensor, its cache maps the key to the new
variable 3, which holds the transformed tensor and stands at `X[0]` in the shadow map. -/
theorem PrepareData_inplace_or_cached_witness :
    WellFormed Sample.state Sample.addIns Sample.keyDevice ∧
    (∃ r st2, PrepareData Sample.env Sample.addIns Sample.keyDevice Sample.state = .ok (r, st2) ∧
      ∀ name i v t, GetSlot Sample.addIns name i = some v →
        GetTensorFromVar (Sample.state.heap v).var_ = some t → t.initialized = true →
        Sample.env.NeedTransform (Sample.env.GetKernelTypeForVar name t Sample.keyDevice)
          Sample.keyDevice = true →
        AssocFind Sample.keyDevice (Sample.state.heap v).var_cache = none →
        (Sample.env.NeedTransformDataType
            (Sample.env.GetKernelTypeForVar name t Sample.keyDevice) Sample.keyDevice = false →
          GetTensorFromVar (st2.heap v).var_ =
            some (Sample.env.TransformData Sample.keyDevice
              (Sample.env.GetKernelTypeForVar name t Sample.keyDevice) t) ∧
          (st2.heap v).var_cache = (Sample.state.heap v).var_cache ∧
          ∀ m, r = some m → GetSlot m name i = some v) ∧
        (Sample.env.NeedTransformDataType
            (Sample.env.GetKernelTypeForVar name t Sample.keyDevice) Sample.keyDevice = true →
          ∃ n, Sample.state.next ≤ n ∧ n < st2.next ∧
            AssocFind Sample.keyDevice (st2.heap v).var_cache = some n ∧
            (st2.heap v).var_cache =
              AssocSet Sample.keyDevice n (Sample.state.heap v).var_cache ∧
            GetTensorFromVar (st2.heap n).var_ =
              some (Sample.env.TransformData Sample.keyDevice
                (Sample.env.GetKernelTypeForVar name t Sample.keyDevice) t) ∧
            (∃ m, r = some m ∧ GetSlot m name i = some n) ∧
            (st2.heap v).var_ = (Sample.state.heap v).var_)) ∧
    (PrepareData Sample.env Sample.addIns Sample.keyDevice Sample.state).map
      (fun p => (p.1, (p.2.heap 0).var_, (p.2.heap 0).var_cache)) =
      .ok (none, .LoDTensor { Sample.tensor 10 with place := 1 }, []) ∧
    (PrepareData Sample.env Sample.addIns Sample.keyDouble Sample.state).map
      (fun p => (p.1, (p.2.heap 0).var_, (p.2.heap 0).var_cache)) =
      .ok (some [("X", [3]), ("Y", [4])], .LoDTensor (Sample.tensor 10),
        [(Sample.keyDouble, 3)]) ∧
    (PrepareData Sample.env Sample.addIns Sample.keyDouble Sample.state).map
      (fun p => (p.2.heap 3).var_) = .ok (.LoDTensor { Sample.tensor 10 with type := 6 }) :=
  ⟨by decide,
    (PrepareData_inplace_or_cached Sample.env Sample.addIns Sample.keyDevice Sample.state).2
      (by decide),
    by decide, by decide, by decide⟩

/-- A build that completes has run its three loops to the end, one after the other. -/
theorem BuildDygraphPtenKernelContext_completed (env : Env) (sig : KernelSignature)
    (kernel : KernelArgsDef) (ins : NameVarMap VarId) (outs : NameVarMap (Option VarId))
    (attrs default_attrs : AttributeMap) (dev_ctx : Nat) (s0 : BuildState)
    (hok : (BuildDygraphPtenKernelContext env sig kernel ins outs attrs default_attrs dev_ctx
      s0).error = none) :
    ∃ s1 s2,
      BuildInputs ins sig.input_names 0
        { s0 with kernel_ctx := { s0.kernel_ctx with dev_ctx_ := some dev_ctx } } = ⟨s1, none⟩ ∧
      BuildOutputs env kernel.output_defs outs sig.output_names 0 s1 = ⟨s2, none⟩ ∧
      BuildDygraphPtenKernelContext env sig kernel ins outs attrs default_attrs dev_ctx s0 =
        BuildAttrs env kernel.attribute_defs ins attrs default_attrs sig.attr_names 0 s2 := by
  revert hok
  unfold BuildDygraphPtenKernelContext
  simp only []
  split
  · simp
  · split
    · simp
    · split
      · simp
      · cases h1 : BuildInputs ins sig.input_names 0
          { s0 with kernel_ctx := { s0.kernel_ctx with dev_ctx_ := some dev_ctx } } with
        | mk s1 e1 =>
          cases e1 with
          | some e => simp
          | none =>
            simp only []
            cases h2 : BuildOutputs env kernel.output_defs outs sig.output_names 0 s1 with
            | mk s2 e2 =>
              cases e2 with
              | some e => simp
              | none =>
                intro _
                exact ⟨s1, s2, rfl, h2, rfl⟩

theorem BuildAttr_heap (env : Env) (ins : NameVarMap VarId) (attrs default_attrs : AttributeMap)
    (name : String) (arg_def : AttributeArgDef) (s : BuildState) :
    (BuildAttr env ins attrs default_attrs name arg_def s).state.heap = s.heap := by
  obtain ⟨added, _, h⟩ := BuildAttr_frame env ins attrs default_attrs name arg_def s
  rw [h]

theorem BuildAttrs_heap (env : Env) (attr_defs : List AttributeArgDef) (ins : NameVarMap VarId)
    (attrs default_attrs : AttributeMap) (names : List String) (i : Nat) (s : BuildState) :
    (BuildAttrs env attr_defs ins attrs default_attrs names i s).state.heap = s.heap := by
  obtain ⟨added, _, h⟩ := BuildAttrs_frame env attr_defs ins attrs default_attrs names i s
  rw [h]

/-- In an attribute loop that completes, the attribute built for an argument declared
as `ScalarArray` is among the attributes of the context. -/
theorem BuildAttrs_mem_array (env : Env) (attr_defs : List AttributeArgDef)
    (ins : NameVarMap VarId) (attrs default_attrs : AttributeMap) (names : List String)
    (i : Nat) (s : BuildState) (k : Nat) (name : String) (arg_def : AttributeArgDef)
    (hok : (BuildAttrs env attr_defs ins attrs default_attrs names i s).error = none)
    (hname : names[k]? = some name) (hdef : attr_defs[i + k]? = some arg_def)
    (harr : arg_def.type_index = .ScalarArray) :
    ∃ a, BuildScalarArrayAttr s.heap ins attrs default_attrs name = .ok a ∧
      a ∈ (BuildAttrs env attr_defs ins attrs default_attrs names i s).state.kernel_ctx.attrs_ := by
  induction names generalizing i s k with
  | nil => simp at hname
  | cons n rest ih =>
    cases k with
    | zero =>
      simp only [List.getElem?_cons_zero, Option.some.injEq] at hname
      subst hname
      rw [Nat.add_zero] at hdef
      revert hok
      simp only [BuildAttrs, hdef]
      cases hb : BuildScalarArrayAttr s.heap ins attrs default_attrs n with
      | error e => simp [BuildAttr, harr, hb]
      | ok a =>
        have hturn : BuildAttr env ins attrs default_attrs n arg_def s =
            ⟨{ s with kernel_ctx :=
                { s.kernel_ctx with attrs_ := s.kernel_ctx.attrs_ ++ [a] } }, none⟩ := by
          simp [BuildAttr, harr, hb]
        rw [hturn]
        simp only []
        intro _
        obtain ⟨added, _, hfr⟩ := BuildAttrs_frame env attr_defs ins attrs default_attrs rest
          (i + 1) { s with kernel_ctx :=
            { s.kernel_ctx with attrs_ := s.kernel_ctx.attrs_ ++ [a] } }
        refine ⟨a, rfl, ?_⟩
        rw [hfr]
        simp
    | succ k =>
      simp only [List.getElem?_cons_succ] at hname
      revert hok
      simp only [BuildAttrs]
      cases hd : attr_defs[i]? with
      | none => simp
      | some d =>
        simp only []
        have hheap := BuildAttr_heap env ins attrs default_attrs n d s
        cases hr : BuildAttr env ins attrs default_attrs n d s with
        | mk s1 e =>
          rw [hr] at hheap
          simp only at hheap
          cases e with
          | some e => simp
          | none =>
            simp only []
            intro hok
            have := ih (i + 1) s1 k hok hname (by rw [← hdef]; congr 1; omega)
            rw [hheap] at this
            exact this


/-- The array branch on a name that is not a key of `attrs` and is a key of `ins`: it
returns the array built from the input group. -/
theorem BuildScalarArrayAttr_fallback (h : Heap) (ins : NameVarMap VarId)
    (attrs default_attrs : AttributeMap) (name : String) (g : List VarId)
    (habs : name ∉ AssocKeys attrs) (hg : AssocFind name ins = some g) :
    ∃ a, BuildScalarArrayAttr h ins attrs default_attrs name = .ok a ∧ ArrayFromGroup h g a := by
  have hfind : AssocFind name attrs = none := (AssocFind_eq_none_iff name attrs).2 habs
  match g, hg with
  | [v], hg =>
    refine ⟨.ScalarArray (.MakePtenScalarArrayFromVar (h v).var_), ?_, ?_, ?_⟩
    · simp [BuildScalarArrayAttr, hfind, hg]
    · intro w hw
      injection hw with hw _
      rw [hw]
    · intro hne
      simp at hne
  | [], hg =>
    refine ⟨.ScalarArray (.MakePtenScalarArrayFromVarList []), ?_, ?_, ?_⟩
    · simp [BuildScalarArrayAttr, hfind, hg]
    · intro w hw
      cases hw
    · intro _
      exact ⟨[], rfl, rfl, by simp⟩
  | v1 :: v2 :: rest, hg =>
    refine ⟨.ScalarArray (.MakePtenScalarArrayFromVarList
      ((v1 :: v2 :: rest).map fun var_base => (h var_base).var_)), ?_, ?_, ?_⟩
    · simp [BuildScalarArrayAttr, hfind, hg]
    · intro w hw
      cases hw
    · intro _
      refine ⟨_, rfl, by simp, ?_⟩
      intro j v hj
      rw [List.getElem?_map, hj]
      rfl

/-- Claim C10.  For an attribute argument declared as `ScalarArray` whose name is not a
key of `attrs` (so in particular when it is in neither attribute map) and is a key of
`ins` with group `g`: the turn of the attribute loop for it appends exactly one
attribute, the array built from `g` (`ArrayFromGroup`: from the variable of element 0
for a group of one element, else from the list of the variables of the group, same
length and order), and throws nothing; and in every build that completes, that
attribute, built from `g` as read in the heap the build leaves, is among the attributes
of the kernel context. -/
theorem BuildAttr_array_fallback (env : Env) (ins : NameVarMap VarId)
    (attrs default_attrs : AttributeMap) (name : String) (arg_def : AttributeArgDef)
    (g : List VarId)
    (hdef : arg_def.type_index = .ScalarArray)
    (habs : name ∉ AssocKeys attrs)
    (hg : AssocFind name ins = some g) :
    (∀ s : BuildState, ∃ a,
      BuildAttr env ins attrs default_attrs name arg_def s =
        ⟨{ s with kernel_ctx := { s.kernel_ctx with attrs_ := s.kernel_ctx.attrs_ ++ [a] } },
          none⟩ ∧
      ArrayFromGroup s.heap g a) ∧
    (∀ (sig : KernelSignature) (kernel : KernelArgsDef) (outs : NameVarMap (Option VarId))
      (dev_ctx : Nat) (s0 : BuildState) (k : Nat),
      sig.attr_names[k]? = some name → kernel.attribute_defs[k]? = some arg_def →
      (BuildDygraphPtenKernelContext env sig kernel ins outs attrs default_attrs dev_ctx
        s0).error = none →
      ∃ a, a ∈ (BuildDygraphPtenKernelContext env sig kernel ins outs attrs default_attrs
          dev_ctx s0).state.kernel_ctx.attrs_ ∧
        ArrayFromGroup (BuildDygraphPtenKernelContext env sig kernel ins outs attrs
          default_attrs dev_ctx s0).state.heap g a) := by
  constructor
  · intro s
    obtain ⟨a, h1, h2⟩ := BuildScalarArrayAttr_fallback s.heap ins attrs default_attrs name g
      habs hg
    exact ⟨a, by simp [BuildAttr, hdef, h1], h2⟩
  · intro sig kernel outs dev_ctx s0 k hname hkdef hok
    obtain ⟨s1, s2, _, _, hrun⟩ := BuildDygraphPtenKernelContext_completed env sig kernel ins
      outs attrs default_attrs dev_ctx s0 hok
    rw [hrun] at hok ⊢
    obtain ⟨a, h1, h2⟩ := BuildAttrs_mem_array env kernel.attribute_defs ins attrs default_attrs
      sig.attr_names 0 s2 k name arg_def hok hname (by rw [Nat.zero_add]; exact hkdef) hdef
    obtain ⟨a2, h3, h4⟩ := BuildScalarArrayAttr_fallback s2.heap ins attrs default_attrs name g
      habs hg
    rw [h1] at h3
    injection h3 with h3
    subst h3
    refine ⟨a, h2, ?_⟩
    rw [BuildAttrs_heap]
    exact h4

/-- Claim C10 at concrete inputs: `shape` is in neither attribute map; as a group of one
variable it gives the array built from that variable, as a group of two the array built
from the list of the two variables, in order. -/
theorem BuildAttr_array_fallback_witness :
    ((∀ s : BuildState, ∃ a,
      BuildAttr Sample.env Sample.shapeIns2 [] [] "shape" ⟨.ScalarArray⟩ s =
        ⟨{ s with kernel_ctx := { s.kernel_ctx with attrs_ := s.kernel_ctx.attrs_ ++ [a] } },
          none⟩ ∧
      ArrayFromGroup s.heap [1, 0] a) ∧
    (∀ (sig : KernelSignature) (kernel : KernelArgsDef) (outs : NameVarMap (Option VarId))
      (dev_ctx : Nat) (s0 : BuildState) (k : Nat),
      sig.attr_names[k]? = some "shape" → kernel.attribute_defs[k]? = some ⟨.ScalarArray⟩ →
      (BuildDygraphPtenKernelContext Sample.env sig kernel Sample.shapeIns2 outs [] [] dev_ctx
        s0).error = none →
      ∃ a, a ∈ (BuildDygraphPtenKernelContext Sample.env sig kernel Sample.shapeIns2 outs [] []
          dev_ctx s0).state.kernel_ctx.attrs_ ∧
        ArrayFromGroup (BuildDygraphPtenKernelContext Sample.env sig kernel Sample.shapeIns2
          outs [] [] dev_ctx s0).state.heap [1, 0] a)) ∧
    (BuildDygraphPtenKernelContext Sample.env Sample.shapeSig Sample.shapeKernel Sample.shapeIns1
      Sample.addOuts [] [] 0 Sample.build0).error = none ∧
    (BuildDygraphPtenKernelContext Sample.env Sample.shapeSig Sample.shapeKernel Sample.shapeIns1
      Sample.addOuts [] [] 0 Sample.build0).state.kernel_ctx.attrs_ =
        [.ScalarArray (.MakePtenScalarArrayFromVar (.LoDTensor (Sample.tensor 20)))] ∧
    (BuildDygraphPtenKernelContext Sample.env Sample.shapeSig Sample.shapeKernel Sample.shapeIns2
      Sample.addOuts [] [] 0 Sample.build0).state.kernel_ctx.attrs_ =
        [.ScalarArray (.MakePtenScalarArrayFromVarList
          [.LoDTensor (Sample.tensor 20), .LoDTensor (Sample.tensor 10)])] :=
  ⟨BuildAttr_array_fallback Sample.env Sample.shapeIns2 [] [] "shape" ⟨.ScalarArray⟩ [1, 0] rfl
      (by decide) (by decide),
    by decide, by decide, by decide⟩

/-! ### BuildDygraphPtenKernelContext: optional outputs -/

/-- A turn of the input loop touches only the input list and the input ranges, whether
it completes or throws. -/
theorem BuildInput_frame (ins : NameVarMap VarId) (name : String) (i : Nat) (s : BuildState) :
    (BuildInput ins name i s).state.heap = s.heap ∧
    (BuildInput ins name i s).state.trace = s.trace ∧
    (BuildInput ins name i s).state.kernel_ctx.outputs_ = s.kernel_ctx.outputs_ ∧
    (BuildInput ins name i s).state.kernel_ctx.output_range_ = s.kernel_ctx.output_range_ := by
  unfold BuildInput
  split
  · simp
  · split
    · simp
    · simp only []
      split <;> simp

theorem BuildInputs_frame (ins : NameVarMap VarId) (names : List String) (i : Nat)
    (s : BuildState) :
    (BuildInputs ins names i s).state.heap = s.heap ∧
    (BuildInputs ins names i s).state.trace = s.trace ∧
    (BuildInputs ins names i s).state.kernel_ctx.outputs_ = s.kernel_ctx.outputs_ ∧
    (BuildInputs ins names i s).state.kernel_ctx.output_range_ = s.kernel_ctx.output_range_ := by
  induction names generalizing i s with
  | nil => simp [BuildInputs]
  | cons name rest ih =>
    obtain ⟨h1, h2, h3, h4⟩ := BuildInput_frame ins name i s
    simp only [BuildInputs]
    cases hr : BuildInput ins name i s with
    | mk s1 e =>
      rw [hr] at h1 h2 h3 h4
      simp only at h1 h2 h3 h4
      cases e with
      | some e => exact ⟨h1, h2, h3, h4⟩
      | none =>
        obtain ⟨k1, k2, k3, k4⟩ := ih (i + 1) s1
        simp only []
        rw [k1, k2, k3, k4]
        exact ⟨h1, h2, h3, h4⟩

/-- Every call any build records is a reset for a declared output argument whose name
is a key of `outs`. -/
theorem BuildDygraphPtenKernelContext_trace (env : Env) (sig : KernelSignature)
    (kernel : KernelArgsDef) (ins : NameVarMap VarId) (outs : NameVarMap (Option VarId))
    (attrs default_attrs : AttributeMap) (dev_ctx : Nat) (s0 : BuildState) :
    ∃ ev, (BuildDygraphPtenKernelContext env sig kernel ins outs attrs default_attrs dev_ctx
        s0).state.trace = s0.trace ++ ev ∧
      ∀ e ∈ ev, ∃ j off name, e = Event.ResetTensorByArgDef j off ∧
        sig.output_names[j]? = some name ∧ (AssocFind name outs).isSome = true := by
  unfold BuildDygraphPtenKernelContext
  simp only []
  split
  · exact ⟨[], by simp, by simp⟩
  · split
    · exact ⟨[], by simp, by simp⟩
    · split
      · exact ⟨[], by simp, by simp⟩
      · obtain ⟨_, f2, _, _⟩ := BuildInputs_frame ins sig.input_names 0
          { s0 with kernel_ctx := { s0.kernel_ctx with dev_ctx_ := some dev_ctx } }
        cases h1 : BuildInputs ins sig.input_names 0
          { s0 with kernel_ctx := { s0.kernel_ctx with dev_ctx_ := some dev_ctx } } with
        | mk s1 e1 =>
          rw [h1] at f2
          simp only at f2
          cases e1 with
          | some e => exact ⟨[], by simp [f2], by simp⟩
          | none =>
            simp only []
            obtain ⟨ev, t1, t2⟩ := BuildOutputs_trace env kernel.output_defs outs
              sig.output_names 0 s1
            have hev : ∀ e ∈ ev, ∃ j off name, e = Event.ResetTensorByArgDef j off ∧
                sig.output_names[j]? = some name ∧ (AssocFind name outs).isSome = true := by
              intro e he
              obtain ⟨j, off, nm, q1, _, q3, q4⟩ := t2 e he
              exact ⟨j, off, nm, q1, by simpa using q3, q4⟩
            cases h2 : BuildOutputs env kernel.output_defs outs sig.output_names 0 s1 with
            | mk s2 e2 =>
              rw [h2] at t1
              simp only at t1
              cases e2 with
              | some e => exact ⟨ev, by simp [t1, f2], hev⟩
              | none =>
                simp only []
                obtain ⟨added, _, ha⟩ := BuildAttrs_frame env kernel.attribute_defs ins attrs
                  default_attrs sig.attr_names 0 s2
                rw [ha]
                exact ⟨ev, by simp [t1, f2], hev⟩

/-- Claim C8.  For a declared output argument `i` whose name is not a key of `outs`:
the turn of the output loop for it appends exactly one null slot and records the range
`[k, k + 1)`, changes neither the heap nor the recorded calls and throws nothing; no
build records a tensor reset for argument `i`; and in the state a completed build from
an empty context leaves, range `i` is `[k, k + 1)` with `k = 0` for `i = 0` and the end of
range `i - 1` otherwise, and slot `k` of the flat output list is null. -/
theorem BuildDygraphPtenKernelContext_optional_output (env : Env) (sig : KernelSignature)
    (kernel : KernelArgsDef) (ins : NameVarMap VarId) (outs : NameVarMap (Option VarId))
    (attrs default_attrs : AttributeMap) (dev_ctx : Nat) (s0 : BuildState)
    (i : Nat) (name : String) (hname : sig.output_names[i]? = some name)
    (habs : name ∉ AssocKeys outs) :
    (∀ s : BuildState, s.kernel_ctx.output_range_.length = i →
      BuildOutput env kernel.output_defs outs name i s =
        ⟨{ s with kernel_ctx :=
            { s.kernel_ctx with
              outputs_ := s.kernel_ctx.outputs_ ++ [none]
              output_range_ := s.kernel_ctx.output_range_ ++
                [(RangeEnd s.kernel_ctx.output_range_,
                  RangeEnd s.kernel_ctx.output_range_ + 1)] } }, none⟩) ∧
    (∀ off, Event.ResetTensorByArgDef i off ∈
        (BuildDygraphPtenKernelContext env sig kernel ins outs attrs default_attrs dev_ctx
          s0).state.trace → Event.ResetTensorByArgDef i off ∈ s0.trace) ∧
    (s0.kernel_ctx = KernelContext.empty →
      (BuildDygraphPtenKernelContext env sig kernel ins outs attrs default_attrs dev_ctx
        s0).error = none →
      ∃ k,
        (BuildDygraphPtenKernelContext env sig kernel ins outs attrs default_attrs dev_ctx
          s0).state.kernel_ctx.output_range_[i]? = some (k, k + 1) ∧
        k = (if i = 0 then 0 else
          (((BuildDygraphPtenKernelContext env sig kernel ins outs attrs default_attrs dev_ctx
            s0).state.kernel_ctx.output_range_[i - 1]?).map Prod.snd).getD 0) ∧
        (BuildDygraphPtenKernelContext env sig kernel ins outs attrs default_attrs dev_ctx
          s0).state.kernel_ctx.outputs_[k]? = some none) := by
  have hfind : AssocFind name outs = none := (AssocFind_eq_none_iff name outs).2 habs
  refine ⟨fun s hs => BuildOutput_absent env kernel.output_defs outs name i s hfind hs, ?_, ?_⟩
  · intro off hmem
    obtain ⟨ev, k1, k2⟩ := BuildDygraphPtenKernelContext_trace env sig kernel ins outs attrs
      default_attrs dev_ctx s0
    rw [k1] at hmem
    rcases List.mem_append.1 hmem with h | h
    · exact h
    · obtain ⟨j, off2, nm, q1, q3, q4⟩ := k2 _ h
      injection q1 with qi qo
      subst qi
      rw [hname] at q3
      injection q3 with q3
      subst q3
      rw [hfind] at q4
      simp at q4
  · intro hempty hbuild
    obtain ⟨s1, s2, r1, r2, r3⟩ := BuildDygraphPtenKernelContext_completed env sig kernel ins
      outs attrs default_attrs dev_ctx s0 hbuild
    obtain ⟨_, _, f3, f4⟩ := BuildInputs_frame ins sig.input_names 0
      { s0 with kernel_ctx := { s0.kernel_ctx with dev_ctx_ := some dev_ctx } }
    rw [r1] at f3 f4
    simp only at f3 f4
    have hr0 : s1.kernel_ctx.output_range_ = [] := by rw [f4, hempty]; rfl
    have ho0 : s1.kernel_ctx.outputs_ = [] := by rw [f3, hempty]; rfl
    obtain ⟨k1, k2⟩ := BuildOutputs_ok env kernel.output_defs outs sig.output_names 0 s1
      (by rw [hr0]; rfl) (by rw [r2])
    rw [r2] at k1 k2
    simp only at k1 k2
    rw [ho0, List.nil_append] at k1
    have hr1 : RangeEnd ([] : List (Nat × Nat)) = 0 := rfl
    rw [hr0, List.nil_append, hr1] at k2
    obtain ⟨added, _, ha⟩ := BuildAttrs_frame env kernel.attribute_defs ins attrs default_attrs
      sig.attr_names 0 s2
    have houts : (BuildDygraphPtenKernelContext env sig kernel ins outs attrs default_attrs
        dev_ctx s0).state.kernel_ctx.outputs_ = s2.kernel_ctx.outputs_ := by
      rw [r3, ha]
    have hranges : (BuildDygraphPtenKernelContext env sig kernel ins outs attrs default_attrs
        dev_ctx s0).state.kernel_ctx.output_range_ = s2.kernel_ctx.output_range_ := by
      rw [r3, ha]
    have k2b : s2.kernel_ctx.output_range_ =
        CumulativeRanges ([] : List (Option VarId)).length
          ((sig.output_names.map (OutputSlots outs)).map List.length) := by
      rw [k2, List.map_map]
      rfl
    have hgi : (sig.output_names.map (OutputSlots outs))[i]? = some [none] := by
      rw [List.getElem?_map, hname]
      simp [OutputSlots, hfind]
    obtain ⟨start, q1, q2, q3⟩ := CumulativeRanges_slice
      (sig.output_names.map (OutputSlots outs)) [] i _ hgi
    rw [← k2b, ← hranges] at q1 q2
    rw [List.nil_append, ← k1, ← houts] at q3
    exact ⟨start, by simpa using q1, by simpa using q2,
      getElem?_of_drop_take_one _ _ _ (by simpa using q3)⟩

/-- Claim C8 at a signature whose second output `XShape` is absent from the outputs:
the build completes, the flat output list is `[out, null]` and the ranges are `[0, 1)`
and `[1, 2)`. -/
theorem BuildDygraphPtenKernelContext_optional_output_witness :
    (Sample.optSig.output_names[1]? = some "XShape" ∧ "XShape" ∉ AssocKeys Sample.addOuts) ∧
    (∀ off, Event.ResetTensorByArgDef 1 off ∈
        (BuildDygraphPtenKernelContext Sample.env Sample.optSig Sample.optKernel Sample.addIns
          Sample.addOuts [] [] 0 Sample.build0).state.trace →
        Event.ResetTensorByArgDef 1 off ∈ Sample.build0.trace) ∧
    (BuildDygraphPtenKernelContext Sample.env Sample.optSig Sample.optKernel Sample.addIns
      Sample.addOuts [] [] 0 Sample.build0).error = none ∧
    (BuildDygraphPtenKernelContext Sample.env Sample.optSig Sample.optKernel Sample.addIns
      Sample.addOuts [] [] 0 Sample.build0).state.kernel_ctx.outputs_ = [some 2, none] ∧
    (BuildDygraphPtenKernelContext Sample.env Sample.optSig Sample.optKernel Sample.addIns
      Sample.addOuts [] [] 0 Sample.build0).state.kernel_ctx.output_range_ = [(0, 1), (1, 2)] :=
  ⟨⟨by decide, by decide⟩,
    (BuildDygraphPtenKernelContext_optional_output Sample.env Sample.optSig Sample.optKernel
      Sample.addIns Sample.addOuts [] [] 0 Sample.build0 1 "XShape" (by decide) (by decide)).2.1,
    by decide, by decide, by decide⟩

/-! ### BuildDygraphPtenKernelContext: one turn of a completed attribute loop -/

/-- In an attribute loop that completes, the turn of argument `k` ran without error from
a state with the heap of the start, and what it left in the attributes of the context is
an initial part of the final attributes. -/
theorem BuildAttrs_turn (env : Env) (attr_defs : List AttributeArgDef)
    (ins : NameVarMap VarId) (attrs default_attrs : AttributeMap) (names : List String)
    (i : Nat) (s : BuildState) (k : Nat) (name : String) (arg_def : AttributeArgDef)
    (hok : (BuildAttrs env attr_defs ins attrs default_attrs names i s).error = none)
    (hname : names[k]? = some name) (hdef : attr_defs[i + k]? = some arg_def) :
    ∃ (sk : BuildState) (more : List KernelAttr), sk.heap = s.heap ∧
      (BuildAttr env ins attrs default_attrs name arg_def sk).error = none ∧
      (BuildAttrs env attr_defs ins attrs default_attrs names i s).state.kernel_ctx.attrs_ =
        (BuildAttr env ins attrs default_attrs name arg_def sk).state.kernel_ctx.attrs_ ++
          more := by
  induction names generalizing i s k with
  | nil => simp at hname
  | cons n rest ih =>
    cases k with
    | zero =>
      simp only [List.getElem?_cons_zero, Option.some.injEq] at hname
      subst hname
      rw [Nat.add_zero] at hdef
      revert hok
      simp only [BuildAttrs, hdef]
      cases hr : BuildAttr env ins attrs default_attrs n arg_def s with
      | mk s1 e =>
        cases e with
        | some e => simp
        | none =>
          simp only []
          intro _
          obtain ⟨added, _, hfr⟩ := BuildAttrs_frame env attr_defs ins attrs default_attrs rest
            (i + 1) s1
          refine ⟨s, added, rfl, ?_, ?_⟩
          · rw [hr]
          · rw [hfr, hr]
    | succ k =>
      simp only [List.getElem?_cons_succ] at hname
      revert hok
      simp only [BuildAttrs]
      cases hd : attr_defs[i]? with
      | none => simp
      | some d =>
        simp only []
        have hheap := BuildAttr_heap env ins attrs default_attrs n d s
        cases hr : BuildAttr env ins attrs default_attrs n d s with
        | mk s1 e =>
          rw [hr] at hheap
          simp only at hheap
          cases e with
          | some e => simp
          | none =>
            simp only []
            intro hok
            obtain ⟨sk, more, h1, h2, h3⟩ :=
              ih (i + 1) s1 k hok hname (by rw [← hdef]; congr 1; omega)
            exact ⟨sk, more, h1.trans hheap, h2, h3⟩

/-- The view of a completed build from the turn of attribute argument `k`. -/
theorem BuildDygraphPtenKernelContext_turn (env : Env) (sig : KernelSignature)
    (kernel : KernelArgsDef) (ins : NameVarMap VarId) (outs : NameVarMap (Option VarId))
    (attrs default_attrs : AttributeMap) (dev_ctx : Nat) (s0 : BuildState) (k : Nat)
    (name : String) (arg_def : AttributeArgDef)
    (hok : (BuildDygraphPtenKernelContext env sig kernel ins outs attrs default_attrs dev_ctx
      s0).error = none)
    (hname : sig.attr_names[k]? = some name)
    (hdef : kernel.attribute_defs[k]? = some arg_def) :
    ∃ (sk : BuildState) (more : List KernelAttr),
      sk.heap = (BuildDygraphPtenKernelContext env sig kernel ins outs attrs default_attrs
        dev_ctx s0).state.heap ∧
      (BuildAttr env ins attrs default_attrs name arg_def sk).error = none ∧
      (BuildDygraphPtenKernelContext env sig kernel ins outs attrs default_attrs dev_ctx
        s0).state.kernel_ctx.attrs_ =
        (BuildAttr env ins attrs default_attrs name arg_def sk).state.kernel_ctx.attrs_ ++
          more := by
  obtain ⟨s1, s2, _, _, hrun⟩ := BuildDygraphPtenKernelContext_completed env sig kernel ins
    outs attrs default_attrs dev_ctx s0 hok
  rw [hrun] at hok ⊢
  obtain ⟨sk, more, h1, h2, h3⟩ := BuildAttrs_turn env kernel.attribute_defs ins attrs
    default_attrs sig.attr_names 0 s2 k name arg_def hok hname
    (by rw [Nat.zero_add]; exact hdef)
  refine ⟨sk, more, ?_, h2, h3⟩
  rw [BuildAttrs_heap]
  exact h1

/-! ### BuildDygraphPtenKernelContext: attributes declared as Scalar -/

/-- The scalar branch on a name that is a key of `attrs` or of `default_attrs`: the
stored attribute `GetAttr` returns decides the result. -/
theorem BuildScalarAttr_present (h : Heap) (ins : NameVarMap VarId)
    (attrs default_attrs : AttributeMap) (name : String)
    (hin : name ∈ AssocKeys attrs ∨ name ∈ AssocKeys default_attrs) :
    ∃ v, GetAttr attrs default_attrs name = .ok v ∧
      (AssocFind name attrs = some v ∨
        (AssocFind name attrs = none ∧ AssocFind name default_attrs = some v)) ∧
      BuildScalarAttr h ins attrs default_attrs name =
        (match ScalarOfAttribute v with
         | some a => .ok (.Scalar a)
         | none => .error (.Unimplemented name)) := by
  have hcond : ((AssocFind name attrs).isSome || (AssocFind name default_attrs).isSome) = true := by
    rcases hin with hin | hin
    · simp [(AssocFind_isSome_iff name attrs).2 hin]
    · simp [(AssocFind_isSome_iff name default_attrs).2 hin]
  have hget : ∃ v, GetAttr attrs default_attrs name = .ok v ∧
      (AssocFind name attrs = some v ∨
        (AssocFind name attrs = none ∧ AssocFind name default_attrs = some v)) := by
    cases ha : AssocFind name attrs with
    | some v => exact ⟨v, GetAttr_of_attrs attrs default_attrs name v ha, Or.inl rfl⟩
    | none =>
      cases hd : AssocFind name default_attrs with
      | some v => exact ⟨v, GetAttr_of_default attrs default_attrs name v ha hd, Or.inr ⟨rfl, rfl⟩⟩
      | none => simp [ha, hd] at hcond
  obtain ⟨v, hv, hwhere⟩ := hget
  refine ⟨v, hv, hwhere, ?_⟩
  simp only [BuildScalarAttr, hcond, if_true, hv]
  cases v <;> rfl

/-- The scalar branch on a name in neither attribute map whose input group has a first
element: the scalar is built from the variable of that element. -/
theorem BuildScalarAttr_fallback (h : Heap) (ins : NameVarMap VarId)
    (attrs default_attrs : AttributeMap) (name : String) (v : VarId) (rest : List VarId)
    (ha : name ∉ AssocKeys attrs) (hd : name ∉ AssocKeys default_attrs)
    (hg : AssocFind name ins = some (v :: rest)) :
    BuildScalarAttr h ins attrs default_attrs name =
      .ok (.Scalar (.MakePtenScalarFromVar (h v).var_)) := by
  simp [BuildScalarAttr, (AssocFind_eq_none_iff name attrs).2 ha,
    (AssocFind_eq_none_iff name default_attrs).2 hd, hg]

/-- The conversion of an `int` to `int64_t` keeps the value of every 32-bit integer. -/
theorem Int32ToInt64_eq (x : Int) (hlo : -2147483648 ≤ x) (hhi : x < 2147483648) :
    Int32ToInt64 x = x := by
  simp only [Int32ToInt64]
  split_ifs <;> omega

theorem map_Int32ToInt64_eq (xs : List Int)
    (hrange : ∀ x ∈ xs, -2147483648 ≤ x ∧ x < 2147483648) :
    xs.map Int32ToInt64 = xs := by
  induction xs with
  | nil => rfl
  | cons x rest ih =>
    rw [List.map_cons, Int32ToInt64_eq x (hrange x (by simp)).1 (hrange x (by simp)).2,
      ih (fun y hy => hrange y (by simp [hy]))]

/-- Claim C12.  For an attribute argument declared as a vector of `int64_t` whose stored
attribute, looked up with `GetAttr`, is a vector `xs` of 32-bit ints: the turn appends
exactly one attribute, a vector `ys` of 64-bit integers of the same length with
`ys[j] = xs[j]` as integers for every `j`, and throws nothing; and every build that
completes holds that vector among the attributes of the context. -/
theorem BuildAttr_vector_int64 (env : Env) (ins : NameVarMap VarId)
    (attrs default_attrs : AttributeMap) (name : String) (arg_def : AttributeArgDef)
    (xs : List Int)
    (hdef : arg_def.type_index = .vector_int64)
    (hget : GetAttr attrs default_attrs name = .ok (.ints xs))
    (hrange : ∀ x ∈ xs, -2147483648 ≤ x ∧ x < 2147483648) :
    ∃ ys : List Int,
      (∀ s : BuildState, BuildAttr env ins attrs default_attrs name arg_def s =
        ⟨EmplaceBackAttr s (.vector_int64 ys), none⟩) ∧
      ys.length = xs.length ∧
      (∀ j : Nat, ys[j]? = xs[j]?) ∧
      (∀ (sig : KernelSignature) (kernel : KernelArgsDef)
        (outs : NameVarMap (Option VarId)) (dev_ctx : Nat) (s0 : BuildState) (k : Nat),
        sig.attr_names[k]? = some name → kernel.attribute_defs[k]? = some arg_def →
        (BuildDygraphPtenKernelContext env sig kernel ins outs attrs default_attrs dev_ctx
          s0).error = none →
        KernelAttr.vector_int64 ys ∈ (BuildDygraphPtenKernelContext env sig kernel ins outs
          attrs default_attrs dev_ctx s0).state.kernel_ctx.attrs_) := by
  have hturn : ∀ s : BuildState, BuildAttr env ins attrs default_attrs name arg_def s =
      ⟨EmplaceBackAttr s (.vector_int64 (xs.map Int32ToInt64)), none⟩ := by
    intro s
    simp [BuildAttr, hdef, BuildPlainAttr, hget, EmplaceBackAttr]
  refine ⟨xs.map Int32ToInt64, hturn, by simp, ?_, ?_⟩
  · intro j
    rw [map_Int32ToInt64_eq xs hrange]
  · intro sig kernel outs dev_ctx s0 k hname hkdef hok
    obtain ⟨sk, more, _, _, h3⟩ := BuildDygraphPtenKernelContext_turn env sig kernel ins outs
      attrs default_attrs dev_ctx s0 k name arg_def hok hname hkdef
    rw [h3, hturn sk]
    simp [EmplaceBackAttr]

/-- Claim C12 at a concrete input: the stored vector of ints `[2, -3, 2147483647,
-2147483648]` of `shape` is appended as the vector of 64-bit integers with the same four
values. -/
theorem BuildAttr_vector_int64_witness :
    (AttributeArgDef.mk .vector_int64).type_index = .vector_int64 ∧
    GetAttr [("shape", .ints [2, -3, 2147483647, -2147483648])] [] "shape" =
      .ok (.ints [2, -3, 2147483647, -2147483648]) ∧
    (∃ ys : List Int,
      (∀ s : BuildState, BuildAttr Sample.env Sample.xIns
          [("shape", .ints [2, -3, 2147483647, -2147483648])] [] "shape" ⟨.vector_int64⟩ s =
        ⟨EmplaceBackAttr s (.vector_int64 ys), none⟩) ∧
      ys.length = [2, -3, 2147483647, -2147483648].length ∧
      (∀ j : Nat, ys[j]? = ([2, -3, 2147483647, -2147483648] : List Int)[j]?) ∧
      (∀ (sig : KernelSignature) (kernel : KernelArgsDef)
        (outs : NameVarMap (Option VarId)) (dev_ctx : Nat) (s0 : BuildState) (k : Nat),
        sig.attr_names[k]? = some "shape" →
        kernel.attribute_defs[k]? = some ⟨.vector_int64⟩ →
        (BuildDygraphPtenKernelContext Sample.env sig kernel Sample.xIns outs
          [("shape", .ints [2, -3, 2147483647, -2147483648])] [] dev_ctx s0).error = none →
        KernelAttr.vector_int64 ys ∈ (BuildDygraphPtenKernelContext Sample.env sig kernel
          Sample.xIns outs [("shape", .ints [2, -3, 2147483647, -2147483648])] [] dev_ctx
          s0).state.kernel_ctx.attrs_)) ∧
    (BuildDygraphPtenKernelContext Sample.env Sample.shapeSig Sample.vectorKernel Sample.xIns
      Sample.addOuts [("shape", .ints [2, -3, 2147483647, -2147483648])] [] 0
      Sample.build0).state.kernel_ctx.attrs_ =
        [.vector_int64 [2, -3, 2147483647, -2147483648]] :=
  ⟨rfl, by decide,
    BuildAttr_vector_int64 Sample.env Sample.xIns
      [("shape", .ints [2, -3, 2147483647, -2147483648])] [] "shape" ⟨.vector_int64⟩
      [2, -3, 2147483647, -2147483648] rfl (by decide) (by decide),
    by decide⟩

/-! ### BuildDygraphPtenKernelContext: attributes without a coercion -/

/-- A declared type that is none of the ones the attribute loop knows: the turn throws
`Unimplemented` naming the argument and appends nothing. -/
theorem BuildAttr_other (env : Env) (ins : NameVarMap VarId)
    (attrs default_attrs : AttributeMap) (name : String) (id : Nat) (v : Attribute)
    (s : BuildState) (hget : GetAttr attrs default_attrs name = .ok v) :
    BuildAttr env ins attrs default_attrs name ⟨.other id⟩ s =
      ⟨s, some (.Unimplemented name)⟩ := by
  simp [BuildAttr, BuildPlainAttr, hget]

/-- A declared vector of `int64_t` whose stored attribute is not a vector of ints: the
turn appends nothing and throws nothing (lines 379-389). -/
theorem BuildAttr_vector_int64_skip (env : Env) (ins : NameVarMap VarId)
    (attrs default_attrs : AttributeMap) (name : String) (v : Attribute) (s : BuildState)
    (hget : GetAttr attrs default_attrs name = .ok v) (hv : ∀ xs, v ≠ .ints xs) :
    BuildAttr env ins attrs default_attrs name ⟨.vector_int64⟩ s = ⟨s, none⟩ := by
  cases v with
  | ints xs => exact absurd rfl (hv xs)
  | _ => simp [BuildAttr, BuildPlainAttr, hget]

/-- Claim C13, the code at the failing input.  The first half of the claim holds: for a
declared type that is none of int, float, bool, data type and vector of `int64_t`, the
turn of a present attribute throws `Unimplemented` naming the argument.  The second half
fails: for a declared vector of `int64_t` whose stored attribute is anything but a
vector of ints, the turn appends nothing and throws nothing, so that the build of
`shape`, stored as the vector of int64 `[2, 3]`, completes without error with no
attribute in the context: the argument was skipped. -/
theorem BuildDygraphPtenKernelContext_vector_int64_skipped :
    (∀ (env : Env) (ins : NameVarMap VarId) (attrs default_attrs : AttributeMap)
      (name : String) (id : Nat) (v : Attribute) (s : BuildState),
      GetAttr attrs default_attrs name = .ok v →
      BuildAttr env ins attrs default_attrs name ⟨.other id⟩ s =
        ⟨s, some (.Unimplemented name)⟩) ∧
    (∀ (env : Env) (ins : NameVarMap VarId) (attrs default_attrs : AttributeMap)
      (name : String) (v : Attribute) (s : BuildState),
      GetAttr attrs default_attrs name = .ok v → (∀ xs, v ≠ .ints xs) →
      BuildAttr env ins attrs default_attrs name ⟨.vector_int64⟩ s = ⟨s, none⟩) ∧
    (BuildDygraphPtenKernelContext Sample.env Sample.shapeSig Sample.otherKernel Sample.xIns
      Sample.addOuts [("shape", .longs [2, 3])] [] 0 Sample.build0).error =
        some (.Unimplemented "shape") ∧
    (BuildDygraphPtenKernelContext Sample.env Sample.shapeSig Sample.vectorKernel Sample.xIns
      Sample.addOuts [("shape", .longs [2, 3])] [] 0 Sample.build0).error = none ∧
    (BuildDygraphPtenKernelContext Sample.env Sample.shapeSig Sample.vectorKernel Sample.xIns
      Sample.addOuts [("shape", .longs [2, 3])] [] 0 Sample.build0).state.kernel_ctx.attrs_ =
        [] ∧
    (BuildDygraphPtenKernelContext Sample.env Sample.shapeSig Sample.vectorKernel Sample.xIns
      Sample.addOuts [("shape", .float 3)] [] 0 Sample.build0).error = none ∧
    (BuildDygraphPtenKernelContext Sample.env Sample.shapeSig Sample.vectorKernel Sample.xIns
      Sample.addOuts [("shape", .float 3)] [] 0 Sample.build0).state.kernel_ctx.attrs_ =
        [] := by
  refine ⟨?_, ?_, ?_, ?_, ?_, ?_, ?_⟩
  · intro env ins attrs default_attrs name id v s hget
    exact BuildAttr_other env ins attrs default_attrs name id v s hget
  · intro env ins attrs default_attrs name v s hget hv
    exact BuildAttr_vector_int64_skip env ins attrs default_attrs name v s hget hv
  all_goals decide

/-! ### BuildDygraphPtenKernelContext: the kinds of the output variables -/

theorem range_start_ok (ranges : List (Nat × Nat)) (i : Nat) (h : i ≤ ranges.length) :
    ∃ start, (if i = 0 then (Except.ok 0 : Except Error Nat) else RangeEndAt ranges (i - 1)) =
      .ok start := by
  by_cases hi : i = 0
  · exact ⟨0, by simp [hi]⟩
  · have hlt : i - 1 < ranges.length := by omega
    refine ⟨(ranges[i - 1]).2, ?_⟩
    simp [hi, RangeEndAt, List.getElem?_eq_getElem hlt]

theorem AssignRange_le (range : Nat × Nat) (ranges : List (Nat × Nat)) (i : Nat)
    (h : i ≤ ranges.length) :
    ∃ rs, AssignRange range i ranges = .ok rs ∧ i + 1 ≤ rs.length := by
  by_cases hi : i < ranges.length
  · refine ⟨ranges.set i range, by simp [AssignRange, hi], ?_⟩
    rw [List.length_set]
    omega
  · have he : i = ranges.length := by omega
    refine ⟨ranges ++ [range], by simp [AssignRange, he], ?_⟩
    rw [List.length_append]
    simp
    omega

/-- A turn of the input loop on a name of `ins` throws nothing, whatever ranges the
context already holds. -/
theorem BuildInput_completes (ins : NameVarMap VarId) (name : String) (i : Nat)
    (s : BuildState) (hkey : name ∈ AssocKeys ins)
    (hlen : i ≤ s.kernel_ctx.input_range_.length) :
    ∃ s1, BuildInput ins name i s = ⟨s1, none⟩ ∧ i + 1 ≤ s1.kernel_ctx.input_range_.length := by
  obtain ⟨g, hg⟩ := AssocFind_of_mem name ins hkey
  obtain ⟨start, hs⟩ := range_start_ok s.kernel_ctx.input_range_ i hlen
  obtain ⟨rs, hr, hl⟩ := AssignRange_le (start, start + g.length) s.kernel_ctx.input_range_ i hlen
  refine ⟨{ s with kernel_ctx :=
      { s.kernel_ctx with
        inputs_ := s.kernel_ctx.inputs_ ++ g.map (TensorPointer s.heap)
        input_range_ := rs } }, ?_, hl⟩
  simp only [BuildInput, hg, hs, hr]

theorem BuildInputs_completes (ins : NameVarMap VarId) (names : List String) (i : Nat)
    (s : BuildState) (hkeys : ∀ n ∈ names, n ∈ AssocKeys ins)
    (hlen : i ≤ s.kernel_ctx.input_range_.length) :
    (BuildInputs ins names i s).error = none := by
  induction names generalizing i s with
  | nil => rfl
  | cons n rest ih =>
    obtain ⟨s1, h1, hl⟩ := BuildInput_completes ins n i s (hkeys n (by simp)) hlen
    simp only [BuildInputs, h1]
    exact ih (i + 1) s1 (fun m hm => hkeys m (by simp [hm])) hl

/-- The loop over the elements of an output group keeps the kind of every variable. -/
theorem BuildOutputElems_kind (env : Env) (defs : List TensorArgDef) (i offset : Nat)
    (g : List (Option VarId)) (s : BuildState) (j : VarId) :
    ((BuildOutputElems env defs i offset g s).state.heap j).var_.IsTypeLoDTensor =
      (s.heap j).var_.IsTypeLoDTensor := by
  induction g generalizing offset s with
  | nil => rfl
  | cons e rest ih =>
    cases e with
    | none =>
      simp only [BuildOutputElems]
      rw [ih]
    | some id =>
      simp only [BuildOutputElems]
      cases hv : (s.heap id).var_ with
      | LoDTensor t =>
        simp only []
        cases hd : defs[i]? with
        | none => rfl
        | some d =>
          simp only []
          rw [ih]
          simp only [Heap.set]
          by_cases hj : j = id
          · subst hj
            simp [hv, Variable.IsTypeLoDTensor]
          · simp [hj]
      | _ => rfl

/-- When the loop over the elements of an output group completes, every non-null element
held a dense tensor at the start. -/
theorem BuildOutputElems_dense (env : Env) (defs : List TensorArgDef) (i offset : Nat)
    (g : List (Option VarId)) (s : BuildState)
    (hok : (BuildOutputElems env defs i offset g s).error = none) (id : VarId)
    (hid : some id ∈ g) : (s.heap id).var_.IsTypeLoDTensor = true := by
  induction g generalizing offset s with
  | nil => simp at hid
  | cons e rest ih =>
    cases e with
    | none =>
      simp only [BuildOutputElems] at hok
      have hmem : some id ∈ rest := by simpa using hid
      have h := ih _ _ hok hmem
      exact h
    | some id1 =>
      revert hok
      simp only [BuildOutputElems]
      cases hv : (s.heap id1).var_ with
      | LoDTensor t =>
        simp only []
        cases hd : defs[i]? with
        | none => simp
        | some d =>
          simp only []
          intro hok
          rcases List.mem_cons.1 hid with h1 | h1
          · injection h1 with h1
            subst h1
            simp [hv, Variable.IsTypeLoDTensor]
          · have := ih _ _ hok h1
            simp only [Heap.set] at this
            by_cases hj : id = id1
            · subst hj
              simp [hv, Variable.IsTypeLoDTensor]
            · simpa [hj] using this
      | _ => simp

/-- With a descriptor for argument `i`, the loop over the elements of an output group
fails with the unsupported-output error only, and it completes when every non-null
element holds a dense tensor. -/
theorem BuildOutputElems_error (env : Env) (defs : List TensorArgDef) (i offset : Nat)
    (g : List (Option VarId)) (s : BuildState) (d : TensorArgDef) (hd : defs[i]? = some d) :
    ((BuildOutputElems env defs i offset g s).error = none ∨
      (BuildOutputElems env defs i offset g s).error =
        some (.Unimplemented "Unsupported output type when call pt kernel.")) ∧
    ((∀ id, some id ∈ g → (s.heap id).var_.IsTypeLoDTensor = true) →
      (BuildOutputElems env defs i offset g s).error = none) := by
  induction g generalizing offset s with
  | nil => exact ⟨Or.inl rfl, fun _ => rfl⟩
  | cons e rest ih =>
    cases e with
    | none =>
      simp only [BuildOutputElems]
      obtain ⟨h1, h2⟩ := ih (offset + 1)
        { s with kernel_ctx := { s.kernel_ctx with outputs_ := s.kernel_ctx.outputs_ ++ [none] } }
      exact ⟨h1, fun hall => h2 (fun id hid => hall id (by simp [hid]))⟩
    | some id1 =>
      simp only [BuildOutputElems]
      cases hv : (s.heap id1).var_ with
      | LoDTensor t =>
        simp only [hd]
        obtain ⟨h1, h2⟩ := ih (offset + 1)
          { heap := s.heap.set id1 { s.heap id1 with
              var_ := Variable.LoDTensor (env.SetAllocationForOutputTenosr
                (env.ResetTensorByArgDef t d) (env.TransToFluidPlace d.backend)) }
            trace := s.trace ++ [Event.ResetTensorByArgDef i offset]
            kernel_ctx := { s.kernel_ctx with outputs_ := s.kernel_ctx.outputs_ ++ [some id1] } }
        refine ⟨h1, fun hall => h2 ?_⟩
        intro id hid
        simp only [Heap.set]
        by_cases hj : id = id1
        · simp [hj, Variable.IsTypeLoDTensor]
        · simpa [hj] using hall id (by simp [hid])
      | Empty =>
        refine ⟨Or.inr rfl, fun hall => ?_⟩
        have := hall id1 (by simp)
        simp [hv, Variable.IsTypeLoDTensor] at this
      | SelectedRows r =>
        refine ⟨Or.inr rfl, fun hall => ?_⟩
        have := hall id1 (by simp)
        simp [hv, Variable.IsTypeLoDTensor] at this
      | Other k =>
        refine ⟨Or.inr rfl, fun hall => ?_⟩
        have := hall id1 (by simp)
        simp [hv, Variable.IsTypeLoDTensor] at this

theorem BuildOutput_kind (env : Env) (defs : List TensorArgDef)
    (outs : NameVarMap (Option VarId)) (name : String) (i : Nat) (s : BuildState) (j : VarId) :
    ((BuildOutput env defs outs name i s).state.heap j).var_.IsTypeLoDTensor =
      (s.heap j).var_.IsTypeLoDTensor := by
  unfold BuildOutput
  split
  · rfl
  · split
    · simp only []
      split <;> rfl
    · rename_i outs_vector _
      have hk := BuildOutputElems_kind env defs i 0 outs_vector s j
      cases hr : BuildOutputElems env defs i 0 outs_vector s with
      | mk s1 e =>
        rw [hr] at hk
        simp only at hk
        cases e with
        | some e => exact hk
        | none =>
          simp only []
          split <;> exact hk

/-- When a turn of the output loop completes, every non-null element of its group held
a dense tensor at the start of the turn. -/
theorem BuildOutput_dense (env : Env) (defs : List TensorArgDef)
    (outs : NameVarMap (Option VarId)) (name : String) (i : Nat) (s : BuildState)
    (hok : (BuildOutput env defs outs name i s).error = none)
    (g : List (Option VarId)) (hg : AssocFind name outs = some g) (id : VarId)
    (hid : some id ∈ g) : (s.heap id).var_.IsTypeLoDTensor = true := by
  revert hok
  unfold BuildOutput
  split
  · simp
  · simp only [hg]
    cases hr : BuildOutputElems env defs i 0 g s with
    | mk s1 e =>
      cases e with
      | some e => simp
      | none =>
        intro _
        exact BuildOutputElems_dense env defs i 0 g s (by rw [hr]) id hid

/-- With a descriptor for argument `i` and the ranges of the earlier arguments recorded,
a turn of the output loop fails with the unsupported-output error only; it completes
when every non-null element of its group holds a dense tensor; and a completed turn
leaves the range of argument `i` recorded. -/
theorem BuildOutput_error (env : Env) (defs : List TensorArgDef)
    (outs : NameVarMap (Option VarId)) (name : String) (i : Nat) (s : BuildState)
    (d : TensorArgDef) (hd : defs[i]? = some d)
    (hlen : i ≤ s.kernel_ctx.output_range_.length) :
    ((BuildOutput env defs outs name i s).error = none ∨
      (BuildOutput env defs outs name i s).error =
        some (.Unimplemented "Unsupported output type when call pt kernel.")) ∧
    ((∀ g id, AssocFind name outs = some g → some id ∈ g →
        (s.heap id).var_.IsTypeLoDTensor = true) →
      (BuildOutput env defs outs name i s).error = none) ∧
    ((BuildOutput env defs outs name i s).error = none →
      i + 1 ≤ (BuildOutput env defs outs name i s).state.kernel_ctx.output_range_.length) := by
  obtain ⟨start, hs⟩ := range_start_ok s.kernel_ctx.output_range_ i hlen
  cases hf : AssocFind name outs with
  | none =>
    obtain ⟨rs, hr, hl⟩ := AssignRange_le (start, start + 1) s.kernel_ctx.output_range_ i hlen
    have hres : BuildOutput env defs outs name i s =
        ⟨{ s with kernel_ctx :=
            { s.kernel_ctx with
              outputs_ := s.kernel_ctx.outputs_ ++ [none]
              output_range_ := rs } }, none⟩ := by
      simp only [BuildOutput, hs, hf, hr]
    rw [hres]
    exact ⟨Or.inl rfl, fun _ => rfl, fun _ => hl⟩
  | some g =>
    obtain ⟨h1, h2⟩ := BuildOutputElems_error env defs i 0 g s d hd
    obtain ⟨_, _, h3, _⟩ := BuildOutputElems_ctx env defs i 0 g s
    cases hr : BuildOutputElems env defs i 0 g s with
    | mk s1 e =>
      rw [hr] at h1 h2 h3
      simp only at h1 h2 h3
      cases e with
      | some e =>
        have hres : BuildOutput env defs outs name i s = ⟨s1, some e⟩ := by
          simp only [BuildOutput, hs, hf, hr]
        rw [hres]
        refine ⟨h1, fun hall => ?_, fun hne => ?_⟩
        · exact h2 (fun id hid => hall g id rfl hid)
        · simp at hne
      | none =>
        obtain ⟨rs, hrs, hl⟩ := AssignRange_le (start, start + g.length)
          s1.kernel_ctx.output_range_ i (by rw [h3]; exact hlen)
        have hres : BuildOutput env defs outs name i s =
            ⟨{ s1 with kernel_ctx := { s1.kernel_ctx with output_range_ := rs } }, none⟩ := by
          simp only [BuildOutput, hs, hf, hr, hrs]
        rw [hres]
        exact ⟨Or.inl rfl, fun _ => rfl, fun _ => hl⟩

theorem BuildOutputs_kind (env : Env) (defs : List TensorArgDef)
    (outs : NameVarMap (Option VarId)) (names : List String) (i : Nat) (s : BuildState)
    (j : VarId) :
    ((BuildOutputs env defs outs names i s).state.heap j).var_.IsTypeLoDTensor =
      (s.heap j).var_.IsTypeLoDTensor := by
  induction names generalizing i s with
  | nil => rfl
  | cons n rest ih =>
    have hk := BuildOutput_kind env defs outs n i s j
    simp only [BuildOutputs]
    cases hr : BuildOutput env defs outs n i s with
    | mk s1 e =>
      rw [hr] at hk
      simp only at hk
      cases e with
      | some e => exact hk
      | none =>
        simp only []
        rw [ih, hk]

/-- When the output loop completes, every non-null element of every present group it
visited held a dense tensor at the start. -/
theorem BuildOutputs_dense (env : Env) (defs : List TensorArgDef)
    (outs : NameVarMap (Option VarId)) (names : List String) (i : Nat) (s : BuildState)
    (hok : (BuildOutputs env defs outs names i s).error = none) :
    OutputsDense s.heap outs names := by
  induction names generalizing i s with
  | nil =>
    intro name g id hname
    simp at hname
  | cons n rest ih =>
    revert hok
    simp only [BuildOutputs]
    cases hr : BuildOutput env defs outs n i s with
    | mk s1 e =>
      cases e with
      | some e => simp
      | none =>
        simp only []
        intro hok name g id hname hg hid
        rcases List.mem_cons.1 hname with h1 | h1
        · subst h1
          exact BuildOutput_dense env defs outs name i s (by rw [hr]) g hg id hid
        · have h2 := ih (i + 1) s1 hok name g id h1 hg hid
          have hk := BuildOutput_kind env defs outs n i s id
          rw [hr] at hk
          simp only at hk
          rw [← hk]
          exact h2

/-- With a descriptor for every argument and the ranges of the earlier arguments
recorded, the output loop fails with the unsupported-output error only, and it completes
when every non-null element of every present group holds a dense tensor. -/
theorem BuildOutputs_error (env : Env) (defs : List TensorArgDef)
    (outs : NameVarMap (Option VarId)) (names : List String) (i : Nat) (s : BuildState)
    (hdefs : i + names.length ≤ defs.length)
    (hlen : i ≤ s.kernel_ctx.output_range_.length) :
    ((BuildOutputs env defs outs names i s).error = none ∨
      (BuildOutputs env defs outs names i s).error =
        some (.Unimplemented "Unsupported output type when call pt kernel.")) ∧
    (OutputsDense s.heap outs names → (BuildOutputs env defs outs names i s).error = none) := by
  induction names generalizing i s with
  | nil => exact ⟨Or.inl rfl, fun _ => rfl⟩
  | cons n rest ih =>
    have hi : i < defs.length := by
      simp only [List.length_cons] at hdefs
      omega
    obtain ⟨a1, a2, a3⟩ := BuildOutput_error env defs outs n i s defs[i]
      (List.getElem?_eq_getElem hi) hlen
    simp only [BuildOutputs]
    cases hr : BuildOutput env defs outs n i s with
    | mk s1 e =>
      rw [hr] at a1 a2 a3
      simp only at a1 a2 a3
      cases e with
      | some e =>
        refine ⟨a1, fun hall => ?_⟩
        exact a2 (fun g id hg hid => hall n g id (by simp) hg hid)
      | none =>
        simp only []
        obtain ⟨b1, b2⟩ := ih (i + 1) s1
          (by simp only [List.length_cons] at hdefs; omega) (a3 rfl)
        refine ⟨b1, fun hall => b2 ?_⟩
        intro name g id hname hg hid
        have hk := BuildOutput_kind env defs outs n i s id
        rw [hr] at hk
        simp only at hk
        rw [hk]
        exact hall name g id (by simp [hname]) hg hid

theorem OutputSlots_length (outs : NameVarMap (Option VarId)) (name : String) :
    (OutputSlots outs name).length = OutputWidth outs name := by
  unfold OutputSlots OutputWidth
  cases AssocFind name outs <;> rfl

theorem getElem?_of_drop_take {α : Type} (l g : List α) (start w j : Nat)
    (h : (l.drop start).take w = g) (hj : j < w) : l[start + j]? = g[j]? := by
  rw [← h, List.getElem?_take_of_lt hj, List.getElem?_drop]

/-- Claim C18.  Starting from an empty kernel context, after every build that completes
the output ranges partition the flat output list (`OutputsPartitioned`): one range per
declared output name, range 0 starting at 0 and range `i` at the end of range `i - 1`,
of width 1 for an argument absent from `outs` and of the size of its group otherwise;
the end of the last range is the length of the flat output list; and slot `j` of range
`i` is null exactly when the argument is absent or element `j` of its group is null. -/
theorem BuildDygraphPtenKernelContext_output_ranges (env : Env) (sig : KernelSignature)
    (kernel : KernelArgsDef) (ins : NameVarMap VarId) (outs : NameVarMap (Option VarId))
    (attrs default_attrs : AttributeMap) (dev_ctx : Nat) (s0 : BuildState)
    (hempty : s0.kernel_ctx = KernelContext.empty)
    (hok : (BuildDygraphPtenKernelContext env sig kernel ins outs attrs default_attrs dev_ctx
      s0).error = none) :
    OutputsPartitioned outs sig.output_names
      (BuildDygraphPtenKernelContext env sig kernel ins outs attrs default_attrs dev_ctx
        s0).state.kernel_ctx := by
  obtain ⟨s1, s2, h1, h2, hrun⟩ := BuildDygraphPtenKernelContext_completed env sig kernel ins
    outs attrs default_attrs dev_ctx s0 hok
  obtain ⟨_, _, f1, f2⟩ := BuildInputs_frame ins sig.input_names 0
    { s0 with kernel_ctx := { s0.kernel_ctx with dev_ctx_ := some dev_ctx } }
  rw [h1] at f1 f2
  simp only [hempty, KernelContext.empty] at f1 f2
  obtain ⟨o1, o2⟩ := BuildOutputs_ok env kernel.output_defs outs sig.output_names 0 s1
    (by rw [f2]; rfl) (by rw [h2])
  rw [h2] at o1 o2
  simp only [f1, f2, List.nil_append] at o1 o2
  obtain ⟨added, _, hfr⟩ := BuildAttrs_frame env kernel.attribute_defs ins attrs default_attrs
    sig.attr_names 0 s2
  have hout : (BuildDygraphPtenKernelContext env sig kernel ins outs attrs default_attrs dev_ctx
      s0).state.kernel_ctx.outputs_ = Concat (sig.output_names.map (OutputSlots outs)) := by
    rw [hrun, hfr]
    exact o1
  have hrange : (BuildDygraphPtenKernelContext env sig kernel ins outs attrs default_attrs
      dev_ctx s0).state.kernel_ctx.output_range_ =
      CumulativeRanges 0 (sig.output_names.map fun n => (OutputSlots outs n).length) := by
    rw [hrun, hfr]
    exact o2
  have hrange2 : (BuildDygraphPtenKernelContext env sig kernel ins outs attrs default_attrs
      dev_ctx s0).state.kernel_ctx.output_range_ =
      CumulativeRanges ([] : List (Option VarId)).length
        ((sig.output_names.map (OutputSlots outs)).map List.length) := by
    rw [hrange, List.map_map]
    rfl
  refine ⟨?_, ?_, ?_⟩
  · rw [hrange, CumulativeRanges_length, List.length_map]
  · intro i name hname
    have hgi : (sig.output_names.map (OutputSlots outs))[i]? = some (OutputSlots outs name) := by
      rw [List.getElem?_map, hname]
      rfl
    obtain ⟨start, k1, k2, k3⟩ := CumulativeRanges_slice
      (sig.output_names.map (OutputSlots outs)) [] i _ hgi
    rw [← hrange2] at k1 k2
    rw [List.nil_append, ← hout] at k3
    rw [OutputSlots_length] at k1 k3
    refine ⟨start, k1, by simpa using k2, k3, ?_⟩
    intro j hj
    rw [getElem?_of_drop_take _ _ start _ j k3 hj]
    unfold OutputWidth at hj
    unfold OutputSlots
    cases hf : AssocFind name outs with
    | none =>
      rw [hf] at hj
      simp only at hj
      have hj0 : j = 0 := by omega
      simp [hj0]
    | some g => simp
  · have h := RangeEnd_append_cumulative []
      (sig.output_names.map fun n => (OutputSlots outs n).length)
    have h0 : RangeEnd [] = 0 := rfl
    rw [h0, List.nil_append, Nat.zero_add] at h
    rw [hrange, h, hout, Concat_length, List.map_map]
    rfl

/-- Claim C18 at a concrete input: the outputs `Out` (a null element and a variable),
`Mask` (absent) and `Aux` (one variable) give the ranges `[0, 2)`, `[2, 3)`, `[3, 4)`
over the flat list of the four slots, the slot of `Mask` and slot 0 of `Out` being
null. -/
theorem BuildDygraphPtenKernelContext_output_ranges_witness :
    Sample.build0.kernel_ctx = KernelContext.empty ∧
    (BuildDygraphPtenKernelContext Sample.env Sample.threeOutSig Sample.threeOutKernel
      Sample.xIns Sample.threeOuts [] [] 0 Sample.build0).error = none ∧
    OutputsPartitioned Sample.threeOuts Sample.threeOutSig.output_names
      (BuildDygraphPtenKernelContext Sample.env Sample.threeOutSig Sample.threeOutKernel
        Sample.xIns Sample.threeOuts [] [] 0 Sample.build0).state.kernel_ctx ∧
    (BuildDygraphPtenKernelContext Sample.env Sample.threeOutSig Sample.threeOutKernel
      Sample.xIns Sample.threeOuts [] [] 0 Sample.build0).state.kernel_ctx.output_range_ =
        [(0, 2), (2, 3), (3, 4)] ∧
    (BuildDygraphPtenKernelContext Sample.env Sample.threeOutSig Sample.threeOutKernel
      Sample.xIns Sample.threeOuts [] [] 0 Sample.build0).state.kernel_ctx.outputs_ =
        [none, some 2, none, some 2] :=
  ⟨by decide, by decide,
    BuildDygraphPtenKernelContext_output_ranges Sample.env Sample.threeOutSig
      Sample.threeOutKernel Sample.xIns Sample.threeOuts [] [] 0 Sample.build0 (by decide)
      (by decide),
    by decide, by decide⟩

/-! ### PreparePtenData -/

/-- An element whose tensor is absent, uninitialized or already on the expected place is
skipped: the state does not change. -/
theorem PreparePtenDataElem_skip (env : Env) (d : TensorArgDef) (i offset : Nat) (u : VarId)
    (s : State) (h : OnPlace env (env.TransToFluidPlace d.backend) (s.heap u)) :
    PreparePtenDataElem env d i offset u s = s := by
  unfold PreparePtenDataElem
  cases ht : GetTensorFromVar (s.heap u).var_ with
  | none => rfl
  | some t =>
    simp only []
    by_cases hi : t.initialized = true
    · simp [hi, h t ht hi]
    · simp [hi]

/-- The body of the inner loop changes no other variable. -/
theorem PreparePtenDataElem_frame (env : Env) (d : TensorArgDef) (i offset : Nat) (u : VarId)
    (s : State) (j : VarId) (hj : j ≠ u) :
    (PreparePtenDataElem env d i offset u s).heap j = s.heap j := by
  unfold PreparePtenDataElem
  cases ht : GetTensorFromVar (s.heap u).var_ with
  | none => rfl
  | some t =>
    simp only []
    split
    · split
      · rfl
      · simp [Heap.set, hj]
    · rfl

theorem GetTensorFromVar_SetTensorToVariable (var : Variable) (t tmp : Tensor)
    (h : GetTensorFromVar var = some t) :
    GetTensorFromVar (SetTensorToVariable var tmp var) = some tmp := by
  cases var with
  | LoDTensor x => rfl
  | SelectedRows x => rfl
  | Empty => simp [GetTensorFromVar] at h
  | Other k => simp [GetTensorFromVar] at h

/-- When the copy yields a tensor on its target place, the body of the inner loop leaves
the visited variable on the expected place. -/
theorem PreparePtenDataElem_place (env : Env) (d : TensorArgDef) (i offset : Nat) (u : VarId)
    (s : State)
    (hcopy : ∀ t p, env.is_same_place (env.TensorCopySync t p).place p = true) :
    OnPlace env (env.TransToFluidPlace d.backend)
      ((PreparePtenDataElem env d i offset u s).heap u) := by
  unfold PreparePtenDataElem
  cases ht : GetTensorFromVar (s.heap u).var_ with
  | none =>
    intro t h2 _
    rw [ht] at h2
    cases h2
  | some t =>
    simp only []
    cases hi : t.initialized with
    | true =>
      by_cases hp : env.is_same_place t.place (env.TransToFluidPlace d.backend) = true
      · intro t2 h2 _
        simp only [hp, if_true] at h2
        rw [ht] at h2
        injection h2 with h2
        rw [← h2]
        exact hp
      · intro t2 h2 _
        simp only [hp, if_true, if_false, Bool.false_eq_true, Heap.set] at h2
        rw [GetTensorFromVar_SetTensorToVariable _ t _ ht] at h2
        injection h2 with h2
        rw [← h2]
        exact hcopy _ _
    | false =>
      intro t2 h2 h3
      simp only [Bool.false_eq_true, if_false] at h2
      rw [ht] at h2
      injection h2 with h2
      rw [h2] at hi
      rw [hi] at h3
      cases h3

/-- The inner loop leaves alone a variable that every visit of the group finds settled. -/
theorem PreparePtenDataGroup_skip (env : Env) (d : TensorArgDef) (i offset : Nat)
    (g : List VarId) (s : State) (v : VarId)
    (h : v ∈ g → OnPlace env (env.TransToFluidPlace d.backend) (s.heap v)) :
    (PreparePtenDataGroup env d i offset g s).heap v = s.heap v := by
  induction g generalizing offset s with
  | nil => rfl
  | cons u rest ih =>
    simp only [PreparePtenDataGroup]
    by_cases hu : v = u
    · subst hu
      have hs := PreparePtenDataElem_skip env d i offset v s (h (by simp))
      rw [hs]
      exact ih (offset + 1) s (fun _ => h (by simp))
    · have hf := PreparePtenDataElem_frame env d i offset u s v hu
      rw [ih (offset + 1) _ (fun hm => by rw [hf]; exact h (by simp [hm])), hf]

/-- The inner loop leaves every variable of its group on the expected place. -/
theorem PreparePtenDataGroup_place (env : Env) (d : TensorArgDef) (i offset : Nat)
    (g : List VarId) (s : State) (v : VarId)
    (hcopy : ∀ t p, env.is_same_place (env.TensorCopySync t p).place p = true)
    (hv : v ∈ g) :
    OnPlace env (env.TransToFluidPlace d.backend)
      ((PreparePtenDataGroup env d i offset g s).heap v) := by
  induction g generalizing offset s with
  | nil => simp at hv
  | cons u rest ih =>
    simp only [PreparePtenDataGroup]
    by_cases hu : v = u
    · subst hu
      have hp := PreparePtenDataElem_place env d i offset v s hcopy
      rw [PreparePtenDataGroup_skip env d i (offset + 1) rest _ v (fun _ => hp)]
      exact hp
    · have hmem : v ∈ rest := by
        rcases List.mem_cons.1 hv with h1 | h1
        · exact absurd h1 hu
        · exact h1
      exact ih (offset + 1) _ hmem

/-- With a descriptor for every argument and every name a key of `ins`, the outer loop
returns. -/
theorem PreparePtenDataArgs_ok (env : Env) (defs : List TensorArgDef) (ins : NameVarMap VarId)
    (names : List String) (i : Nat) (s : State)
    (hdefs : i + names.length ≤ defs.length) (hkeys : ∀ n ∈ names, n ∈ AssocKeys ins) :
    ∃ s2, PreparePtenDataArgs env defs ins names i s = .ok s2 := by
  induction names generalizing i s with
  | nil => exact ⟨s, rfl⟩
  | cons n rest ih =>
    have hi : i < defs.length := by
      simp only [List.length_cons] at hdefs
      omega
    obtain ⟨g, hg⟩ := AssocFind_of_mem n ins (hkeys n (by simp))
    simp only [PreparePtenDataArgs, List.getElem?_eq_getElem hi, hg]
    exact ih (i + 1) _ (by simp only [List.length_cons] at hdefs; omega)
      (fun m hm => hkeys m (by simp [hm]))

/-- The outer loop leaves alone a variable that every visit finds settled. -/
theorem PreparePtenDataArgs_skip (env : Env) (defs : List TensorArgDef)
    (ins : NameVarMap VarId) (names : List String) (i : Nat) (s s2 : State) (v : VarId)
    (h : ∀ (k : Nat) (name : String) (d : TensorArgDef) (g : List VarId),
      names[k]? = some name → defs[i + k]? = some d → AssocFind name ins = some g → v ∈ g →
      OnPlace env (env.TransToFluidPlace d.backend) (s.heap v))
    (hrun : PreparePtenDataArgs env defs ins names i s = .ok s2) :
    s2.heap v = s.heap v := by
  induction names generalizing i s with
  | nil =>
    simp only [PreparePtenDataArgs] at hrun
    injection hrun with hrun
    rw [hrun]
  | cons n rest ih =>
    revert hrun
    simp only [PreparePtenDataArgs]
    cases hd : defs[i]? with
    | none => simp
    | some d0 =>
      cases hg : AssocFind n ins with
      | none => simp
      | some g0 =>
        simp only []
        intro hrun
        have h1 : (PreparePtenDataGroup env d0 i 0 g0 s).heap v = s.heap v :=
          PreparePtenDataGroup_skip env d0 i 0 g0 s v
            (fun hm => h 0 n d0 g0 (by simp) (by rw [Nat.add_zero]; exact hd) hg hm)
        rw [ih (i + 1) _ ?_ hrun, h1]
        intro k name d g hk hdk hgk hm
        rw [h1]
        exact h (k + 1) name d g (by simpa using hk)
          (by rw [← hdk]; congr 1; omega) hgk hm

/-- When the copy yields a tensor on its target place, the outer loop leaves on the place
`p` every variable it visits whose visits all expect `p`. -/
theorem PreparePtenDataArgs_place (env : Env) (defs : List TensorArgDef)
    (ins : NameVarMap VarId) (names : List String) (i : Nat) (s s2 : State) (v : VarId)
    (p : Nat)
    (hcopy : ∀ t p, env.is_same_place (env.TensorCopySync t p).place p = true)
    (hsame : ∀ (k : Nat) (name : String) (d : TensorArgDef) (g : List VarId),
      names[k]? = some name → defs[i + k]? = some d → AssocFind name ins = some g → v ∈ g →
      env.TransToFluidPlace d.backend = p)
    (hvisit : ∃ (k : Nat) (name : String) (d : TensorArgDef) (g : List VarId),
      names[k]? = some name ∧ defs[i + k]? = some d ∧ AssocFind name ins = some g ∧ v ∈ g)
    (hrun : PreparePtenDataArgs env defs ins names i s = .ok s2) :
    OnPlace env p (s2.heap v) := by
  induction names generalizing i s with
  | nil =>
    obtain ⟨k, name, d, g, hk, _⟩ := hvisit
    simp at hk
  | cons n rest ih =>
    revert hrun
    simp only [PreparePtenDataArgs]
    cases hd : defs[i]? with
    | none => simp
    | some d0 =>
      cases hg : AssocFind n ins with
      | none => simp
      | some g0 =>
        simp only []
        intro hrun
        have hrest : ∀ (k : Nat) (name : String) (d : TensorArgDef) (g : List VarId),
            rest[k]? = some name → defs[i + 1 + k]? = some d → AssocFind name ins = some g →
            v ∈ g → env.TransToFluidPlace d.backend = p := by
          intro k name d g hk hdk hgk hm
          exact hsame (k + 1) name d g (by simpa using hk)
            (by rw [← hdk]; congr 1; omega) hgk hm
        by_cases hv : v ∈ g0
        · have hp0 : env.TransToFluidPlace d0.backend = p :=
            hsame 0 n d0 g0 (by simp) (by rw [Nat.add_zero]; exact hd) hg hv
          have h1 := PreparePtenDataGroup_place env d0 i 0 g0 s v hcopy hv
          rw [hp0] at h1
          rw [PreparePtenDataArgs_skip env defs ins rest (i + 1) _ s2 v ?_ hrun]
          · exact h1
          · intro k name d g hk hdk hgk hm
            rw [hrest k name d g hk hdk hgk hm]
            exact h1
        · obtain ⟨k, name, d, g, hk, hdk, hgk, hm⟩ := hvisit
          cases k with
          | zero =>
            simp only [List.getElem?_cons_zero, Option.some.injEq] at hk
            subst hk
            rw [hg] at hgk
            injection hgk with hgk
            subst hgk
            exact absurd hm hv
          | succ k =>
            refine ih (i + 1) _ hrest ⟨k, name, d, g, by simpa using hk, ?_, hgk, hm⟩ hrun
            rw [← hdk]
            congr 1
            omega

/-- The events of one run of the loop body are about its slot. -/
theorem PrepareDataSlot_events (env : Env) (ins : NameVarMap VarId) (K : OpKernelType)
    (name : String) (i : Nat) (v : VarId) (s s2 : Loop)
    (hres : PrepareDataSlot env ins K name i v s = .ok s2) :
    ∃ ev, s2.trace = s.trace ++ ev ∧
      ∀ e ∈ ev, ∀ p, e.slot = some p → p = (name, i) := by
  obtain ⟨ev0, h0, hev0⟩ := SetForwardDataTypeOfGradVar_trace env v s
  have hgrad : ∀ e ∈ ev0, ∀ p, e.slot = some p → p = (name, i) := by
    intro e he p hp
    obtain ⟨g, d, hgd⟩ := hev0 e he
    rw [hgd] at hp
    simp [Event.slot] at hp
  have key : ∀ ev1 : List Event, (∀ e ∈ ev1, ∀ p, e.slot = some p → p = (name, i)) →
      s2.trace = (SetForwardDataTypeOfGradVar env v s).trace ++ ev1 →
      ∃ ev, s2.trace = s.trace ++ ev ∧ ∀ e ∈ ev, ∀ p, e.slot = some p → p = (name, i) := by
    intro ev1 h1 h2
    refine ⟨ev0 ++ ev1, by rw [h2, h0, List.append_assoc], ?_⟩
    intro e he p hp
    rcases List.mem_append.1 he with h | h
    · exact hgrad e h p hp
    · exact h1 e h p hp
  have hslot : ∀ e : Event, (e = Event.GetKernelTypeForVar name i ∨ e = Event.hasCacheKey name i ∨
      e = Event.getCacheValue name i ∨ e = Event.TransformData name i ∨
      e = Event.setCacheValue name i) → ∀ p, e.slot = some p → p = (name, i) := by
    intro e he p hp
    rcases he with h | h | h | h | h <;> rw [h] at hp <;>
      simp only [Event.slot, Option.some.injEq] at hp <;> exact hp.symm
  rcases PrepareDataSlot_cases env ins K name i v s with
    ⟨_, _, ev, hev, hr⟩ | ⟨_, _, _, _, _, _, _, hr⟩ | ⟨_, _, _, _, _, _, _, _, hr⟩ |
    ⟨_, _, _, _, _, _, hr⟩ | ⟨_, _, _, _, _, _, hr⟩
  · rw [hr] at hres
    injection hres with hres
    refine key ev ?_ (by rw [← hres])
    intro e he p hp
    exact hslot e (Or.inl (hev e he)) p hp
  · rw [hr] at hres
    cases hres
  · rw [hr] at hres
    injection hres with hres
    refine key _ ?_ (by rw [← hres])
    intro e he p hp
    refine hslot e ?_ p hp
    simp only [List.mem_cons, List.mem_singleton, List.not_mem_nil, or_false] at he
    rcases he with h | h | h <;> simp [h]
  · rw [hr] at hres
    injection hres with hres
    refine key _ ?_ (by rw [← hres])
    intro e he p hp
    refine hslot e ?_ p hp
    simp only [List.mem_cons, List.mem_singleton, List.not_mem_nil, or_false] at he
    rcases he with h | h | h | h <;> simp [h]
  · rw [hr] at hres
    injection hres with hres
    refine key _ ?_ (by rw [← hres])
    intro e he p hp
    refine hslot e ?_ p hp
    simp only [List.mem_cons, List.mem_singleton, List.not_mem_nil, or_false] at he
    rcases he with h | h | h <;> simp [h]

/-- The events of a run of the loop body over a list of slots are about these slots. -/
theorem PrepareDataSlots_events (env : Env) (ins : NameVarMap VarId) (K : OpKernelType)
    (l : List (String × Nat × VarId)) (s s2 : Loop)
    (hres : PrepareDataSlots env ins K l s = .ok s2) :
    ∃ ev, s2.trace = s.trace ++ ev ∧
      ∀ e ∈ ev, ∀ p, e.slot = some p → p ∈ SlotPositions l := by
  induction l generalizing s with
  | nil =>
    simp only [PrepareDataSlots] at hres
    injection hres with hres
    exact ⟨[], by rw [← hres]; simp, by simp⟩
  | cons sl rest ih =>
    obtain ⟨n, k, u⟩ := sl
    revert hres
    simp only [PrepareDataSlots]
    cases h1 : PrepareDataSlot env ins K n k u s with
    | error e => simp
    | ok s1 =>
      simp only []
      intro hres
      obtain ⟨ev1, t1, p1⟩ := PrepareDataSlot_events env ins K n k u s s1 h1
      obtain ⟨ev2, t2, p2⟩ := ih s1 hres
      refine ⟨ev1 ++ ev2, by rw [t2, t1, List.append_assoc], ?_⟩
      intro e he p hp
      rcases List.mem_append.1 he with h | h
      · rw [p1 e h p hp]
        simp [SlotPositions]
      · have := p2 e h p hp
        simp only [SlotPositions, List.map_cons, List.mem_cons]
        exact Or.inr this

/-- A run of the loop body over a list of slots, seen from one of its slots: the run over
the slots before it, the body on the slot, the run over the slots after it. -/
theorem PrepareDataSlots_split (env : Env) (ins : NameVarMap VarId) (K : OpKernelType)
    (l : List (String × Nat × VarId)) (s s2 : Loop)
    (hres : PrepareDataSlots env ins K l s = .ok s2)
    (name : String) (i : Nat) (v : VarId) (hmem : (name, i, v) ∈ l) :
    ∃ pre post sa sb, l = pre ++ (name, i, v) :: post ∧
      PrepareDataSlots env ins K pre s = .ok sa ∧
      PrepareDataSlot env ins K name i v sa = .ok sb ∧
      PrepareDataSlots env ins K post sb = .ok s2 := by
  induction l generalizing s with
  | nil => simp at hmem
  | cons sl rest ih =>
    obtain ⟨n, k, u⟩ := sl
    revert hres
    simp only [PrepareDataSlots]
    cases h1 : PrepareDataSlot env ins K n k u s with
    | error e => simp
    | ok s1 =>
      simp only []
      intro hres
      rcases List.mem_cons.1 hmem with h | h
      · injection h with hn h
        injection h with hk hu
        subst hn
        subst hk
        subst hu
        exact ⟨[], rest, s, s1, rfl, rfl, h1, hres⟩
      · obtain ⟨pre, post, sa, sb, hl, ha, hb, hc⟩ := ih s1 hres h
        refine ⟨(n, k, u) :: pre, post, sa, sb, by rw [hl]; rfl, ?_, hb, hc⟩
        simp only [PrepareDataSlots, h1]
        exact ha

/-! ### PrepareData: untouched slots -/

/-- The loop body on a variable without tensor, or with an uninitialized one: only the
forward data type is propagated. -/
theorem PrepareDataSlot_no_tensor (env : Env) (ins : NameVarMap VarId) (K : OpKernelType)
    (name : String) (i : Nat) (v : VarId) (s : Loop)
    (h : ∀ t, GetTensorFromVar (s.heap v).var_ = some t → t.initialized = false) :
    PrepareDataSlot env ins K name i v s = .ok (SetForwardDataTypeOfGradVar env v s) := by
  cases ht : GetTensorFromVar (s.heap v).var_ with
  | none => simp [PrepareDataSlot, SetForwardDataTypeOfGradVar_var, ht]
  | some t => simp [PrepareDataSlot, SetForwardDataTypeOfGradVar_var, ht, h t ht]

/-- The loop body on an initialized tensor that needs no transform: the forward data type
is propagated and the kernel type of the variable is asked for, nothing else. -/
theorem PrepareDataSlot_no_need (env : Env) (ins : NameVarMap VarId) (K : OpKernelType)
    (name : String) (i : Nat) (v : VarId) (s : Loop) (t : Tensor)
    (ht : GetTensorFromVar (s.heap v).var_ = some t) (hi : t.initialized = true)
    (hn : env.NeedTransform (env.GetKernelTypeForVar name t K) K = false) :
    PrepareDataSlot env ins K name i v s =
      .ok { SetForwardDataTypeOfGradVar env v s with
            trace := (SetForwardDataTypeOfGradVar env v s).trace ++
              [Event.GetKernelTypeForVar name i] } := by
  simp [PrepareDataSlot, SetForwardDataTypeOfGradVar_var, ht, hi, hn]

theorem not_mem_of_nodup_split {α β : Type} (f : α → β) (l pre post : List α) (x : α)
    (hl : l = pre ++ x :: post) (hn : (l.map f).Nodup) :
    f x ∉ pre.map f ∧ f x ∉ post.map f := by
  rw [hl, List.map_append, List.map_cons] at hn
  have h := (List.nodup_cons.1 (List.nodup_middle.1 hn)).1
  rw [List.mem_append] at h
  exact ⟨fun h1 => h (Or.inl h1), fun h2 => h (Or.inr h2)⟩

/-- A whole run of the loops seen from a slot whose variable holds no tensor, an
uninitialized one, or one that needs no transform: the wrapper of the variable agrees
with what it was, the slot is not substituted, and the only event about the slot is the
query of the kernel type, absent too when there is no initialized tensor. -/
theorem PrepareData_untouched_at (env : Env) (ins : NameVarMap VarId) (K : OpKernelType)
    (st : State) (hwf : WellFormed st ins K) (s2 : Loop)
    (hloop : PrepareDataSlots env ins K (MapSlots ins) st.enter = .ok s2)
    (name : String) (i : Nat) (v : VarId) (hslot : GetSlot ins name i = some v)
    (hcond : ∀ t, GetTensorFromVar (st.heap v).var_ = some t → t.initialized = true →
      env.NeedTransform (env.GetKernelTypeForVar name t K) K = false) :
    Agree st.heap s2.heap v ∧
    GetSlot (s2.tmp_ins_ptr.getD ins) name i = some v ∧
    ∃ ev, s2.trace = st.trace ++ ev ∧
      (∀ e ∈ ev, e.slot = some (name, i) → e = Event.GetKernelTypeForVar name i) ∧
      ((∀ t, GetTensorFromVar (st.heap v).var_ = some t → t.initialized = false) →
        ∀ e ∈ ev, e.slot ≠ some (name, i)) := by
  obtain ⟨hkeys, hnodup, hvars, _⟩ := hwf
  have hmem := mem_MapSlots_of_GetSlot ins name i v hslot
  obtain ⟨pre, post, sa, sb, hl, ha, hb, hc⟩ := PrepareDataSlots_split env ins K (MapSlots ins)
    st.enter s2 hloop name i v hmem
  have hv : v < st.next := hvars v (by rw [← SlotVars_MapSlots]; exact List.mem_map.2 ⟨_, hmem, rfl⟩)
  obtain ⟨hv1, hv2⟩ := not_mem_of_nodup_split (fun sl : String × Nat × VarId => sl.2.2)
    (MapSlots ins) pre post (name, i, v) hl (by
      have := SlotVars_MapSlots ins
      unfold SlotVars at this
      rw [this]
      exact hnodup)
  obtain ⟨hp1, hp2⟩ := not_mem_of_nodup_split
    (fun sl : String × Nat × VarId => (sl.1, sl.2.1)) (MapSlots ins) pre post (name, i, v) hl
    (SlotPositions_MapSlots_nodup ins hkeys)
  have ag1 : Agree st.heap sa.heap v :=
    PrepareDataSlots_frame env ins K pre st.enter sa ha v hv hv1
  have hle1 : st.next ≤ sa.next := PrepareDataSlots_next_le env ins K pre st.enter sa ha
  have hcond2 : ∀ t, GetTensorFromVar (sa.heap v).var_ = some t → t.initialized = true →
      env.NeedTransform (env.GetKernelTypeForVar name t K) K = false := by
    intro t ht
    rw [ag1.1] at ht
    exact hcond t ht
  obtain ⟨ag2, hn2, htmp2, ev2, htr2, hev2⟩ :=
    PrepareDataSlot_untouched env ins K name i v sa sb hb hcond2
  have ag3 : Agree sb.heap s2.heap v :=
    PrepareDataSlots_frame env ins K post sb s2 hc v (by rw [hn2]; exact Nat.lt_of_lt_of_le hv hle1) hv2
  have hs1 := PrepareDataSlots_slot_frame env ins K pre st.enter sa ha name i hp1
  have hs3 := PrepareDataSlots_slot_frame env ins K post sb s2 hc name i hp2
  obtain ⟨e1, t1, q1⟩ := PrepareDataSlots_events env ins K pre st.enter sa ha
  obtain ⟨e3, t3, q3⟩ := PrepareDataSlots_events env ins K post sb s2 hc
  obtain ⟨eg, tg, qg⟩ := SetForwardDataTypeOfGradVar_trace env v sa
  refine ⟨Agree_trans _ _ _ v ag1 (Agree_trans _ _ _ v ag2 ag3), ?_, e1 ++ (eg ++ (ev2 ++ e3)),
    ?_, ?_, ?_⟩
  · rw [hs3, htmp2, hs1]
    exact hslot
  · rw [t3, htr2, tg, t1]
    simp only [List.append_assoc]
    rfl
  · intro e he hsl
    simp only [List.mem_append] at he
    rcases he with h | h | h | h
    · exact absurd (q1 e h _ hsl) hp1
    · obtain ⟨g, d, hgd⟩ := qg e h
      rw [hgd] at hsl
      simp [Event.slot] at hsl
    · exact hev2 e h
    · exact absurd (q3 e h _ hsl) hp2
  · intro hun e he hsl
    have hun2 : ∀ t, GetTensorFromVar (sa.heap v).var_ = some t → t.initialized = false := by
      intro t ht
      rw [ag1.1] at ht
      exact hun t ht
    have hb2 := PrepareDataSlot_no_tensor env ins K name i v sa hun2
    rw [hb] at hb2
    injection hb2 with hb2
    have hnil : ev2 = [] := by
      have h5 : sb.trace = (SetForwardDataTypeOfGradVar env v sa).trace := by rw [hb2]
      rw [htr2] at h5
      exact List.append_right_eq_self.1 h5
    simp only [List.mem_append] at he
    rcases he with h | h | h | h
    · exact absurd (q1 e h _ hsl) hp1
    · obtain ⟨g, d, hgd⟩ := qg e h
      rw [hgd] at hsl
      simp [Event.slot] at hsl
    · rw [hnil] at h
      simp at h
    · exact absurd (q3 e h _ hsl) hp2

theorem AssocFind_AssocSet_ne {κ α : Type} [DecidableEq κ] (k k2 : κ) (x : α)
    (m : List (κ × α)) (h : k2 ≠ k) : AssocFind k2 (AssocSet k x m) = AssocFind k2 m := by
  induction m with
  | nil =>
    have h2 : ¬ k = k2 := fun e => h e.symm
    simp [AssocSet, AssocFind, h2]
  | cons e rest ih =>
    obtain ⟨k1, v1⟩ := e
    by_cases h1 : k1 = k
    · subst h1
      have h2 : ¬ k1 = k2 := fun e => h e.symm
      simp [AssocSet, AssocFind, h2]
    · by_cases h3 : k1 = k2
      · subst h3
        simp [AssocSet, AssocFind, h1]
      · simp [AssocSet, AssocFind, h1, h3, ih]

/-- The cache of an allocated wrapper after one run of the loop body: it is as before, or
the wrapper is the variable of the slot, it had no entry for `K`, its tensor underwent a
transform that changes the data type, and the entry for `K` to the new variable was
added. -/
theorem PrepareDataSlot_cache (env : Env) (ins : NameVarMap VarId) (K : OpKernelType)
    (name : String) (i : Nat) (v : VarId) (s s2 : Loop)
    (hres : PrepareDataSlot env ins K name i v s = .ok s2) (j : Nat) (hj : j < s.next) :
    (s2.heap j).var_cache = (s.heap j).var_cache ∨
    (j = v ∧ AssocFind K (s.heap j).var_cache = none ∧
      (s2.heap j).var_cache = AssocSet K s.next (s.heap j).var_cache ∧
      s2.next = s.next + 1 ∧
      (∃ t, GetTensorFromVar (s.heap j).var_ = some t ∧ t.initialized = true ∧
        env.NeedTransform (env.GetKernelTypeForVar name t K) K = true ∧
        env.NeedTransformDataType (env.GetKernelTypeForVar name t K) K = true) ∧
      ∃ ev, s2.trace = s.trace ++ ev ∧ Event.TransformData name i ∈ ev ∧
        Event.setCacheValue name i ∈ ev) := by
  by_cases hjv : j = v
  · subst hjv
    rcases PrepareDataSlot_cases env ins K name i j s with
      ⟨_, hcond, _⟩ | ⟨_, _, _, _, _, _, _, hr⟩ | ⟨t, c, tc, a1, a2, a3, a4, a5, _⟩ |
      ⟨t, a1, a2, a3, a4, a5, _⟩ | ⟨t, a1, a2, a3, a4, a5, _⟩
    · left
      exact (PrepareDataSlot_untouched env ins K name i j s s2 hres hcond).1.2.1
    · rw [hr] at hres
      cases hres
    · left
      exact (PrepareDataSlot_hit env ins K name i j s s2 hres hj t c tc a1 a2 a3 a4 a5).1.2.1
    · right
      obtain ⟨_, h2, _, h4⟩ := PrepareDataSlot_cast env ins K name i j s s2 hres hj t a1 a2 a3
        a4 a5
      obtain ⟨eg, tg, _⟩ := SetForwardDataTypeOfGradVar_trace env j s
      have hns : NeedsSubstitution env K name (s.heap j) = true := by
        simp [NeedsSubstitution, a1, a2, a3, a5]
      have hnext := (PrepareDataSlot_next env ins K name i j s s2 hres).1
      rw [hns] at hnext
      refine ⟨rfl, a4, h2, by simpa using hnext, ⟨t, a1, a2, a3, a5⟩,
        eg ++ [Event.GetKernelTypeForVar name i, Event.hasCacheKey name i,
          Event.TransformData name i, Event.setCacheValue name i], ?_, by simp, by simp⟩
      rw [h4, tg, List.append_assoc]
    · left
      exact (PrepareDataSlot_inplace env ins K name i j s s2 hres t a1 a2 a3 a4 a5).2.1
  · left
    exact (PrepareDataSlot_frame env ins K name i v s s2 hres j hj hjv).2.1

/-- The cache of an allocated wrapper after a run of the loop body over a list of slots:
it is as before, or the wrapper had no entry for `K`, it is the variable of one of the
slots, whose tensor was transformed and cached, and the cache is the old one with the
entry for `K` to a variable allocated by the run. -/
theorem PrepareDataSlots_cache (env : Env) (ins : NameVarMap VarId) (K : OpKernelType)
    (l : List (String × Nat × VarId)) (s s2 : Loop)
    (hres : PrepareDataSlots env ins K l s = .ok s2) (j : Nat) (hj : j < s.next) :
    (s2.heap j).var_cache = (s.heap j).var_cache ∨
    (AssocFind K (s.heap j).var_cache = none ∧
      ∃ (n : Nat) (name : String) (i : Nat), s.next ≤ n ∧ n < s2.next ∧
        (s2.heap j).var_cache = AssocSet K n (s.heap j).var_cache ∧
        (name, i, j) ∈ l ∧
        ∃ ev, s2.trace = s.trace ++ ev ∧ Event.TransformData name i ∈ ev ∧
          Event.setCacheValue name i ∈ ev) := by
  induction l generalizing s with
  | nil =>
    simp only [PrepareDataSlots] at hres
    injection hres with hres
    left
    rw [hres]
  | cons sl rest ih =>
    obtain ⟨n0, k0, u⟩ := sl
    revert hres
    simp only [PrepareDataSlots]
    cases h1 : PrepareDataSlot env ins K n0 k0 u s with
    | error e => simp
    | ok s1 =>
      simp only []
      intro hres
      have hle1 := PrepareDataSlot_next_le env ins K n0 k0 u s s1 h1
      have hle2 := PrepareDataSlots_next_le env ins K rest s1 s2 hres
      obtain ⟨ev1, t1, _⟩ := PrepareDataSlot_events env ins K n0 k0 u s s1 h1
      obtain ⟨ev2, t2, _⟩ := PrepareDataSlots_events env ins K rest s1 s2 hres
      rcases PrepareDataSlot_cache env ins K n0 k0 u s s1 h1 j hj with
        c1 | ⟨hju, hnone, hset, hnext, _, ev, htr, he1, he2⟩
      · rcases ih s1 hres (Nat.lt_of_lt_of_le hj hle1) with
          c2 | ⟨hnone2, n, name, i, hn1, hn2, hset2, hmem, ev3, htr3, he3, he4⟩
        · left
          rw [c2, c1]
        · right
          rw [c1] at hnone2 hset2
          refine ⟨hnone2, n, name, i, Nat.le_trans hle1 hn1, hn2, hset2,
            List.mem_cons_of_mem _ hmem, ev1 ++ ev3, ?_, ?_, ?_⟩
          · rw [htr3, t1, List.append_assoc]
          · exact List.mem_append_right _ he3
          · exact List.mem_append_right _ he4
      · rcases ih s1 hres (Nat.lt_of_lt_of_le hj hle1) with
          c2 | ⟨hnone2, _⟩
        · right
          refine ⟨hnone, s.next, n0, k0, Nat.le_refl _, ?_, by rw [c2, hset], ?_, ev ++ ev2, ?_,
            ?_, ?_⟩
          · omega
          · rw [hju]
            exact List.mem_cons_self _ _
          · rw [t2, htr, List.append_assoc]
          · exact List.mem_append_left _ he1
          · exact List.mem_append_left _ he2
        · rw [hset, AssocFind_AssocSet] at hnone2
          cases hnone2

/-- Claim C20.  `PrepareData` only adds to the transform caches.  For every allocated
wrapper `j` and every key `K2`: an entry `(j, K2)` present before the call is present
after it with the same value; an entry present after the call and not before is under
the key `K` of the call, points to a variable allocated by the call, was inserted into
a wrapper that had no entry for `K` and is the variable of a slot of `ins` for which
`TransformData` ran and the result was cached, and it is the only change of that cache.
On a well-formed input the call returns and, in the state of the call, the tensor of
that variable is initialized and needs a transform to `K` that changes the data type. -/
theorem PrepareData_cache_grows (env : Env) (ins : NameVarMap VarId) (K : OpKernelType)
    (st : State) :
    (∀ (r : Option (NameVarMap VarId)) (st2 : State),
      PrepareData env ins K st = .ok (r, st2) → ∀ j : Nat, j < st.next →
      (∀ (K2 : OpKernelType) (c : VarId), AssocFind K2 (st.heap j).var_cache = some c →
        AssocFind K2 (st2.heap j).var_cache = some c) ∧
      (∀ (K2 : OpKernelType) (c : VarId), AssocFind K2 (st2.heap j).var_cache = some c →
        AssocFind K2 (st.heap j).var_cache = none →
        K2 = K ∧ st.next ≤ c ∧ c < st2.next ∧ AssocFind K (st.heap j).var_cache = none ∧
        (st2.heap j).var_cache = AssocSet K c (st.heap j).var_cache ∧
        ∃ (name : String) (i : Nat) (ev : List Event), (name, i, j) ∈ MapSlots ins ∧
          st2.trace = st.trace ++ ev ∧ Event.TransformData name i ∈ ev ∧
          Event.setCacheValue name i ∈ ev)) ∧
    (WellFormed st ins K →
      ∃ r st2, PrepareData env ins K st = .ok (r, st2) ∧
        ∀ j : Nat, j < st.next → ∀ (K2 : OpKernelType) (c : VarId),
          AssocFind K2 (st2.heap j).var_cache = some c →
          AssocFind K2 (st.heap j).var_cache = none →
          K2 = K ∧ ∃ (name : String) (i : Nat) (t : Tensor), GetSlot ins name i = some j ∧
            GetTensorFromVar (st.heap j).var_ = some t ∧ t.initialized = true ∧
            env.NeedTransform (env.GetKernelTypeForVar name t K) K = true ∧
            env.NeedTransformDataType (env.GetKernelTypeForVar name t K) K = true) := by
  have gen : ∀ s2 : Loop, PrepareDataSlots env ins K (MapSlots ins) st.enter = .ok s2 →
      ∀ j : Nat, j < st.next →
      (∀ (K2 : OpKernelType) (c : VarId), AssocFind K2 (st.heap j).var_cache = some c →
        AssocFind K2 (s2.heap j).var_cache = some c) ∧
      (∀ (K2 : OpKernelType) (c : VarId), AssocFind K2 (s2.heap j).var_cache = some c →
        AssocFind K2 (st.heap j).var_cache = none →
        K2 = K ∧ st.next ≤ c ∧ c < s2.next ∧ AssocFind K (st.heap j).var_cache = none ∧
        (s2.heap j).var_cache = AssocSet K c (st.heap j).var_cache ∧
        ∃ (name : String) (i : Nat) (ev : List Event), (name, i, j) ∈ MapSlots ins ∧
          s2.trace = st.trace ++ ev ∧ Event.TransformData name i ∈ ev ∧
          Event.setCacheValue name i ∈ ev) := by
    intro s2 hloop j hj
    rcases PrepareDataSlots_cache env ins K (MapSlots ins) st.enter s2 hloop j hj with
      c1 | ⟨hnone, n, name, i, hn1, hn2, hset, hmem, ev, htr, he1, he2⟩
    · have c1b : (s2.heap j).var_cache = (st.heap j).var_cache := c1
      constructor
      · intro K2 c h
        rw [c1b]
        exact h
      · intro K2 c h h0
        rw [c1b, h0] at h
        cases h
    · have hnoneb : AssocFind K (st.heap j).var_cache = none := hnone
      have hsetb : (s2.heap j).var_cache = AssocSet K n (st.heap j).var_cache := hset
      constructor
      · intro K2 c h
        have hne : K2 ≠ K := by
          intro e
          rw [e, hnoneb] at h
          cases h
        rw [hsetb, AssocFind_AssocSet_ne K K2 n _ hne]
        exact h
      · intro K2 c h h0
        by_cases hk : K2 = K
        · subst hk
          rw [hsetb, AssocFind_AssocSet] at h
          injection h with h
          subst h
          exact ⟨rfl, hn1, hn2, hnoneb, hsetb, name, i, ev, hmem, htr, he1, he2⟩
        · rw [hsetb, AssocFind_AssocSet_ne K K2 n _ hk, h0] at h
          cases h
  constructor
  · intro r st2 hrun j hj
    rw [PrepareData_eq] at hrun
    cases hloop : PrepareDataSlots env ins K (MapSlots ins) st.enter with
    | error e =>
      rw [hloop] at hrun
      cases hrun
    | ok s2 =>
      rw [hloop] at hrun
      simp only [Except.ok.injEq, Prod.mk.injEq] at hrun
      obtain ⟨_, h2⟩ := hrun
      rw [← h2]
      exact gen s2 hloop j hj
  · intro hwf
    obtain ⟨s2, hloop, hrun⟩ := PrepareData_run env ins K st hwf
    refine ⟨s2.tmp_ins_ptr, s2.leave, hrun, ?_⟩
    intro j hj K2 c h h0
    obtain ⟨hk, _, _, hnone, _, name, i, ev, hmem, _, _, _⟩ := (gen s2 hloop j hj).2 K2 c h h0
    refine ⟨hk, ?_⟩
    have hslot := GetSlot_of_mem_MapSlots ins hwf.1 name i j hmem
    have contra : Agree st.heap s2.heap j → False := by
      intro ag
      have h3 : AssocFind K2 (s2.heap j).var_cache = some c := h
      rw [ag.2.1, h0] at h3
      cases h3
    cases ht : GetTensorFromVar (st.heap j).var_ with
    | none =>
      exact absurd (PrepareData_untouched_at env ins K st hwf s2 hloop name i j hslot
        (by intro t h1; rw [ht] at h1; cases h1)).1 contra
    | some t =>
      cases hi : t.initialized with
      | false =>
        refine absurd (PrepareData_untouched_at env ins K st hwf s2 hloop name i j hslot
          ?_).1 contra
        intro t2 h1 h2
        rw [ht] at h1
        injection h1 with h1
        rw [← h1, hi] at h2
        cases h2
      | true =>
        cases hnt : env.NeedTransform (env.GetKernelTypeForVar name t K) K with
        | false =>
          refine absurd (PrepareData_untouched_at env ins K st hwf s2 hloop name i j hslot
            ?_).1 contra
          intro t2 h1 _
          rw [ht] at h1
          injection h1 with h1
          rw [← h1]
          exact hnt
        | true =>
          cases hd : env.NeedTransformDataType (env.GetKernelTypeForVar name t K) K with
          | true => exact ⟨name, i, t, hslot, rfl, hi, hnt, hd⟩
          | false =>
            obtain ⟨_, hc2, _⟩ := PrepareData_inplace_at env ins K st hwf s2 hloop name i j hslot
              t ht hi hnt hnone hd
            have h3 : AssocFind K2 (s2.heap j).var_cache = some c := h
            rw [hc2, h0] at h3
            cases h3

/-- Claim C20 at a concrete input: `x` already has a cache entry for another key, to `y`;
the call with the float64 key keeps it and adds the entry for the float64 key to the
new variable 3, and the cache of `out`, which is no input, stays empty. -/
theorem PrepareData_cache_grows_witness :
    WellFormed
      { Sample.state with
        heap := Sample.heap.set 0 { Sample.heap 0 with var_cache := [(Sample.keyDevice, 1)] } }
      Sample.xIns Sample.keyDouble ∧
    (∃ r st2, PrepareData Sample.env Sample.xIns Sample.keyDouble
        { Sample.state with
          heap := Sample.heap.set 0
            { Sample.heap 0 with var_cache := [(Sample.keyDevice, 1)] } } = .ok (r, st2) ∧
      ∀ j : Nat, j < 3 → ∀ (K2 : OpKernelType) (c : VarId),
        AssocFind K2 (st2.heap j).var_cache = some c →
        AssocFind K2 ((Sample.heap.set 0
          { Sample.heap 0 with var_cache := [(Sample.keyDevice, 1)] }) j).var_cache = none →
        K2 = Sample.keyDouble ∧ ∃ (name : String) (i : Nat) (t : Tensor),
          GetSlot Sample.xIns name i = some j ∧
          GetTensorFromVar ((Sample.heap.set 0
            { Sample.heap 0 with var_cache := [(Sample.keyDevice, 1)] }) j).var_ = some t ∧
          t.initialized = true ∧
          Sample.env.NeedTransform (Sample.env.GetKernelTypeForVar name t Sample.keyDouble)
            Sample.keyDouble = true ∧
          Sample.env.NeedTransformDataType
            (Sample.env.GetKernelTypeForVar name t Sample.keyDouble) Sample.keyDouble = true) ∧
    (PrepareData Sample.env Sample.xIns Sample.keyDouble
        { Sample.state with
          heap := Sample.heap.set 0
            { Sample.heap 0 with var_cache := [(Sample.keyDevice, 1)] } }).map
      (fun p => ((p.2.heap 0).var_cache, (p.2.heap 2).var_cache, p.2.next)) =
      .ok ([(Sample.keyDevice, 1), (Sample.keyDouble, 3)], [], 4) :=
  ⟨by decide,
    (PrepareData_cache_grows Sample.env Sample.xIns Sample.keyDouble
      { Sample.state with
        heap := Sample.heap.set 0
          { Sample.heap 0 with var_cache := [(Sample.keyDevice, 1)] } }).2 (by decide),
    by decide⟩

/-! ### PrepareData: the forward data type of the gradient variables -/

/-- What `SetForwardDataTypeOfGradVar` does to a wrapper: the gradient variable of `v`
gets the data type of `v` as forward data type, nothing else changes. -/
theorem SetForwardDataTypeOfGradVar_fields (env : Env) (v : VarId) (s : Loop) (j : VarId) :
    ((SetForwardDataTypeOfGradVar env v s).heap j).grad_var_ = (s.heap j).grad_var_ ∧
    ((SetForwardDataTypeOfGradVar env v s).heap j).fwd_data_type_ =
      (if (s.heap v).grad_var_ = some j then env.DataType (s.heap v)
        else (s.heap j).fwd_data_type_) ∧
    ((s.heap v).grad_var_ ≠ some j → (SetForwardDataTypeOfGradVar env v s).heap j = s.heap j) := by
  cases hg : (s.heap v).grad_var_ with
  | none => simp [SetForwardDataTypeOfGradVar, hg]
  | some g =>
    by_cases h : j = g
    · subst h
      simp [SetForwardDataTypeOfGradVar, hg, Heap.set]
    · have h2 : ¬ g = j := fun e => h e.symm
      simp [SetForwardDataTypeOfGradVar, hg, Heap.set, h, h2]

/-- After the forward data type was propagated, the loop body changes neither the
gradient link nor the forward data type of an allocated wrapper, and it leaves every
allocated wrapper other than the variable of the slot as it is. -/
theorem PrepareDataSlot_fields (env : Env) (ins : NameVarMap VarId) (K : OpKernelType)
    (name : String) (i : Nat) (v : VarId) (s s2 : Loop)
    (hres : PrepareDataSlot env ins K name i v s = .ok s2) (j : Nat) (hj : j < s.next) :
    (s2.heap j).grad_var_ = ((SetForwardDataTypeOfGradVar env v s).heap j).grad_var_ ∧
    (s2.heap j).fwd_data_type_ =
      ((SetForwardDataTypeOfGradVar env v s).heap j).fwd_data_type_ ∧
    (j ≠ v → s2.heap j = (SetForwardDataTypeOfGradVar env v s).heap j) := by
  have hne : j ≠ s.next := Nat.ne_of_lt hj
  rcases PrepareDataSlot_cases env ins K name i v s with
    ⟨_, _, ev, _, hr⟩ | ⟨_, _, _, _, _, _, _, hr⟩ | ⟨_, _, _, _, _, _, _, _, hr⟩ |
    ⟨_, _, _, _, _, _, hr⟩ | ⟨_, _, _, _, _, _, hr⟩
  · rw [hr] at hres
    injection hres with hres
    rw [← hres]
    exact ⟨rfl, rfl, fun _ => rfl⟩
  · rw [hr] at hres
    cases hres
  · rw [hr] at hres
    injection hres with hres
    rw [← hres]
    simp [Heap.set, hne]
  · rw [hr] at hres
    injection hres with hres
    rw [← hres]
    by_cases hjv : j = v
    · subst hjv
      simp [Heap.set, hne]
    · simp [Heap.set, hne, hjv]
  · rw [hr] at hres
    injection hres with hres
    rw [← hres]
    by_cases hjv : j = v
    · subst hjv
      simp [Heap.set]
    · simp [Heap.set, hjv]

/-- The loop body and the forward data types: the gradient variable of the variable of
the slot gets the data type of that variable, no other forward data type changes, no
gradient link changes, and a wrapper that is neither the variable of the slot nor its
gradient variable is left as it is. -/
theorem PrepareDataSlot_forward (env : Env) (ins : NameVarMap VarId) (K : OpKernelType)
    (name : String) (i : Nat) (v : VarId) (s s2 : Loop)
    (hres : PrepareDataSlot env ins K name i v s = .ok s2) (j : Nat) (hj : j < s.next) :
    (s2.heap j).grad_var_ = (s.heap j).grad_var_ ∧
    (s2.heap j).fwd_data_type_ =
      (if (s.heap v).grad_var_ = some j then env.DataType (s.heap v)
        else (s.heap j).fwd_data_type_) ∧
    (j ≠ v → (s.heap v).grad_var_ ≠ some j → s2.heap j = s.heap j) := by
  obtain ⟨a1, a2, a3⟩ := PrepareDataSlot_fields env ins K name i v s s2 hres j hj
  obtain ⟨b1, b2, b3⟩ := SetForwardDataTypeOfGradVar_fields env v s j
  refine ⟨a1.trans b1, a2.trans b2, fun h1 h2 => (a3 h1).trans (b3 h2)⟩

/-- The `SetForwardDataType` events of one run of the loop body: at most the one for the
gradient variable of the variable of the slot, with the data type of that variable. -/
theorem PrepareDataSlot_forward_events (env : Env) (ins : NameVarMap VarId)
    (K : OpKernelType) (name : String) (i : Nat) (v : VarId) (s s2 : Loop)
    (hres : PrepareDataSlot env ins K name i v s = .ok s2) :
    ∃ ev, s2.trace = s.trace ++ ev ∧
      ∀ g d, Event.SetForwardDataType g d ∈ ev →
        (s.heap v).grad_var_ = some g ∧ d = env.DataType (s.heap v) := by
  have hg : ∃ eg, (SetForwardDataTypeOfGradVar env v s).trace = s.trace ++ eg ∧
      ∀ g d, Event.SetForwardDataType g d ∈ eg →
        (s.heap v).grad_var_ = some g ∧ d = env.DataType (s.heap v) := by
    cases hgv : (s.heap v).grad_var_ with
    | none => exact ⟨[], by simp [SetForwardDataTypeOfGradVar, hgv], by simp⟩
    | some g0 =>
      refine ⟨[Event.SetForwardDataType g0 (env.DataType (s.heap v))],
        by simp [SetForwardDataTypeOfGradVar, hgv], ?_⟩
      intro g d h
      simp only [List.mem_singleton, Event.SetForwardDataType.injEq] at h
      exact ⟨by rw [h.1], h.2⟩
  obtain ⟨eg, tg, qg⟩ := hg
  have key : ∀ ev1 : List Event, (∀ g d, Event.SetForwardDataType g d ∉ ev1) →
      s2.trace = (SetForwardDataTypeOfGradVar env v s).trace ++ ev1 →
      ∃ ev, s2.trace = s.trace ++ ev ∧
        ∀ g d, Event.SetForwardDataType g d ∈ ev →
          (s.heap v).grad_var_ = some g ∧ d = env.DataType (s.heap v) := by
    intro ev1 h1 h2
    refine ⟨eg ++ ev1, by rw [h2, tg, List.append_assoc], ?_⟩
    intro g d h
    rcases List.mem_append.1 h with h3 | h3
    · exact qg g d h3
    · exact absurd h3 (h1 g d)
  rcases PrepareDataSlot_cases env ins K name i v s with
    ⟨_, _, ev, hev, hr⟩ | ⟨_, _, _, _, _, _, _, hr⟩ | ⟨_, _, _, _, _, _, _, _, hr⟩ |
    ⟨_, _, _, _, _, _, hr⟩ | ⟨_, _, _, _, _, _, hr⟩
  · rw [hr] at hres
    injection hres with hres
    refine key ev ?_ (by rw [← hres])
    intro g d h
    have := hev _ h
    cases this
  · rw [hr] at hres
    cases hres
  · rw [hr] at hres
    injection hres with hres
    refine key _ ?_ (by rw [← hres])
    intro g d h
    simp at h
  · rw [hr] at hres
    injection hres with hres
    refine key _ ?_ (by rw [← hres])
    intro g d h
    simp at h
  · rw [hr] at hres
    injection hres with hres
    refine key _ ?_ (by rw [← hres])
    intro g d h
    simp at h

/-- A run of the loop body over a list of slots changes no gradient link of an allocated
wrapper. -/
theorem PrepareDataSlots_grad_field (env : Env) (ins : NameVarMap VarId) (K : OpKernelType)
    (l : List (String × Nat × VarId)) (s s2 : Loop)
    (hres : PrepareDataSlots env ins K l s = .ok s2) (j : Nat) (hj : j < s.next) :
    (s2.heap j).grad_var_ = (s.heap j).grad_var_ := by
  induction l generalizing s with
  | nil =>
    simp only [PrepareDataSlots] at hres
    injection hres with hres
    rw [hres]
  | cons sl rest ih =>
    obtain ⟨n, k, u⟩ := sl
    revert hres
    simp only [PrepareDataSlots]
    cases h1 : PrepareDataSlot env ins K n k u s with
    | error e => simp
    | ok s1 =>
      simp only []
      intro hres
      have hle := PrepareDataSlot_next_le env ins K n k u s s1 h1
      rw [ih s1 hres (Nat.lt_of_lt_of_le hj hle)]
      exact (PrepareDataSlot_forward env ins K n k u s s1 h1 j hj).1

/-- A run of the loop body over a list of slots leaves the forward data type of an
allocated wrapper that is the gradient variable of none of the variables of the slots,
and it leaves the whole wrapper when it is none of these variables either. -/
theorem PrepareDataSlots_forward_frame (env : Env) (ins : NameVarMap VarId)
    (K : OpKernelType) (l : List (String × Nat × VarId)) (s s2 : Loop)
    (hres : PrepareDataSlots env ins K l s = .ok s2)
    (hvars : ∀ u ∈ SlotVars l, u < s.next) (j : Nat) (hj : j < s.next)
    (hno : ∀ u ∈ SlotVars l, (s.heap u).grad_var_ ≠ some j) :
    (s2.heap j).fwd_data_type_ = (s.heap j).fwd_data_type_ ∧
    (j ∉ SlotVars l → s2.heap j = s.heap j) := by
  induction l generalizing s with
  | nil =>
    simp only [PrepareDataSlots] at hres
    injection hres with hres
    rw [hres]
    exact ⟨rfl, fun _ => rfl⟩
  | cons sl rest ih =>
    obtain ⟨n, k, u⟩ := sl
    revert hres
    simp only [PrepareDataSlots]
    cases h1 : PrepareDataSlot env ins K n k u s with
    | error e => simp
    | ok s1 =>
      simp only []
      intro hres
      have hle := PrepareDataSlot_next_le env ins K n k u s s1 h1
      have hu : (s.heap u).grad_var_ ≠ some j := hno u (by simp [SlotVars])
      obtain ⟨_, b, c⟩ := PrepareDataSlot_forward env ins K n k u s s1 h1 j hj
      rw [if_neg hu] at b
      have hvars2 : ∀ w ∈ SlotVars rest, w < s1.next := by
        intro w hw
        exact Nat.lt_of_lt_of_le (hvars w (by simp [SlotVars] at hw ⊢; exact Or.inr hw)) hle
      have hno2 : ∀ w ∈ SlotVars rest, (s1.heap w).grad_var_ ≠ some j := by
        intro w hw
        have hw2 : w ∈ SlotVars ((n, k, u) :: rest) := by
          simp [SlotVars] at hw ⊢
          exact Or.inr hw
        rw [(PrepareDataSlot_forward env ins K n k u s s1 h1 w (hvars w hw2)).1]
        exact hno w hw2
      obtain ⟨d1, d2⟩ := ih s1 hres hvars2 (Nat.lt_of_lt_of_le hj hle) hno2
      refine ⟨d1.trans b, ?_⟩
      intro hnot
      have hju : j ≠ u := by
        intro e
        apply hnot
        simp [SlotVars, e]
      have hjr : j ∉ SlotVars rest := by
        intro e
        apply hnot
        simp [SlotVars] at e ⊢
        exact Or.inr e
      rw [d2 hjr]
      exact c hju hu

theorem BuildPlainAttr_none (env : Env) (attrs default_attrs : AttributeMap) (name : String)
    (t : AttrTypeIndex) (h : BuildPlainAttr env attrs default_attrs name t = .ok none) :
    t = .vector_int64 ∧ ∃ v, GetAttr attrs default_attrs name = .ok v ∧ ∀ xs, v ≠ .ints xs := by
  unfold BuildPlainAttr at h
  cases hg : GetAttr attrs default_attrs name with
  | error e =>
    rw [hg] at h
    cases h
  | ok v =>
    rw [hg] at h
    cases t <;> cases v <;> simp at h <;> exact ⟨rfl, _, rfl, by simp⟩

/-- A turn of the attribute loop that throws nothing appends exactly one attribute,
unless its argument is one the loop passes over in silence. -/
theorem BuildAttr_one (env : Env) (ins : NameVarMap VarId) (attrs default_attrs : AttributeMap)
    (name : String) (arg_def : AttributeArgDef) (s : BuildState)
    (hok : (BuildAttr env ins attrs default_attrs name arg_def s).error = none)
    (hno : ¬ SkippedAttr attrs default_attrs name arg_def) :
    ∃ a, (BuildAttr env ins attrs default_attrs name arg_def s).state = EmplaceBackAttr s a := by
  revert hok
  unfold BuildAttr
  split
  · split
    · intro _
      exact ⟨_, rfl⟩
    · simp
  · split
    · intro _
      exact ⟨_, rfl⟩
    · simp
  · rename_i t _ _
    split
    · intro _
      exact ⟨_, rfl⟩
    · rename_i hb
      intro _
      exact absurd (BuildPlainAttr_none env attrs default_attrs name _ hb) hno
    · simp

/-- An attribute loop that completes and passes over none of its arguments has appended
one attribute per name. -/
theorem BuildAttrs_count (env : Env) (attr_defs : List AttributeArgDef)
    (ins : NameVarMap VarId) (attrs default_attrs : AttributeMap) (names : List String)
    (i : Nat) (s : BuildState)
    (hok : (BuildAttrs env attr_defs ins attrs default_attrs names i s).error = none)
    (hno : ∀ (k : Nat) (name : String) (d : AttributeArgDef), names[k]? = some name →
      attr_defs[i + k]? = some d → ¬ SkippedAttr attrs default_attrs name d) :
    (BuildAttrs env attr_defs ins attrs default_attrs names i s).state.kernel_ctx.attrs_.length =
      s.kernel_ctx.attrs_.length + names.length := by
  induction names generalizing i s with
  | nil => rfl
  | cons n rest ih =>
    revert hok
    simp only [BuildAttrs]
    cases hd : attr_defs[i]? with
    | none => simp
    | some d =>
      simp only []
      have hone := BuildAttr_one env ins attrs default_attrs n d s
      cases hr : BuildAttr env ins attrs default_attrs n d s with
      | mk s1 e =>
        rw [hr] at hone
        simp only at hone
        cases e with
        | some e => simp
        | none =>
          simp only []
          intro hok
          obtain ⟨a, ha⟩ := hone rfl (hno 0 n d (by simp) (by rw [Nat.add_zero]; exact hd))
          rw [ih (i + 1) s1 hok ?_, ha]
          · simp only [EmplaceBackAttr, List.length_append, List.length_cons, List.length_nil]
            omega
          · intro k name d2 hk hdk
            exact hno (k + 1) name d2 (by simpa using hk) (by rw [← hdk]; congr 1; omega)

theorem BuildInput_attrs (ins : NameVarMap VarId) (name : String) (i : Nat) (s : BuildState) :
    (BuildInput ins name i s).state.kernel_ctx.attrs_ = s.kernel_ctx.attrs_ := by
  unfold BuildInput
  split
  · simp
  · split
    · simp
    · simp only []
      split <;> simp

theorem BuildInputs_attrs (ins : NameVarMap VarId) (names : List String) (i : Nat)
    (s : BuildState) :
    (BuildInputs ins names i s).state.kernel_ctx.attrs_ = s.kernel_ctx.attrs_ := by
  induction names generalizing i s with
  | nil => simp [BuildInputs]
  | cons name rest ih =>
    have h1 := BuildInput_attrs ins name i s
    simp only [BuildInputs]
    cases hr : BuildInput ins name i s with
    | mk s1 e =>
      rw [hr] at h1
      simp only at h1
      cases e with
      | some e => exact h1
      | none =>
        simp only []
        rw [ih (i + 1) s1, h1]

/-- Claim C19, the code at the failing input.  Starting from an empty kernel context, a
build that completes holds one attribute per declared attribute name whenever the
attribute loop passes over none of the arguments in silence; but it does pass over an
argument declared as a vector of `int64_t` whose stored attribute is not a vector of
ints.  The signature declares the two attributes `axis` (an int) and `shape` (a vector
of `int64_t`), `shape` being stored as the vector of int64 `[2, 3]`: from the empty
context the build completes without error with one attribute only; and with the two
attributes declared in the other order, attribute 0 of the context is the one of
argument 1. -/
theorem BuildDygraphPtenKernelContext_attribute_count :
    (∀ (env : Env) (sig : KernelSignature) (kernel : KernelArgsDef) (ins : NameVarMap VarId)
      (outs : NameVarMap (Option VarId)) (attrs default_attrs : AttributeMap) (dev_ctx : Nat)
      (s0 : BuildState),
      s0.kernel_ctx = KernelContext.empty →
      (BuildDygraphPtenKernelContext env sig kernel ins outs attrs default_attrs dev_ctx
        s0).error = none →
      (∀ (k : Nat) (name : String) (d : AttributeArgDef), sig.attr_names[k]? = some name →
        kernel.attribute_defs[k]? = some d → ¬ SkippedAttr attrs default_attrs name d) →
      (BuildDygraphPtenKernelContext env sig kernel ins outs attrs default_attrs dev_ctx
        s0).state.kernel_ctx.attrs_.length = sig.attr_names.length) ∧
    Sample.build0.kernel_ctx = KernelContext.empty ∧
    Sample.axisShapeSig.attr_names.length = 2 ∧
    SkippedAttr [("axis", .int 1), ("shape", .longs [2, 3])] [] "shape" ⟨.vector_int64⟩ ∧
    (BuildDygraphPtenKernelContext Sample.env Sample.axisShapeSig Sample.axisShapeKernel
      Sample.xIns Sample.addOuts [("axis", .int 1), ("shape", .longs [2, 3])] [] 0
      Sample.build0).error = none ∧
    (BuildDygraphPtenKernelContext Sample.env Sample.axisShapeSig Sample.axisShapeKernel
      Sample.xIns Sample.addOuts [("axis", .int 1), ("shape", .longs [2, 3])] [] 0
      Sample.build0).state.kernel_ctx.attrs_ = [.int 1] ∧
    (BuildDygraphPtenKernelContext Sample.env Sample.shapeAxisSig Sample.shapeAxisKernel
      Sample.xIns Sample.addOuts [("axis", .int 1), ("shape", .longs [2, 3])] [] 0
      Sample.build0).error = none ∧
    (BuildDygraphPtenKernelContext Sample.env Sample.shapeAxisSig Sample.shapeAxisKernel
      Sample.xIns Sample.addOuts [("axis", .int 1), ("shape", .longs [2, 3])] [] 0
      Sample.build0).state.kernel_ctx.attrs_[0]? = some (.int 1) ∧
    (BuildDygraphPtenKernelContext Sample.env Sample.axisShapeSig Sample.axisShapeKernel
      Sample.xIns Sample.addOuts [("axis", .int 1), ("shape", .ints [2, 3])] [] 0
      Sample.build0).state.kernel_ctx.attrs_ = [.int 1, .vector_int64 [2, 3]] := by
  refine ⟨?_, ?_, ?_, ?_, ?_, ?_, ?_, ?_, ?_⟩
  · intro env sig kernel ins outs attrs default_attrs dev_ctx s0 hempty hok hno
    obtain ⟨s1, s2, h1, h2, hrun⟩ := BuildDygraphPtenKernelContext_completed env sig kernel ins
      outs attrs default_attrs dev_ctx s0 hok
    have a1 := BuildInputs_attrs ins sig.input_names 0
      { s0 with kernel_ctx := { s0.kernel_ctx with dev_ctx_ := some dev_ctx } }
    rw [h1] at a1
    have a2 := (BuildOutputs_frame env kernel.output_defs outs sig.output_names 0 s1).2.2.1
    rw [h2] at a2
    simp only [hempty, KernelContext.empty] at a1
    simp only at a2
    rw [hrun] at hok ⊢
    rw [BuildAttrs_count env kernel.attribute_defs ins attrs default_attrs sig.attr_names 0 s2
      hok (fun k name d hk hd => hno k name d hk (by rw [Nat.zero_add] at hd; exact hd)),
      a2, a1]
    simp
  · decide
  · decide
  · exact ⟨rfl, .longs [2, 3], by decide, by simp⟩
  all_goals decide

end Paddle
